import Mathlib

/-!
# Copilot sidebar: flow analysis engine

A shallow embedding of the flow analyzers of `copilot-sidebar.js`
(`CopilotAnalyzer`), `copilot-panel.js` (`CopilotPanel`), `model-manager.js`
(`ModelManager`) and `models-config.js` (`ModelsConfig`), and theorems about them.

Conventions of the embedding.

* A JavaScript object field that may be absent is an `Option`.
* A call that throws returns `Except.error` with the message thrown; reading a
  property of `undefined` is the error `"TypeError"`.
* A recursive walk carries a fuel counter; running out of fuel is the error
  `"fuel"` (or `none`), and the theorems show that the fuel the callers pass is
  always enough.
* Mutable sets (`new Set()`) are lists used through membership only.
* An object used as a dictionary (`this.models`, `this.apiKeys`,
  `this.customEndpoints`, the prompts, the groups of `findDuplicatePatterns`)
  is the list of its own properties together with what it inherits: a read
  `object[key]` finds the own property, else the member of `Object.prototype`
  of that name (`objectPrototypeNames`), which is truthy and is no string,
  array or model; `delete` removes own properties only; and the assignment
  `this.models['__proto__'] = value` installs `value` as the prototype of the
  catalogue (`modelsProto`), whose fields are then read through every key that
  is no own property. A `Map` is a list of key and value and inherits nothing.
* A string whose code units matter (`hashCode`, `substring`, the default
  `sort`) is the list of its UTF-16 code units.
* A call of a method that no class defines (`generateGlobalSuggestions`,
  `generateFlowSuggestions`, `analyzeFlowPerformance` of `CopilotAnalyzer`)
  throws a `TypeError`, as does `push` on an inherited member.
* The library calls `JSON.stringify`, `JSON.parse` and `fetch`, the process
  environment and the clock are parameters (`Env`, `PanelEnv`).
* The three detector methods that `CopilotPanel.findFlowIssues` calls through
  `this` are the fields of `Checks`, so that a method that throws can stand in
  their place; `Checks.own` holds the methods as the class defines them.
-/

namespace CopilotSidebar

/-! ## Data model -/

/-- Values of the free-form properties of a node. -/
inductive Val where
  | str (s : String)
  | num (n : Int)
  | bool (b : Bool)
  | null
  | strs (xs : List (List String))
  deriving DecidableEq, Repr

/-- A node of a flow. The fields the analyzers read are typed as the editor
writes them; `props` holds the remaining own properties of the object (name, x,
y, z, credentials and so on) in insertion order. -/
structure Node where
  id : String
  type : String
  wires : Option (List (List String))
  func : Option String
  url : Option String
  method : Option String
  props : List (String × Val)
  deriving DecidableEq, Repr

/-- A flow (one tab of the editor). The analyzers test `flow.nodes` for
presence, so the node list is optional. -/
structure Flow where
  id : String
  label : Option String
  type : Option String
  nodes : Option (List Node)
  deriving DecidableEq, Repr

/-- A finding of a detector. -/
structure Finding where
  type : String
  severity : String
  title : String
  message : String
  nodeIds : Option (List String)
  action : Option String
  deriving DecidableEq, Repr

/-- A recognised pattern. -/
structure Pattern where
  name : String
  confidence : Nat
  icon : String
  description : String
  recommendations : List String
  deriving DecidableEq, Repr

/-- The result of `calculateComplexity`; the early return for a flow without
node list carries `level` and `score` only. -/
structure Complexity where
  level : String
  score : Int
  nodeCount : Option Nat
  connections : Option Nat
  depth : Option Nat
  branches : Option Nat
  deriving DecidableEq, Repr

/-! ## JavaScript primitives -/

/-- JavaScript `s.includes(t)` on strings: `t` occurs in `s` as a contiguous substring. -/
def includesChars (t : List Char) : List Char → Bool
  | [] => t.isEmpty
  | c :: cs => t.isPrefixOf (c :: cs) || includesChars t cs

/-- JavaScript `s.includes(t)`. -/
def strIncludes (s t : String) : Bool := includesChars t.data s.data

/-- JavaScript `s.startsWith(t)`. -/
def startsWith (s t : String) : Bool := t.data.isPrefixOf s.data

/-- Truthiness of an optional string: absent and empty strings are falsy. -/
def truthyStr : Option String → Bool
  | none => false
  | some s => !s.isEmpty

/-- Truthiness of a property value. -/
def Val.truthy : Val → Bool
  | .str s => !s.isEmpty
  | .num n => n != 0
  | .bool b => b
  | .null => false
  | .strs _ => true

/-- The own enumerable properties of a node object, as `{ ...node }` copies them. -/
def Node.entries (node : Node) : List (String × Val) :=
  [("id", Val.str node.id), ("type", Val.str node.type)] ++
  (match node.wires with | some ws => [("wires", Val.strs ws)] | none => []) ++
  (match node.func with | some f => [("func", Val.str f)] | none => []) ++
  (match node.url with | some u => [("url", Val.str u)] | none => []) ++
  (match node.method with | some m => [("method", Val.str m)] | none => []) ++
  node.props

/-- The names of the members of `Object.prototype`, which every plain object
inherits: eleven functions and the accessor `__proto__`. Each of them is read
as a truthy value that is neither a string nor an array. -/
def objectPrototypeNames : List String :=
  ["constructor", "__defineGetter__", "__defineSetter__", "hasOwnProperty",
   "__lookupGetter__", "__lookupSetter__", "isPrototypeOf", "propertyIsEnumerable",
   "toString", "valueOf", "__proto__", "toLocaleString"]

/-- A truthy value read from a plain object that stores strings: a string of
its own, or a member that it inherits from `Object.prototype`. -/
inductive Held where
  | text (value : String)
  | inherited (name : String)
  deriving DecidableEq, Repr

/-- JavaScript `object[key] || ...` on a plain object whose own properties are
strings: the own property if it is a non-empty string, the inherited member if
the key is no own property and names one, and `none` (falsy) otherwise. -/
def readTruthy (key : String) (own : List (String × String)) : Option Held :=
  match own.lookup key with
  | some value => if value.isEmpty then none else some (.text value)
  | none => if objectPrototypeNames.contains key then some (.inherited key) else none

/-- JavaScript `s.replace(pat, rep)` with a string pattern: the first occurrence only. -/
def replaceFirstChars (pat rep : List Char) : List Char → List Char
  | [] => if pat.isEmpty then rep else []
  | c :: cs =>
    if pat.isPrefixOf (c :: cs) then rep ++ (c :: cs).drop pat.length
    else c :: replaceFirstChars pat rep cs

/-- JavaScript `s.replace(pat, rep)`. -/
def strReplace (s pat rep : String) : String :=
  String.mk (replaceFirstChars pat.data rep.data s.data)

/-- Reads `flow.nodes`, throwing as a property read on `undefined` does when a method
is called on an absent node list. -/
def Flow.nodesOrThrow (flow : Flow) : Except String (List Node) :=
  match flow.nodes with
  | some ns => .ok ns
  | none => .error "TypeError"

/-! ## Regular expressions of `hasHeavyOperations`

The four patterns are concatenations of single-character classes, each taken
once, any number of times (`*`) or at least `n` times (`{n,}`). `test` only asks
whether some match exists, so greediness plays no role. The classes used are
either single characters of the basic plane or complements of one, so matching
by code point agrees with matching by UTF-16 code unit. -/

/-- One quantified character class of a pattern. -/
inductive RxItem where
  | one (p : Char → Bool)
  | star (p : Char → Bool)
  | atLeast (n : Nat) (p : Char → Bool)

/-- Consume any number of characters of class `p`, then continue with `k`. -/
def rxStar (p : Char → Bool) (k : List Char → Bool) : List Char → Bool
  | [] => k []
  | c :: cs => k (c :: cs) || (p c && rxStar p k cs)

/-- Consume exactly `n` characters of class `p`, then continue with `k`. -/
def rxRepeat (p : Char → Bool) (k : List Char → Bool) : Nat → List Char → Bool
  | 0, cs => k cs
  | _ + 1, [] => false
  | n + 1, c :: cs => p c && rxRepeat p k n cs

/-- Does the pattern match a prefix of the input? -/
def rxMatchHere : List RxItem → List Char → Bool
  | [], _ => true
  | .one p :: rest, cs => rxRepeat p (fun r => rxMatchHere rest r) 1 cs
  | .star p :: rest, cs => rxStar p (fun r => rxMatchHere rest r) cs
  | .atLeast n p :: rest, cs => rxRepeat p (rxStar p (fun r => rxMatchHere rest r)) n cs

/-- JavaScript `pattern.test(code)` for a pattern without flags: a match starts at some
position of the input. -/
def rxTest (items : List RxItem) : List Char → Bool
  | [] => rxMatchHere items []
  | c :: cs => rxMatchHere items (c :: cs) || rxTest items cs

/-- The class of one given character. -/
def rxChar (c : Char) : RxItem := .one (fun x => x == c)

/-- A literal piece of a pattern. -/
def rxLit (s : String) : List RxItem := s.data.map rxChar

/-- The class `\s` of ECMAScript: white space and line terminators. -/
def isJsSpace (c : Char) : Bool :=
  c == '\t' || c == '\n' || c == '\x0b' || c == '\x0c' || c == '\r' || c == ' ' ||
  c == '\u00a0' || c == '\u1680' || ('\u2000' ≤ c && c ≤ '\u200a') ||
  c == '\u2028' || c == '\u2029' || c == '\u202f' || c == '\u205f' ||
  c == '\u3000' || c == '\ufeff'

/-- The class `\d`. -/
def isJsDigit (c : Char) : Bool := '0' ≤ c && c ≤ '9'

/-- The pattern `/for\s*\([^)]*;\s*[^<]*<\s*\d{3,}/`. -/
def rxHeavyFor : List RxItem :=
  rxLit "for" ++ [.star isJsSpace, rxChar '(', .star (fun c => c != ')'), rxChar ';',
    .star isJsSpace, .star (fun c => c != '<'), rxChar '<', .star isJsSpace,
    .atLeast 3 isJsDigit]

/-- The pattern `/while\s*\([^)]*\d{3,}/`. -/
def rxHeavyWhile : List RxItem :=
  rxLit "while" ++ [.star isJsSpace, rxChar '(', .star (fun c => c != ')'),
    .atLeast 3 isJsDigit]

/-- The pattern `/\.map\s*\([^)]*\)\.map/`. -/
def rxHeavyMap : List RxItem :=
  rxLit ".map" ++ [.star isJsSpace, rxChar '(', .star (fun c => c != ')'), rxChar ')'] ++
    rxLit ".map"

/-- The pattern `/JSON\.parse\s*\([^)]*\.length\s*>\s*\d{4}/`. -/
def rxHeavyJson : List RxItem :=
  rxLit "JSON.parse" ++ [.star isJsSpace, rxChar '(', .star (fun c => c != ')')] ++
    rxLit ".length" ++ [.star isJsSpace, rxChar '>', .star isJsSpace] ++
    List.replicate 4 (.one isJsDigit)

/-! ## `CopilotAnalyzer` (copilot-sidebar.js) -/

namespace CopilotAnalyzer

/-- Method `countConnections(flow)`: the number of wire targets of all nodes. -/
def countConnections (flow : Flow) : Except String Nat := do
  let nodes ← flow.nodesOrThrow
  return nodes.foldl (fun connections node =>
    match node.wires with
    | some wires => wires.foldl (fun c wireArray => c + wireArray.length) connections
    | none => connections) 0

/-- Method `countBranches(flow)`. -/
def countBranches (flow : Flow) : Except String Nat := do
  let nodes ← flow.nodesOrThrow
  return nodes.foldl (fun branches node =>
    match node.wires with
    | some wires =>
      if wires.length > 0 then
        let totalOutputs := wires.foldl (fun sum wireArray => sum + wireArray.length) 0
        if totalOutputs > 1 then branches + (totalOutputs - 1) else branches
      else branches
    | none => branches) 0

/-- The inner `wireArray.forEach` of `findDepth`: the state is the running
`localMaxDepth` and the `visited` set; `walk` is the recursive call. -/
def findDepthTargets (walk : String → Nat → List String → Option (Nat × List String))
    (depth : Nat) : List String → Nat × List String → Option (Nat × List String)
  | [], st => some st
  | targetId :: rest, (localMaxDepth, visited) =>
    match walk targetId (depth + 1) visited with
    | none => none
    | some (targetDepth, visited1) =>
      findDepthTargets walk depth rest (max localMaxDepth targetDepth, visited1)

/-- The outer `node.wires.forEach` of `findDepth`. -/
def findDepthWires (walk : String → Nat → List String → Option (Nat × List String))
    (depth : Nat) : List (List String) → Nat × List String → Option (Nat × List String)
  | [], st => some st
  | wireArray :: rest, st =>
    match findDepthTargets walk depth wireArray st with
    | none => none
    | some st1 => findDepthWires walk depth rest st1

/-- The closure `findDepth(nodeId, depth)` of `calculateFlowDepth`, with the
`visited` set passed in and out; `none` when the fuel runs out. -/
def findDepth (nodes : List Node) : Nat → String → Nat → List String → Option (Nat × List String)
  | 0, _, _, _ => none
  | fuel + 1, nodeId, depth, visited =>
    if visited.contains nodeId then some (depth, visited)
    else
      let visited1 := nodeId :: visited
      match nodes.find? (fun n => n.id == nodeId) with
      | none => some (depth, visited1)
      | some node =>
        match node.wires with
        | none => some (depth, visited1)
        | some wires =>
          findDepthWires (fun t d v => findDepth nodes fuel t d v) depth wires (depth, visited1)

/-- The `startNodes.forEach` of `calculateFlowDepth`: the state is `maxDepth`;
the `visited` set is cleared before each walk. -/
def flowDepthLoop (nodes : List Node) (fuel : Nat) : List Node → Nat → Option Nat
  | [], maxDepth => some maxDepth
  | startNode :: rest, maxDepth =>
    match findDepth nodes fuel startNode.id 0 [] with
    | none => none
    | some (depth, _) => flowDepthLoop nodes fuel rest (max maxDepth depth)

/-- Method `calculateFlowDepth(flow)`. -/
def calculateFlowDepth (flow : Flow) : Except String Nat := do
  let nodes ← flow.nodesOrThrow
  let startNodes := nodes.filter (fun node =>
    ["inject", "http in", "mqtt in", "websocket in"].contains node.type)
  match flowDepthLoop nodes (nodes.length + 1) startNodes 0 with
  | some maxDepth => return maxDepth
  | none => throw "fuel"

/-- JavaScript `Math.round` on an exact rational: halves round up. -/
def mathRound (x : ℚ) : Int := ⌊x + 1 / 2⌋

/-- Method `calculateComplexity(flow)`. The score is a sum of integers and halves, which
double arithmetic computes exactly, so it is taken over the rationals. -/
def calculateComplexity (flow : Flow) : Except String Complexity :=
  match flow.nodes with
  | none => .ok { level := "simple", score := 0, nodeCount := none, connections := none,
                  depth := none, branches := none }
  | some nodes => do
    let nodeCount := nodes.length
    let connections ← countConnections flow
    let depth ← calculateFlowDepth flow
    let branches ← countBranches flow
    let complexityScore : ℚ :=
      (nodeCount : ℚ) + ((connections : ℚ) * (1 / 2)) + ((depth : ℚ) * 2) +
        ((branches : ℚ) * (3 / 2))
    let level :=
      if complexityScore > 50 then "complex"
      else if complexityScore > 20 then "medium"
      else "simple"
    return { level := level, score := mathRound complexityScore, nodeCount := some nodeCount,
             connections := some connections, depth := some depth, branches := some branches }

/-- The local `hasOutput` of `findDisconnectedNodes`. -/
def hasOutput (node : Node) : Bool :=
  match node.wires with
  | some wires => decide (wires.length > 0) && wires.any (fun wire => decide (wire.length > 0))
  | none => false

/-- The local `hasInput` of `findDisconnectedNodes`. -/
def hasInput (nodes : List Node) (node : Node) : Bool :=
  nodes.any (fun other =>
    match other.wires with
    | some wires => wires.any (fun wire => wire.contains node.id)
    | none => false)

/-- The filter predicate of `findDisconnectedNodes`. -/
def isDisconnected (nodes : List Node) (node : Node) : Bool :=
  if ["comment", "tab", "group"].contains node.type then false
  else if node.type == "inject" then !hasOutput node
  else if ["debug", "http response"].contains node.type then !hasInput nodes node
  else !hasOutput node && !hasInput nodes node

/-- Method `findDisconnectedNodes(flow)`. -/
def findDisconnectedNodes (flow : Flow) : Except String (List Node) := do
  let nodes ← flow.nodesOrThrow
  return nodes.filter (isDisconnected nodes)

/-- Method `checkErrorHandling(flow)`. -/
def checkErrorHandling (flow : Flow) : Except String (List String) := do
  let nodes ← flow.nodesOrThrow
  let vulnerableNodes := (nodes.filter (fun node =>
    ["function", "http request", "exec", "file", "tcp"].contains node.type)).map (·.id)
  let catchNodes := nodes.filter (fun n => n.type == "catch")
  if vulnerableNodes.length > 0 && catchNodes.length == 0 then
    return vulnerableNodes
  return []

/-- Method `hasHeavyOperations(code)`. -/
def hasHeavyOperations (code : String) : Bool :=
  [rxHeavyFor, rxHeavyWhile, rxHeavyMap, rxHeavyJson].any (fun pattern => rxTest pattern code.data)

/-- Method `findPerformanceIssues(flow)`. -/
def findPerformanceIssues (flow : Flow) : Except String (List Finding) := do
  let nodes ← flow.nodesOrThrow
  let httpNodes := nodes.filter (fun n => n.type == "http request")
  let issues1 : List Finding :=
    if httpNodes.length > 5 then
      [{ type := "too-many-http", severity := "warning", title := "Много HTTP запросов",
         message := toString httpNodes.length ++ " HTTP запросов могут перегрузить сервер",
         nodeIds := some (httpNodes.map (·.id)),
         action := some "Добавьте delay узлы или группируйте запросы" }]
    else []
  let heavyFunctions := nodes.filter (fun node =>
    if node.type != "function" || !truthyStr node.func then false
    else hasHeavyOperations (node.func.getD ""))
  let issues2 : List Finding :=
    if heavyFunctions.length > 0 then
      [{ type := "heavy-function", severity := "warning", title := "Тяжелые операции в function",
         message := toString heavyFunctions.length ++
           " function узлов содержат потенциально медленный код",
         nodeIds := some (heavyFunctions.map (·.id)),
         action := some "Оптимизируйте циклы или вынесите логику в отдельный модуль" }]
    else []
  return issues1 ++ issues2

/-- The local `hasAuth` of `findSecurityIssues`, as a truth value. -/
def hasAuth (node : Node) : Bool :=
  match node.url with
  | some url => !url.isEmpty &&
      (strIncludes url "auth" || strIncludes url "login" || strIncludes url "token")
  | none => false

/-- Method `findSecurityIssues(flow)`. -/
def findSecurityIssues (flow : Flow) : Except String (List Finding) := do
  let nodes ← flow.nodesOrThrow
  let unsecureHttp := nodes.filter (fun node =>
    if node.type != "http in" then false
    else !hasAuth node && node.method != some "get")
  if unsecureHttp.length > 0 then
    return [{ type := "unsecure-http", severity := "high",
              title := "HTTP endpoints без аутентификации",
              message := toString unsecureHttp.length ++ " endpoints могут быть уязвимы",
              nodeIds := some (unsecureHttp.map (·.id)),
              action := some "Добавьте проверку токенов или basic authentication" }]
  return []

/-- Method `findFlowIssues(flow)`. -/
def findFlowIssues (flow : Flow) : Except String (List Finding) := do
  let disconnected ← findDisconnectedNodes flow
  let issues1 : List Finding :=
    if disconnected.length > 0 then
      [{ type := "disconnected", severity := "warning", title := "Отключенные узлы",
         message := toString disconnected.length ++ " узлов не подключены",
         nodeIds := some (disconnected.map (·.id)),
         action := some "Подключите или удалите неиспользуемые узлы" }]
    else []
  let needsErrorHandling ← checkErrorHandling flow
  let issues2 : List Finding :=
    if needsErrorHandling.length > 0 then
      [{ type := "no-error-handling", severity := "high", title := "Нет обработки ошибок",
         message := toString needsErrorHandling.length ++ " узлов могут генерировать ошибки",
         nodeIds := some needsErrorHandling,
         action := some "Добавьте catch узлы для обработки ошибок" }]
    else []
  let performanceIssues ← findPerformanceIssues flow
  let securityIssues ← findSecurityIssues flow
  return issues1 ++ issues2 ++ performanceIssues ++ securityIssues

/-- The pattern pushed for an HTTP API. -/
def patternHttpApi : Pattern :=
  { name := "HTTP API", confidence := 90, icon := "🌐", description := "REST API endpoints",
    recommendations := ["Добавьте rate limiting", "Используйте валидацию данных",
      "Логируйте запросы"] }

/-- The pattern pushed for an IoT sensor. -/
def patternIotSensor : Pattern :=
  { name := "IoT Sensor", confidence := 85, icon := "📡",
    description := "Обработка данных сенсоров",
    recommendations := ["Фильтруйте аномальные значения",
      "Добавьте проверку качества сигнала"] }

/-- The pattern pushed for a dashboard. -/
def patternDashboard : Pattern :=
  { name := "Dashboard", confidence := 95, icon := "📊", description := "Панель мониторинга",
    recommendations := ["Ограничьте частоту обновлений", "Группируйте связанные элементы"] }

/-- The pattern pushed for an automation. -/
def patternAutomation : Pattern :=
  { name := "Automation", confidence := 80, icon := "🤖",
    description := "Автоматизация процессов",
    recommendations := ["Добавьте логирование действий", "Предусмотрите ручное отключение"] }

/-- Method `detectFlowPatterns(flow)`. -/
def detectFlowPatterns (flow : Flow) : Except String (List Pattern) := do
  let nodes ← flow.nodesOrThrow
  let nodeTypes := nodes.map (·.type)
  let p1 := if nodeTypes.contains "http in" && nodeTypes.contains "http response"
    then [patternHttpApi] else []
  let p2 := if nodeTypes.contains "mqtt in" &&
      (nodeTypes.contains "function" || nodeTypes.contains "switch")
    then [patternIotSensor] else []
  let p3 := if nodeTypes.any (fun type => startsWith type "ui_")
    then [patternDashboard] else []
  let p4 := if nodeTypes.contains "inject" && nodeTypes.contains "switch" &&
      (nodeTypes.contains "change" || nodeTypes.contains "function")
    then [patternAutomation] else []
  return p1 ++ p2 ++ p3 ++ p4

end CopilotAnalyzer

/-! ## `ModelsConfig` (models-config.js) -/

/-- A model descriptor of the catalogue. -/
structure ModelConfig where
  id : String
  name : String
  provider : String
  endpoint : Option String
  model : Option String
  maxTokens : Option Nat
  temperature : Option ℚ
  requiresApiKey : Bool
  icon : Option String
  description : Option String
  features : Option (List String)
  deriving DecidableEq, Repr

/-- What `this.models[id]` evaluates to when it is truthy: a model object, or
another truthy value, which has no `id`, `provider`, `endpoint` or
`requiresApiKey` (a member of `Object.prototype`, that object itself, or a field
of an object installed as the prototype of the catalogue). -/
inductive ModelEntry where
  | model (config : ModelConfig)
  | other
  deriving DecidableEq, Repr

/-- The field `id` of a value read from the catalogue; `none` is `undefined`. -/
def ModelEntry.id : ModelEntry → Option String
  | .model config => some config.id
  | .other => none

/-- The field `provider` of a value read from the catalogue; `none` is
`undefined`. -/
def ModelEntry.provider : ModelEntry → Option String
  | .model config => some config.provider
  | .other => none

/-- The property key that a value gives in `object[value]`: the string itself,
and the word undefined for `undefined`. -/
def propertyKey (value : Option String) : String := value.getD "undefined"

/-- The registry object: the own properties of the catalogue `models` (keyed by
id; `__proto__` is never one of them), the object that an assignment to
`models['__proto__']` installed as its prototype, if any, the selection and the
credential and endpoint maps. -/
structure ModelsConfig where
  models : List (String × ModelConfig)
  modelsProto : Option ModelConfig
  defaultModel : String
  currentModel : String
  apiKeys : List (String × String)
  customEndpoints : List (String × String)
  deriving DecidableEq, Repr

/-- What the process and the network answer to the registry and the manager. -/
inductive FetchOutcome where
  /-- A response arrived; `body` is what the adapter reads out of it: the
  message it throws (unreadable body, `data.error`, missing field) or the text
  and the reported token total. -/
  | response (ok : Bool) (status : Nat) (statusText : String)
      (body : Except String (Option String × Option Nat))
  /-- The timeout fired and the request was aborted (`AbortError`). -/
  | abort
  /-- The request was rejected for another reason. -/
  | reject (message : String)

/-- The sanitized node of a prompt. -/
structure NodeInfo where
  id : String
  type : String
  name : Val
  config : List (String × Val)
  wires : List (List String)
  deriving DecidableEq, Repr

/-- The sanitized flow snapshot of a prompt. -/
structure FlowInfo where
  id : String
  label : Option String
  type : Option String
  nodeCount : Nat
  nodes : List NodeInfo
  deriving DecidableEq, Repr

/-- The text of a prompt: the base prompt followed by the JSON of the snapshot. -/
structure Prompt where
  basePrompt : Held
  flowInfo : FlowInfo
  deriving DecidableEq, Repr

/-- The surroundings of one call: string case mapping, the process environment,
the clock, the reachability probe and the backend. -/
structure Env where
  toLowerCase : String → String
  toUpperCase : String → String
  processEnv : String → Option String
  /-- The `fetch` of `checkLocalEndpoint`: `response.ok`, or a rejection. -/
  probe : String → Except String Bool
  /-- The `fetch` of `makeRequest`, per endpoint, credential, model and prompt. -/
  fetch : Option Held → Option Held → ModelConfig → Prompt → FetchOutcome
  startTime : Int
  endTime : Int
  isoTime : String

namespace ModelsConfig

/-- The catalogue built by the constructor. -/
def builtinCatalogue : List (String × ModelConfig) :=
  [("openai-gpt-3.5",
     { id := "openai-gpt-3.5", name := "OpenAI GPT-3.5 Turbo", provider := "openai",
       endpoint := some "https://api.openai.com/v1/chat/completions",
       model := some "gpt-3.5-turbo", maxTokens := some 4096, temperature := some (3 / 10),
       requiresApiKey := true, icon := some "🤖",
       description := some "Быстрая и эффективная модель для анализа кода",
       features := some ["code-analysis", "recommendations", "security-check"] }),
   ("openai-gpt-4",
     { id := "openai-gpt-4", name := "OpenAI GPT-4", provider := "openai",
       endpoint := some "https://api.openai.com/v1/chat/completions",
       model := some "gpt-4", maxTokens := some 8192, temperature := some (3 / 10),
       requiresApiKey := true, icon := some "🧠",
       description := some "Продвинутая модель для глубокого анализа",
       features := some ["code-analysis", "recommendations", "security-check",
         "architecture-review"] }),
   ("claude-3-haiku",
     { id := "claude-3-haiku", name := "Claude 3 Haiku", provider := "anthropic",
       endpoint := some "https://api.anthropic.com/v1/messages",
       model := some "claude-3-haiku-20240307", maxTokens := some 4096,
       temperature := some (3 / 10), requiresApiKey := true, icon := some "🎭",
       description := some "Быстрая модель Claude для базового анализа",
       features := some ["code-analysis", "recommendations"] }),
   ("claude-3-sonnet",
     { id := "claude-3-sonnet", name := "Claude 3 Sonnet", provider := "anthropic",
       endpoint := some "https://api.anthropic.com/v1/messages",
       model := some "claude-3-sonnet-20240229", maxTokens := some 4096,
       temperature := some (3 / 10), requiresApiKey := true, icon := some "🎼",
       description := some "Сбалансированная модель для качественного анализа",
       features := some ["code-analysis", "recommendations", "security-check"] }),
   ("ollama-codellama",
     { id := "ollama-codellama", name := "Ollama CodeLlama", provider := "ollama",
       endpoint := some "http://localhost:11434/api/generate",
       model := some "codellama:7b", maxTokens := some 2048, temperature := some (2 / 10),
       requiresApiKey := false, icon := some "🦙",
       description := some "Локальная модель для анализа кода",
       features := some ["code-analysis", "recommendations"] }),
   ("ollama-llama2",
     { id := "ollama-llama2", name := "Ollama Llama2", provider := "ollama",
       endpoint := some "http://localhost:11434/api/generate",
       model := some "llama2:7b", maxTokens := some 2048, temperature := some (3 / 10),
       requiresApiKey := false, icon := some "🦙",
       description := some "Универсальная локальная модель",
       features := some ["code-analysis", "recommendations"] }),
   ("lmstudio-local",
     { id := "lmstudio-local", name := "LM Studio Local", provider := "lmstudio",
       endpoint := some "http://localhost:1234/v1/chat/completions",
       model := some "local-model", maxTokens := some 4096, temperature := some (3 / 10),
       requiresApiKey := false, icon := some "🏠",
       description := some "Локальная модель через LM Studio",
       features := some ["code-analysis", "recommendations"] }),
   ("builtin-analyzer",
     { id := "builtin-analyzer", name := "Встроенный анализатор", provider := "builtin",
       endpoint := none, model := none, maxTokens := none, temperature := none,
       requiresApiKey := false, icon := some "⚙️",
       description := some "Базовый анализ без AI (всегда доступен)",
       features := some ["basic-analysis", "pattern-detection"] })]

/-- The constructor `new ModelsConfig()`. -/
def new : ModelsConfig :=
  { models := builtinCatalogue, modelsProto := none, defaultModel := "builtin-analyzer",
    currentModel := "builtin-analyzer", apiKeys := [], customEndpoints := [] }

/-- The truthiness of the field `key` of an object stored by `addCustomModel`;
`false` also when the object has no such field. -/
def fieldTruthy (object : ModelConfig) (key : String) : Bool :=
  if key == "id" then !object.id.isEmpty
  else if key == "name" then !object.name.isEmpty
  else if key == "provider" then !object.provider.isEmpty
  else if key == "endpoint" then truthyStr object.endpoint
  else if key == "model" then truthyStr object.model
  else if key == "maxTokens" then (object.maxTokens.map (fun n => n != 0)).getD false
  else if key == "temperature" then (object.temperature.map (fun t => t != 0)).getD false
  else if key == "requiresApiKey" then object.requiresApiKey
  else if key == "icon" then truthyStr object.icon
  else if key == "description" then truthyStr object.description
  else if key == "features" then object.features.isSome
  else false

/-- Method `getModel(modelId)`, that is `this.models[modelId] || null`; `none` is
`null`. The key `__proto__` reads the prototype of the catalogue; any other key
reads the own property, else the field of the installed prototype, else the
member of `Object.prototype`. -/
def getModel (cfg : ModelsConfig) (modelId : String) : Option ModelEntry :=
  if modelId == "__proto__" then
    match cfg.modelsProto with
    | some object => some (.model object)
    | none => some .other
  else
    match cfg.models.lookup modelId with
    | some model => some (.model model)
    | none =>
      if (cfg.modelsProto.map (fun object => fieldTruthy object modelId)).getD false then
        some .other
      else if objectPrototypeNames.contains modelId then some .other
      else none

/-- Method `getCurrentModel()`. -/
def getCurrentModel (cfg : ModelsConfig) : Option ModelEntry :=
  cfg.getModel cfg.currentModel

/-- Method `setCurrentModel(modelId)`: the new state and the value returned. -/
def setCurrentModel (cfg : ModelsConfig) (modelId : String) : ModelsConfig × Bool :=
  match cfg.getModel modelId with
  | some _ => ({ cfg with currentModel := modelId }, true)
  | none => (cfg, false)

/-- Method `getApiKey(provider)`: the stored key, else the environment variable, else
`null`; an empty string counts as absent. -/
def getApiKey (cfg : ModelsConfig) (env : Env) (provider : String) : Option Held :=
  match readTruthy provider cfg.apiKeys with
  | some k => some k
  | none =>
    ((env.processEnv (env.toUpperCase provider ++ "_API_KEY")).filter
      (fun k => !k.isEmpty)).map Held.text

/-- Method `getEndpoint(modelId)`. -/
def getEndpoint (cfg : ModelsConfig) (modelId : String) : Option Held :=
  match cfg.getModel modelId with
  | none => none
  | some entry =>
    match readTruthy modelId cfg.customEndpoints with
    | some e => some e
    | none =>
      match entry with
      | .model model => model.endpoint.map Held.text
      | .other => none

/-- Method `checkLocalEndpoint(endpoint)`: every failure, a missing endpoint included,
is caught and answered `false`. -/
def checkLocalEndpoint (env : Env) (endpoint : Option String) : Bool :=
  match endpoint with
  | none => false
  | some e =>
    match env.probe (strReplace (strReplace e "/api/generate" "/api/tags")
        "/v1/chat/completions" "/v1/models") with
    | .ok ok => ok
    | .error _ => false

/-- Method `isModelAvailable(modelId)`. A truthy value that is no model object
has no `provider` and no `requiresApiKey`, so it passes every test. -/
def isModelAvailable (cfg : ModelsConfig) (env : Env) (modelId : String) : Bool :=
  match cfg.getModel modelId with
  | none => false
  | some .other => true
  | some (.model model) =>
    if model.provider == "builtin" then true
    else if model.requiresApiKey && (cfg.getApiKey env model.provider).isNone then false
    else if ["ollama", "lmstudio"].contains model.provider then
      checkLocalEndpoint env model.endpoint
    else true

/-- What `localStorage` holds under `copilot-models-config`, once parsed. -/
structure SavedConfig where
  currentModel : Option String
  apiKeys : Option (List (String × String))
  customEndpoints : Option (List (String × String))

/-- Method `loadConfig()`; `saved` is `none` when there is no storage, nothing stored
or the stored text does not parse. -/
def loadConfig (cfg : ModelsConfig) (saved : Option SavedConfig) : ModelsConfig :=
  match saved with
  | none => cfg
  | some config =>
    { cfg with
      currentModel := (config.currentModel.filter (fun m => !m.isEmpty)).getD cfg.defaultModel
      apiKeys := config.apiKeys.getD []
      customEndpoints := config.customEndpoints.getD [] }

/-- The `codeAnalysis` prompt of `getPrompts()`. -/
def promptCodeAnalysis : String :=
  "Ты эксперт по анализу Node-RED потоков. Проанализируй предоставленный поток и найди:\n1. Потенциальные проблемы и ошибки\n2. Возможности для оптимизации\n3. Проблемы безопасности\n4. Рекомендации по улучшению\n\nОтвечай на русском языке в формате JSON:\n\x7b\n  \"issues\": [\x7b\"type\": \"тип\", \"severity\": \"high/warning/info\", \"title\": \"заголовок\", \"message\": \"описание\", \"action\": \"рекомендация\"\x7d],\n  \"patterns\": [\x7b\"name\": \"название\", \"confidence\": число, \"description\": \"описание\"\x7d],\n  \"recommendations\": [\"рекомендация1\", \"рекомендация2\"]\n\x7d"

/-- The `securityCheck` prompt of `getPrompts()`. -/
def promptSecurityCheck : String :=
  "Проведи анализ безопасности Node-RED потока. Найди:\n1. Уязвимости безопасности\n2. Небезопасные практики\n3. Проблемы с аутентификацией\n4. Утечки данных\n\nОтвечай на русском языке в формате JSON с детальным описанием найденных проблем."

/-- The `performanceAnalysis` prompt of `getPrompts()`. -/
def promptPerformanceAnalysis : String :=
  "Проанализируй производительность Node-RED потока:\n1. Узкие места\n2. Неэффективные операции\n3. Проблемы с памятью\n4. Рекомендации по оптимизации\n\nОтвечай на русском языке с конкретными рекомендациями."

/-- Method `getPrompts()`, as a keyed list. -/
def getPrompts : List (String × String) :=
  [("codeAnalysis", promptCodeAnalysis), ("securityCheck", promptSecurityCheck),
   ("performanceAnalysis", promptPerformanceAnalysis)]

end ModelsConfig

/-! ## `ModelManager` (model-manager.js) -/

/-- A pattern as the built-in analysis reports it. -/
structure BuiltinPattern where
  name : String
  confidence : Nat
  description : String
  deriving DecidableEq, Repr

/-- The `analysis` object of `performBuiltinAnalysis`. -/
structure BuiltinAnalysis where
  issues : List Finding
  patterns : List BuiltinPattern
  recommendations : List String
  source : String
  deriving DecidableEq, Repr

/-- The `content` of a result: the text of a backend, or the JSON text of a
built-in analysis (kept as the object that `JSON.stringify` serialises). -/
inductive AnalysisContent where
  | text (s : Option String)
  | json (analysis : BuiltinAnalysis)
  deriving DecidableEq, Repr

/-- What `analyzeWithAI` resolves to: an object with `content`, `tokensUsed`
and `model`, or the bare `analysis` object of the early return of
`performBuiltinAnalysis`. -/
inductive AnalysisResult where
  | reply (content : AnalysisContent) (tokensUsed : Nat) (model : Option String)
  | bare (analysis : BuiltinAnalysis)
  deriving DecidableEq, Repr

/-- An entry of the request history. -/
structure UsageRecord where
  timestamp : String
  modelId : Option String
  analysisType : String
  success : Bool
  responseTime : Option Int
  tokensUsed : Option Nat
  error : Option String
  deriving DecidableEq, Repr

/-- The manager object. -/
structure ModelManager where
  config : ModelsConfig
  requestTimeout : Nat
  retryAttempts : Nat
  requestHistory : List UsageRecord
  maxHistorySize : Nat
  deriving DecidableEq, Repr

namespace ModelManager

/-- The constructor `new ModelManager(modelsConfig)`. -/
def new (modelsConfig : ModelsConfig) : ModelManager :=
  { config := modelsConfig, requestTimeout := 30000, retryAttempts := 2,
    requestHistory := [], maxHistorySize := 100 }

/-- The list `sensitiveFields` of `sanitizeNodeConfig`. -/
def sensitiveFields : List String :=
  ["password", "token", "apikey", "secret", "key", "credentials", "auth", "cert", "private"]

/-- The fields deleted by `sanitizeNodeConfig`. -/
def systemFields : List String := ["id", "type", "wires", "x", "y", "z"]

/-- The redaction marker. -/
def redacted : Val := Val.str "[СКРЫТО]"

/-- The test `sensitiveFields.some(field => lowerKey.includes(field))`. -/
def isSensitiveKey (toLowerCase : String → String) (key : String) : Bool :=
  sensitiveFields.any (fun field => strIncludes (toLowerCase key) field)

/-- Method `sanitizeNodeConfig(node)`; `toLowerCase` is the case mapping of the
runtime. -/
def sanitizeNodeConfig (toLowerCase : String → String) (node : Node) : List (String × Val) :=
  let config := node.entries
  let config := systemFields.foldl (fun c field => c.filter (fun kv => kv.1 != field)) config
  config.map (fun kv => if isSensitiveKey toLowerCase kv.1 then (kv.1, redacted) else kv)

/-- Method `prepareFlowData(flowData)`. -/
def prepareFlowData (toLowerCase : String → String) (flowData : Flow) : FlowInfo :=
  { id := flowData.id, label := flowData.label, type := flowData.type,
    nodeCount := match flowData.nodes with | some ns => ns.length | none => 0,
    nodes := match flowData.nodes with
      | some ns => ns.map (fun node =>
          { id := node.id, type := node.type,
            name := match node.props.lookup "name" with
              | some v => if v.truthy then v else Val.str ""
              | none => Val.str "",
            config := sanitizeNodeConfig toLowerCase node,
            wires := node.wires.getD [] })
      | none => [] }

/-- Method `buildPrompt(flowData, analysisType)`. -/
def buildPrompt (toLowerCase : String → String) (flowData : Flow) (analysisType : String) :
    Prompt :=
  let basePrompt :=
    match readTruthy analysisType ModelsConfig.getPrompts with
    | some t => t
    | none => Held.text ModelsConfig.promptCodeAnalysis
  { basePrompt := basePrompt, flowInfo := prepareFlowData toLowerCase flowData }

/-- Method `makeRequest(url, options)`: the body of an accepted response, or the
message thrown. -/
def makeRequest (outcome : FetchOutcome) : Except String (Option String × Option Nat) :=
  match outcome with
  | .response ok status statusText body =>
    if !ok then .error ("HTTP " ++ toString status ++ ": " ++ statusText) else body
  | .abort => .error "Превышено время ожидания запроса"
  | .reject message => .error message

/-- Method `callOpenAI(model, prompt)`. -/
def callOpenAI (mm : ModelManager) (env : Env) (model : ModelConfig) (prompt : Prompt) :
    Except String AnalysisResult :=
  match mm.config.getApiKey env "openai" with
  | none => .error "OpenAI API ключ не настроен"
  | some apiKey => do
    let endpoint := mm.config.getEndpoint model.id
    let (content, tokens) ← makeRequest (env.fetch endpoint (some apiKey) model prompt)
    return .reply (.text content) (tokens.getD 0) model.model

/-- Method `callClaude(model, prompt)`. -/
def callClaude (mm : ModelManager) (env : Env) (model : ModelConfig) (prompt : Prompt) :
    Except String AnalysisResult :=
  match mm.config.getApiKey env "anthropic" with
  | none => .error "Anthropic API ключ не настроен"
  | some apiKey => do
    let endpoint := mm.config.getEndpoint model.id
    let (content, tokens) ← makeRequest (env.fetch endpoint (some apiKey) model prompt)
    return .reply (.text content) (tokens.getD 0) model.model

/-- Method `callOllama(model, prompt)`; the token count is always `0`. -/
def callOllama (mm : ModelManager) (env : Env) (model : ModelConfig) (prompt : Prompt) :
    Except String AnalysisResult := do
  let endpoint := mm.config.getEndpoint model.id
  let (content, _) ← makeRequest (env.fetch endpoint none model prompt)
  return .reply (.text content) 0 model.model

/-- Method `callLMStudio(model, prompt)`. -/
def callLMStudio (mm : ModelManager) (env : Env) (model : ModelConfig) (prompt : Prompt) :
    Except String AnalysisResult := do
  let endpoint := mm.config.getEndpoint model.id
  let (content, tokens) ← makeRequest (env.fetch endpoint none model prompt)
  return .reply (.text content) (tokens.getD 0) model.model

/-- Method `callAIModel(model, flowData, analysisType)`. A value without
`provider` falls to the default branch of the `switch`. -/
def callAIModel (mm : ModelManager) (env : Env) (model : ModelEntry) (flowData : Flow)
    (analysisType : String) : Except String AnalysisResult :=
  let prompt := buildPrompt env.toLowerCase flowData analysisType
  match model with
  | .model config =>
    if config.provider == "openai" then callOpenAI mm env config prompt
    else if config.provider == "anthropic" then callClaude mm env config prompt
    else if config.provider == "ollama" then callOllama mm env config prompt
    else if config.provider == "lmstudio" then callLMStudio mm env config prompt
    else .error ("Неподдерживаемый провайдер: " ++ config.provider)
  | .other => .error "Неподдерживаемый провайдер: undefined"

/-- Method `findDisconnectedNodes(flowData)` of the manager. -/
def findDisconnectedNodes (flowData : Flow) : Except String (List Node) := do
  let nodes ← flowData.nodesOrThrow
  return nodes.filter (fun node =>
    if ["comment", "tab", "group"].contains node.type then false
    else
      let hasOutput := match node.wires with
        | some wires => decide (wires.length > 0) && wires.any (fun wire => decide (wire.length > 0))
        | none => false
      let hasInput := nodes.any (fun other =>
        match other.wires with
        | some wires => wires.any (fun wire => wire.contains node.id)
        | none => false)
      if node.type == "inject" then !hasOutput
      else if ["debug", "http response"].contains node.type then !hasInput
      else !hasOutput && !hasInput)

/-- Method `performBuiltinAnalysis(flowData, analysisType)`. -/
def performBuiltinAnalysis (flowData : Flow) (_analysisType : String) :
    Except String AnalysisResult :=
  match flowData.nodes with
  | none => .ok (.bare { issues := [], patterns := [], recommendations := [],
                         source := "builtin-analyzer" })
  | some nodes => do
    let nodeTypes := nodes.map (·.type)
    let nodeCount := nodes.length
    let disconnectedNodes ← findDisconnectedNodes flowData
    let issues1 : List Finding :=
      if disconnectedNodes.length > 0 then
        [{ type := "disconnected", severity := "warning", title := "Отключенные узлы",
           message := "Найдено " ++ toString disconnectedNodes.length ++ " отключенных узлов",
           nodeIds := none, action := some "Подключите или удалите неиспользуемые узлы" }]
      else []
    let issues2 : List Finding :=
      if nodeCount > 20 then
        [{ type := "complexity", severity := "info", title := "Высокая сложность",
           message := "Поток содержит " ++ toString nodeCount ++ " узлов",
           nodeIds := none, action := some "Рассмотрите разбиение на подпотоки" }]
      else []
    let patterns1 : List BuiltinPattern :=
      if nodeTypes.contains "http in" && nodeTypes.contains "http response" then
        [{ name := "HTTP API", confidence := 90, description := "REST API endpoint" }]
      else []
    let patterns2 : List BuiltinPattern :=
      if nodeTypes.contains "mqtt in" then
        [{ name := "IoT Sensor", confidence := 85, description := "Обработка данных сенсоров" }]
      else []
    return .reply (.json
      { issues := issues1 ++ issues2, patterns := patterns1 ++ patterns2,
        recommendations :=
          ["Добавьте обработку ошибок с помощью catch узлов",
           "Используйте комментарии для документирования логики",
           "Группируйте связанные узлы для лучшей читаемости"],
        source := "builtin-analyzer" }) 0 (some "builtin-analyzer")

/-- Method `addToHistory(entry)`. -/
def addToHistory (mm : ModelManager) (entry : UsageRecord) : ModelManager :=
  let history := entry :: mm.requestHistory
  if history.length > mm.maxHistorySize then
    { mm with requestHistory := history.take mm.maxHistorySize }
  else { mm with requestHistory := history }

/-- Method `analyzeWithAI(flowData, analysisType)`: the value the promise resolves to
and the manager afterwards, or the message of the error it rejects with. -/
def analyzeWithAI (mm : ModelManager) (env : Env) (flowData : Flow) (analysisType : String) :
    Except String (AnalysisResult × ModelManager) :=
  match mm.config.getCurrentModel with
  | none => .error "Модель не выбрана"
  | some currentModel =>
    if currentModel.provider == some "builtin" then
      (performBuiltinAnalysis flowData analysisType).map (fun r => (r, mm))
    else if !mm.config.isModelAvailable env (propertyKey currentModel.id) then
      (performBuiltinAnalysis flowData analysisType).map (fun r => (r, mm))
    else
      match callAIModel mm env currentModel flowData analysisType with
      | .ok result =>
        let tokensUsed := match result with
          | .reply _ t _ => t
          | .bare _ => 0
        .ok (result, mm.addToHistory
          { timestamp := env.isoTime, modelId := currentModel.id, analysisType := analysisType,
            success := true, responseTime := some (env.endTime - env.startTime),
            tokensUsed := some tokensUsed, error := none })
      | .error message =>
        let mm1 := mm.addToHistory
          { timestamp := env.isoTime, modelId := currentModel.id, analysisType := analysisType,
            success := false, responseTime := none, tokensUsed := none, error := some message }
        (performBuiltinAnalysis flowData analysisType).map (fun r => (r, mm1))

end ModelManager

/-! ## `CopilotPanel` (copilot-panel.js) -/

namespace CopilotPanel

/-- The mutable state of `detectCycles`: the sets `visited` and
`recursionStack` and the counter `cycleCount`. -/
structure CycleState where
  visited : List String
  recursionStack : List String
  cycleCount : Nat
  deriving DecidableEq, Repr

/-- The inner `for (const targetId of wireArray)` of `dfs`, which returns as
soon as a call answers `true`; `walk` is the recursive call. -/
def dfsTargets (walk : String → CycleState → Option (Bool × CycleState)) :
    List String → CycleState → Option (Bool × CycleState)
  | [], s => some (false, s)
  | targetId :: rest, s =>
    match walk targetId s with
    | none => none
    | some (true, s1) => some (true, s1)
    | some (false, s1) => dfsTargets walk rest s1

/-- The outer `for (const wireArray of node.wires)` of `dfs`. -/
def dfsWires (walk : String → CycleState → Option (Bool × CycleState)) :
    List (List String) → CycleState → Option (Bool × CycleState)
  | [], s => some (false, s)
  | wireArray :: rest, s =>
    match dfsTargets walk wireArray s with
    | none => none
    | some (true, s1) => some (true, s1)
    | some (false, s1) => dfsWires walk rest s1

/-- The closure `dfs(nodeId)` of `detectCycles`; `none` when the fuel runs out.
Note that the early `return true` leaves `nodeId` on the recursion stack. -/
def dfs (nodes : List Node) : Nat → String → CycleState → Option (Bool × CycleState)
  | 0, _, _ => none
  | fuel + 1, nodeId, s =>
    if s.recursionStack.contains nodeId then
      some (true, { s with cycleCount := s.cycleCount + 1 })
    else if s.visited.contains nodeId then some (false, s)
    else
      let s1 : CycleState :=
        { s with visited := nodeId :: s.visited, recursionStack := nodeId :: s.recursionStack }
      match (nodes.find? (fun n => n.id == nodeId)).bind (fun node => node.wires) with
      | some wires =>
        match dfsWires (fun t st => dfs nodes fuel t st) wires s1 with
        | none => none
        | some (true, s2) => some (true, s2)
        | some (false, s2) =>
          some (false, { s2 with recursionStack := s2.recursionStack.filter (fun x => x != nodeId) })
      | none =>
        some (false, { s1 with recursionStack := s1.recursionStack.filter (fun x => x != nodeId) })

/-- The `nodes.forEach` of `detectCycles`. -/
def detectCyclesLoop (nodes : List Node) (fuel : Nat) : List Node → CycleState → Option CycleState
  | [], s => some s
  | node :: rest, s =>
    if !s.visited.contains node.id then
      match dfs nodes fuel node.id s with
      | none => none
      | some (_, s1) => detectCyclesLoop nodes fuel rest s1
    else detectCyclesLoop nodes fuel rest s

/-- Method `detectCycles(nodes)`; `none` only if the fuel ran out. -/
def detectCycles (nodes : List Node) : Option Nat :=
  (detectCyclesLoop nodes (nodes.length + 1) nodes
    { visited := [], recursionStack := [], cycleCount := 0 }).map (·.cycleCount)

end CopilotPanel

/-! ## `CopilotAnalyzer`: the workspace pass (copilot-sidebar.js) -/

/-- The UTF-16 code units of a character. -/
def utf16Char (c : Char) : List Nat :=
  if c.toNat < 65536 then [c.toNat]
  else [55296 + (c.toNat - 65536) / 1024, 56320 + (c.toNat - 65536) % 1024]

/-- The UTF-16 code units of a string, which is what JavaScript compares,
indexes and hashes. -/
def utf16 (s : String) : List Nat := (s.data.map utf16Char).flatten

/-- Lexicographic `≤` on code units: the order of the default `sort()`. -/
def unitsLe : List Nat → List Nat → Bool
  | [], _ => true
  | _ :: _, [] => false
  | x :: xs, y :: ys => decide (x < y) || (x == y && unitsLe xs ys)

/-- Insertion of a string into a list sorted by code units. -/
def insertSorted (x : String) : List String → List String
  | [] => [x]
  | y :: ys => if unitsLe (utf16 x) (utf16 y) then x :: y :: ys else y :: insertSorted x ys

/-- JavaScript `array.sort()` on strings: ascending by code units (the order is
total, so every sorting method gives this list). -/
def jsSort (l : List String) : List String := l.foldr insertSorted []

/-- The performance record of a flow analysis; `analyzeFlow` starts it as
`{ score: 100, issues: [] }`. -/
structure Performance where
  score : Int
  issues : List String
  deriving DecidableEq, Repr

/-- A call `this.method(...)` of a method that no class defines
(`generateGlobalSuggestions`, `generateFlowSuggestions` and
`analyzeFlowPerformance` of `CopilotAnalyzer`): the callee is `undefined` and
the call throws a `TypeError`. -/
def undefinedMethod {α : Type} : Except String α := .error "TypeError"

/-- The analysis of one flow. -/
structure FlowAnalysis where
  id : String
  label : String
  type : String
  nodeCount : Nat
  issues : List Finding
  suggestions : List String
  patterns : List Pattern
  performance : Performance
  complexity : Complexity
  deriving DecidableEq, Repr

/-- The summary of a workspace analysis. -/
structure Summary where
  status : String
  totalIssues : Nat
  highSeverityIssues : Nat
  patternsDetected : Nat
  averageComplexity : Int
  recommendations : List String
  deriving DecidableEq, Repr

/-- The analysis of a workspace; `summary` is `none` while it is still `{}`. -/
structure GlobalAnalysis where
  timestamp : String
  totalFlows : Nat
  totalNodes : Nat
  flowAnalyses : List FlowAnalysis
  globalIssues : List Finding
  globalSuggestions : List String
  summary : Option Summary
  deriving DecidableEq, Repr

/-- The analyzer object: its history of analyses and the bound on it. -/
structure Analyzer where
  analysisHistory : List GlobalAnalysis
  maxHistorySize : Nat
  deriving DecidableEq, Repr

namespace CopilotAnalyzer

/-- The constructor, as far as the history goes. -/
def new : Analyzer := { analysisHistory := [], maxHistorySize := 50 }

/-- The signature of a flow in `findDuplicatePatterns`: its node types, sorted
and joined by commas. -/
def signature (nodes : List Node) : String :=
  ",".intercalate (jsSort (nodes.map (·.type)))

/-- The step `if (!patterns[signature]) patterns[signature] = [];
patterns[signature].push(flow.id)` on the own properties of the object
`patterns`, kept as a keyed list in insertion order. -/
def pushGroup (signature flowId : String) :
    List (String × List String) → List (String × List String)
  | [] => [(signature, [flowId])]
  | (k, ids) :: rest =>
    if k == signature then (k, ids ++ [flowId]) :: rest
    else (k, ids) :: pushGroup signature flowId rest

/-- The `flows.forEach` of `findDuplicatePatterns`. When the signature is no own
property of `patterns` but names a member of `Object.prototype`, the test
`!patterns[signature]` finds that member, no array is stored, and the call of
`push` on the member throws a `TypeError`. -/
def groupFlows : List Flow → List (String × List String) →
    Except String (List (String × List String))
  | [], patterns => .ok patterns
  | flow :: rest, patterns =>
    match flow.nodes with
    | none => groupFlows rest patterns
    | some nodes =>
      if (patterns.lookup (signature nodes)).isNone &&
          objectPrototypeNames.contains (signature nodes) then
        .error "TypeError"
      else groupFlows rest (pushGroup (signature nodes) flow.id patterns)

/-- Method `findDuplicatePatterns(flows)`. -/
def findDuplicatePatterns (flows : List Flow) : Except String (List (List String)) := do
  let patterns ← groupFlows flows []
  return (patterns.map (·.2)).filter (fun flowIds => decide (flowIds.length > 1))

/-- Method `findGlobalIssues(flows)`. -/
def findGlobalIssues (flows : List Flow) : Except String (List Finding) := do
  let issues1 : List Finding :=
    if flows.length > 10 then
      [{ type := "too-many-flows", severity := "warning", title := "Много потоков",
         message := toString flows.length ++ " потоков может усложнить управление",
         nodeIds := none, action := some "Рассмотрите группировку связанной логики" }]
    else []
  let duplicatePatterns ← findDuplicatePatterns flows
  let issues2 : List Finding :=
    if duplicatePatterns.length > 0 then
      [{ type := "duplicate-logic", severity := "info", title := "Дублирование логики",
         message := "Найдены похожие паттерны в " ++ toString duplicatePatterns.length ++
           " потоках",
         nodeIds := none, action := some "Создайте subflow для переиспользования логики" }]
    else []
  return issues1 ++ issues2

/-- Method `addToHistory(analysis)`. -/
def addToHistory (az : Analyzer) (analysis : GlobalAnalysis) : Analyzer :=
  let history := analysis :: az.analysisHistory
  if history.length > az.maxHistorySize then
    { az with analysisHistory := history.take az.maxHistorySize }
  else { az with analysisHistory := history }

/-- Method `calculateAverageComplexity(flowAnalyses)`. -/
def calculateAverageComplexity (flowAnalyses : List FlowAnalysis) : Int :=
  if flowAnalyses.length == 0 then 0
  else
    let totalScore : Int := flowAnalyses.foldl (fun sum flow => sum + flow.complexity.score) 0
    mathRound ((totalScore : ℚ) / (flowAnalyses.length : ℚ))

/-- The spread `[...new Set(all)]`: the elements in the order of their first
insertion, each once. -/
def setOrder (all : List String) : List String :=
  all.foldl (fun set x => if set.contains x then set else set ++ [x]) []

/-- Method `getTopRecommendations(globalAnalysis)`. -/
def getTopRecommendations (globalAnalysis : GlobalAnalysis) : List String :=
  let fromIssues := globalAnalysis.globalIssues.foldl (fun all issue =>
    if truthyStr issue.action then all ++ [issue.action.getD ""] else all) []
  let allRecommendations := globalAnalysis.flowAnalyses.foldl (fun all flow =>
    flow.patterns.foldl (fun all pattern => all ++ pattern.recommendations) all) fromIssues
  (setOrder allRecommendations).take 3

/-- Method `generateSummary(globalAnalysis)`. -/
def generateSummary (globalAnalysis : GlobalAnalysis) : Summary :=
  let totalIssues := globalAnalysis.globalIssues.length +
    globalAnalysis.flowAnalyses.foldl (fun sum flow => sum + flow.issues.length) 0
  let highSeverityIssues :=
    (((globalAnalysis.flowAnalyses.map (·.issues)).flatten).filter
      (fun issue => issue.severity == "high")).length
  let patterns := (globalAnalysis.flowAnalyses.map (·.patterns)).flatten
  { status :=
      if totalIssues == 0 then "excellent"
      else if highSeverityIssues == 0 then "good"
      else "needs-attention",
    totalIssues := totalIssues,
    highSeverityIssues := highSeverityIssues,
    patternsDetected := patterns.length,
    averageComplexity := calculateAverageComplexity globalAnalysis.flowAnalyses,
    recommendations := getTopRecommendations globalAnalysis }

/-- Method `analyzeFlow(flow)`. -/
def analyzeFlow (flow : Flow) : Except String FlowAnalysis := do
  let complexity ← calculateComplexity flow
  let analysis : FlowAnalysis :=
    { id := flow.id,
      label := if truthyStr flow.label then flow.label.getD "" else "Поток " ++ flow.id,
      type := if truthyStr flow.type then flow.type.getD "" else "tab",
      nodeCount := match flow.nodes with
        | some nodes => nodes.length
        | none => 0,
      issues := [], suggestions := [], patterns := [],
      performance := { score := 100, issues := [] },
      complexity := complexity }
  match flow.nodes with
  | none => return analysis
  | some _ =>
    let issues ← findFlowIssues flow
    let suggestions ← (undefinedMethod : Except String (List String))
    let patterns ← detectFlowPatterns flow
    let performance ← (undefinedMethod : Except String Performance)
    return { analysis with
      issues := issues, suggestions := suggestions, patterns := patterns,
      performance := performance }

/-- The `flows.forEach` of `analyzeAllFlows`: the state is the list
`flowAnalyses` and the count `totalNodes`. -/
def analyzeEach :
    List Flow → List FlowAnalysis × Nat → Except String (List FlowAnalysis × Nat)
  | [], st => .ok st
  | flow :: rest, (flowAnalyses, totalNodes) =>
    match flow.nodes with
    | some nodes =>
      if nodes.length > 0 then
        match analyzeFlow flow with
        | .error e => .error e
        | .ok flowAnalysis =>
          analyzeEach rest
            (flowAnalyses ++ [flowAnalysis], totalNodes + flowAnalysis.nodeCount)
      else analyzeEach rest (flowAnalyses, totalNodes)
    | none => analyzeEach rest (flowAnalyses, totalNodes)

/-- Method `analyzeAllFlows()`; `flows` is what `getActiveWorkspace()` returns and
`timestamp` the time of the call. The value returned and the analyzer afterwards,
or the message of an error thrown. -/
def analyzeAllFlows (az : Analyzer) (timestamp : String)
    (flows : List Flow) : Except String (GlobalAnalysis × Analyzer) := do
  let (flowAnalyses, totalNodes) ← analyzeEach flows ([], 0)
  let globalIssues ← findGlobalIssues flows
  let globalSuggestions ← (undefinedMethod : Except String (List String))
  let globalAnalysis : GlobalAnalysis :=
    { timestamp := timestamp, totalFlows := flows.length, totalNodes := totalNodes,
      flowAnalyses := flowAnalyses, globalIssues := globalIssues,
      globalSuggestions := globalSuggestions, summary := none }
  let globalAnalysis := { globalAnalysis with summary := some (generateSummary globalAnalysis) }
  return (globalAnalysis, addToHistory az globalAnalysis)

end CopilotAnalyzer

/-! ## `CopilotPanel`: cache and fingerprint (copilot-panel.js) -/

/-- The conversion `ToInt32` of the bitwise operators, on integers. -/
def toInt32 (x : Int) : Int := (x + 2147483648) % 4294967296 - 2147483648

namespace CopilotPanel

/-- An entry of the analysis cache, as `performAnalysis` stores it. -/
structure CacheEntry (α : Type) where
  data : α
  timestamp : Int
  deriving DecidableEq, Repr

/-- The configuration of the panel. -/
structure PanelConfig where
  autoRefresh : Bool
  refreshInterval : Int
  useAI : Bool
  maxRetries : Nat
  analysisTimeout : Nat
  deriving DecidableEq, Repr

/-- Method `initializeConfig()`. -/
def initializeConfig : PanelConfig :=
  { autoRefresh := true, refreshInterval := 30000, useAI := false, maxRetries := 3,
    analysisTimeout := 10000 }

/-- The panel object, as far as an analysis pass goes: the configuration, the
`Map` of cached analyses (a keyed list) and the flag `state.isAnalyzing`. -/
structure Panel (α : Type) where
  config : PanelConfig
  cache : List (String × CacheEntry α)
  isAnalyzing : Bool
  deriving DecidableEq, Repr

/-- The constructor, as far as an analysis pass goes. -/
def Panel.new (α : Type) : Panel α :=
  { config := initializeConfig, cache := [], isAnalyzing := false }

/-- Method `hashCode(str)`; the string is given by its UTF-16 code units, which
is what `charCodeAt` reads. `hash << 5` and `hash & hash` convert to 32 bits;
the subtraction and the addition in between are exact. -/
def hashCode (str : List Nat) : Int :=
  str.foldl (fun (hash : Int) (char : Nat) =>
    toInt32 ((toInt32 (toInt32 hash * 32) - hash) + (char : Int))) 0

/-- Method `generateCacheKey(flows)`; `stringify` is `JSON.stringify`, giving
the code units of the text. -/
def generateCacheKey {W : Type} (stringify : W → List Nat) (flows : W) : String :=
  toString (hashCode (stringify flows))

/-- Method `isCacheExpired(cacheKey)`; `now` is `Date.now()`. -/
def isCacheExpired {α : Type} (panel : Panel α) (cacheKey : String) (now : Int) : Bool :=
  match panel.cache.lookup cacheKey with
  | none => true
  | some cached =>
    let maxAge := panel.config.refreshInterval * 2
    decide (now - cached.timestamp > maxAge)

/-- JavaScript `map.set(key, value)`: the value of an existing key is replaced
in place, a new key goes last. -/
def mapSet {β : Type} (key : String) (value : β) : List (String × β) → List (String × β)
  | [] => [(key, value)]
  | (k, v) :: rest => if k == key then (k, value) :: rest else (k, v) :: mapSet key value rest

/-- What `performAnalysis` hands to `processAnalysisResults`: an analysis object,
or an entry of the cache. -/
inductive Handed (α : Type) where
  | analysis (a : α)
  | entry (e : CacheEntry α)
  deriving DecidableEq, Repr

/-- The surroundings of one pass: what `getFlows()` returns (`none` when it is
null or undefined), `JSON.stringify`, the outcome of `analyzeFlows(flows)`
(the cache logic does not depend on how it is computed) and the clock at the
expiry test and at the store. -/
structure PanelEnv (W α : Type) where
  getFlows : Option W
  stringify : W → List Nat
  analyzeFlows : W → Except String α
  nowCheck : Int
  nowStore : Int

/-- Method `performAnalysis()`: the panel afterwards and what was handed to
`processAnalysisResults`, `none` when the pass was skipped or an error was
caught before that call. -/
def performAnalysis {W α : Type} (panel : Panel α) (env : PanelEnv W α) :
    Panel α × Option (Handed α) :=
  if panel.isAnalyzing then (panel, none)
  else
    match env.getFlows with
    | none => (panel, none)
    | some flows =>
      let cacheKey := generateCacheKey env.stringify flows
      let fresh : Panel α × Option (Handed α) :=
        match env.analyzeFlows flows with
        | .error _ => (panel, none)
        | .ok analysis =>
          let stored : CacheEntry α := { data := analysis, timestamp := env.nowStore }
          ({ panel with cache := mapSet cacheKey stored panel.cache }, some (.analysis analysis))
      match panel.cache.lookup cacheKey with
      | none => fresh
      | some analysis =>
        if isCacheExpired panel cacheKey env.nowCheck then fresh
        else (panel, some (.entry analysis))

end CopilotPanel

/-! ## `ModelsConfig`: custom models (models-config.js) -/

/-- JavaScript `object[key] = value` on an object used as a dictionary: the
value of an existing key is replaced in place, a new key goes last (the
engine lists keys that are array indices first; no function here depends on
the order of the keys). -/
def objectSet {β : Type} (key : String) (value : β) : List (String × β) → List (String × β)
  | [] => [(key, value)]
  | (k, v) :: rest =>
    if k == key then (k, value) :: rest else (k, v) :: objectSet key value rest

/-- A configuration object handed to `addCustomModel`: any field may be absent. -/
structure CustomConfig where
  id : Option String
  name : Option String
  provider : Option String
  endpoint : Option String
  model : Option String
  maxTokens : Option Nat
  temperature : Option ℚ
  requiresApiKey : Bool
  icon : Option String
  description : Option String
  features : Option (List String)
  deriving DecidableEq, Repr

namespace ModelsConfig

/-- The list `builtinModels` of `isBuiltinModel`. -/
def builtinModels : List String :=
  ["openai-gpt-3.5", "openai-gpt-4", "claude-3-haiku", "claude-3-sonnet",
   "ollama-codellama", "ollama-llama2", "lmstudio-local", "builtin-analyzer"]

/-- Method `isBuiltinModel(modelId)`. -/
def isBuiltinModel (modelId : String) : Bool := builtinModels.contains modelId

/-- Method `saveConfig()`: the blob written to the local storage. The registry
object itself is not changed by it. -/
def saveConfig (cfg : ModelsConfig) : SavedConfig :=
  { currentModel := some cfg.currentModel, apiKeys := some cfg.apiKeys,
    customEndpoints := some cfg.customEndpoints }

/-- Method `removeCustomModel(modelId)`: the registry afterwards and the value
returned. -/
def removeCustomModel (cfg : ModelsConfig) (modelId : String) : ModelsConfig × Bool :=
  if (cfg.getModel modelId).isSome && !isBuiltinModel modelId then
    let models := cfg.models.filter (fun kv => kv.1 != modelId)
    let currentModel :=
      if cfg.currentModel == modelId then cfg.defaultModel else cfg.currentModel
    ({ cfg with models := models, currentModel := currentModel }, true)
  else (cfg, false)

/-- Method `validateModelConfig(config)`. -/
def validateModelConfig (config : CustomConfig) : Bool :=
  [config.id, config.name, config.provider].all truthyStr

/-- The object `{ ...config, icon: config.icon || '🔧', features: config.features
|| ['code-analysis'] }` that `addCustomModel` stores. -/
def customModel (config : CustomConfig) : ModelConfig :=
  { id := config.id.getD "", name := config.name.getD "", provider := config.provider.getD "",
    endpoint := config.endpoint, model := config.model, maxTokens := config.maxTokens,
    temperature := config.temperature, requiresApiKey := config.requiresApiKey,
    icon := some (if truthyStr config.icon then config.icon.getD "" else "🔧"),
    description := config.description,
    features := some (match config.features with
      | some features => features
      | none => ["code-analysis"]) }

/-- Method `addCustomModel(config)`: the registry afterwards and the value
returned or the message of the error thrown. The assignment
`this.models[config.id] = ...` installs the object as the prototype of the
catalogue when the id is `__proto__`, and sets an own property otherwise. -/
def addCustomModel (cfg : ModelsConfig) (config : CustomConfig) :
    ModelsConfig × Except String Bool :=
  if !validateModelConfig config then (cfg, .error "Неверная конфигурация модели")
  else if config.id.getD "" == "__proto__" then
    ({ cfg with modelsProto := some (customModel config) }, .ok true)
  else
    ({ cfg with models := objectSet (config.id.getD "") (customModel config) cfg.models },
      .ok true)

end ModelsConfig

/-! ## `ModelManager`: reading a reply (model-manager.js) -/

/-- The object literal that `parseAIResponse` returns when it has no parsed
value to give; a recommendation is a string, kept as its UTF-16 code units. -/
structure MinimalResult where
  issues : List Finding
  patterns : List BuiltinPattern
  recommendations : List (List Nat)
  deriving DecidableEq, Repr

/-- What `parseAIResponse` returns: the value of `JSON.parse`, or an object
literal of its own. -/
inductive ParsedResponse (J : Type) where
  | parsed (value : J)
  | minimal (result : MinimalResult)
  deriving DecidableEq, Repr

namespace ModelManager

/-- The expression `content.match(/\{[\s\S]*\}/)`, on the code units of
`content`: the match starts at the first opening brace (code 123) and, the star
being greedy, ends at the last closing brace (code 125) after it; `none` is
`null`, `some text` is `jsonMatch[0]`. -/
def jsonMatch (content : List Nat) : Option (List Nat) :=
  match content.dropWhile (fun c => c != 123) with
  | [] => none
  | brace :: tail =>
    let body := (tail.reverse.dropWhile (fun c => c != 125)).reverse
    if body.isEmpty then none else some (brace :: body)

/-- Method `parseAIResponse(content)` for a string `content`, given by its
code units; `jsonParse` is `JSON.parse`, with `none` for a `SyntaxError`. -/
def parseAIResponse {J : Type} (jsonParse : List Nat → Option J) (content : List Nat) :
    ParsedResponse J :=
  match jsonMatch content with
  | some text =>
    match jsonParse text with
    | some value => .parsed value
    | none =>
      .minimal
        { issues := [], patterns := [],
          recommendations := [utf16 "Получен некорректный ответ от AI модели"] }
  | none =>
    .minimal
      { issues := [], patterns := [], recommendations := [content.take 200 ++ utf16 "..."] }

end ModelManager

/-! ## `CopilotPanel`: the per-flow checks (copilot-panel.js) -/

namespace CopilotPanel

/-- The first pass of `checkDisconnectedNodes`: the sets `hasInput` and
`hasOutput`, in this order. A node of an excluded type is skipped; a node with
a non-empty wire array is put in `hasOutput` and all its targets in `hasInput`. -/
def collectWired (nodes : List Node) : List String × List String :=
  nodes.foldl (fun (st : List String × List String) (node : Node) =>
    if ["comment", "tab", "group"].contains node.type then st
    else
      match node.wires with
      | some wires =>
        if wires.any (fun wire => decide (wire.length > 0)) then
          (st.1 ++ wires.flatten, st.2 ++ [node.id])
        else st
      | none => st) ([], [])

/-- Method `checkDisconnectedNodes(nodes, nodeMap)`; the map is not read. -/
def checkDisconnectedNodes (nodes : List Node) : List Finding :=
  let hasInput := (collectWired nodes).1
  let hasOutput := (collectWired nodes).2
  let disconnected := nodes.filter (fun node =>
    if ["comment", "tab", "group"].contains node.type then false
    else if node.type == "inject" then !hasOutput.contains node.id
    else if ["debug", "http response"].contains node.type then !hasInput.contains node.id
    else !hasInput.contains node.id && !hasOutput.contains node.id)
  if disconnected.length > 0 then
    [{ type := "disconnected", severity := "warning", title := "Отключенные узлы",
       message := toString disconnected.length ++ " узлов не подключены",
       nodeIds := some (disconnected.map (·.id)),
       action := some "Подключите или удалите неиспользуемые узлы" }]
  else []

/-- Method `calculateComplexity(nodes)` of the panel. -/
def calculateComplexity (nodes : List Node) : Complexity :=
  { level := "simple", score := nodes.length, nodeCount := some nodes.length,
    connections := some 0, depth := some 1, branches := some 0 }

/-- Method `countConnections(nodes)` of the panel. -/
def countConnections (_nodes : List Node) : Nat := 0

/-- Method `calculateDepth(nodes)` of the panel. -/
def calculateDepth (_nodes : List Node) : Nat := 1

/-- Method `countBranches(nodes)` of the panel. -/
def countBranches (_nodes : List Node) : Nat := 0

/-- Method `checkErrorHandling(nodes)` of the panel. -/
def checkErrorHandling (_nodes : List Node) : List Finding := []

/-- Method `checkPerformanceIssues(nodes)` of the panel. -/
def checkPerformanceIssues (_nodes : List Node) : List Finding := []

/-- The three detector methods that `findFlowIssues` reaches through `this`;
each one returns its findings or throws. -/
structure Checks where
  checkDisconnectedNodes : List Node → Except String (List Finding)
  checkErrorHandling : List Node → Except String (List Finding)
  checkPerformanceIssues : List Node → Except String (List Finding)

/-- The detector methods as the class defines them. -/
def Checks.own : Checks :=
  { checkDisconnectedNodes := fun nodes => .ok (CopilotPanel.checkDisconnectedNodes nodes),
    checkErrorHandling := fun nodes => .ok (CopilotPanel.checkErrorHandling nodes),
    checkPerformanceIssues := fun nodes => .ok (CopilotPanel.checkPerformanceIssues nodes) }

/-- Method `findFlowIssues(nodes)`: every check runs inside its own `try`, and
a check that throws is logged and skipped. -/
def findFlowIssues (checks : Checks) (nodes : List Node) : List Finding :=
  let checkList : List (Unit → Except String (List Finding)) :=
    [fun _ => checks.checkDisconnectedNodes nodes,
     fun _ => checks.checkErrorHandling nodes,
     fun _ => checks.checkPerformanceIssues nodes]
  checkList.foldl (fun (issues : List Finding) (check : Unit → Except String (List Finding)) =>
    match check () with
    | .ok foundIssues => if foundIssues.length > 0 then issues ++ foundIssues else issues
    | .error _ => issues) []

end CopilotPanel

/-! ## The specification's words, as predicates -/

namespace Spec

/-- The node has a non-empty wire array (an output). -/
def hasOutput (n : Node) : Prop := ∃ w ∈ n.wires.getD [], w ≠ []

/-- The node's id is the target of a wire of the flow (an input). -/
def hasInput (ns : List Node) (n : Node) : Prop :=
  ∃ m ∈ ns, ∃ w ∈ m.wires.getD [], n.id ∈ w

/-- The disconnected-node rule: structural types are never flagged, `inject`
is flagged without output, `debug` and `http response` without input, every
other type without both. -/
def disconnected (ns : List Node) (n : Node) : Prop :=
  n.type ≠ "comment" ∧ n.type ≠ "tab" ∧ n.type ≠ "group" ∧
  (if n.type = "inject" then ¬ hasOutput n
   else if n.type = "debug" ∨ n.type = "http response" then ¬ hasInput ns n
   else ¬ hasOutput n ∧ ¬ hasInput ns n)

instance (n : Node) : Decidable (hasOutput n) :=
  inferInstanceAs (Decidable (∃ w ∈ n.wires.getD [], w ≠ []))

instance (ns : List Node) (n : Node) : Decidable (hasInput ns n) :=
  inferInstanceAs (Decidable (∃ m ∈ ns, ∃ w ∈ m.wires.getD [], n.id ∈ w))

instance (ns : List Node) (n : Node) : Decidable (disconnected ns n) :=
  inferInstanceAs (Decidable (n.type ≠ "comment" ∧ n.type ≠ "tab" ∧ n.type ≠ "group" ∧
    (if n.type = "inject" then ¬ hasOutput n
     else if n.type = "debug" ∨ n.type = "http response" then ¬ hasInput ns n
     else ¬ hasOutput n ∧ ¬ hasInput ns n)))

/-- The text `t` occurs in the text `s`. -/
def contains (s t : String) : Prop := t.data <:+: s.data

instance (s t : String) : Decidable (contains s t) :=
  inferInstanceAs (Decidable (t.data <:+: s.data))

/-- The node types that can raise errors. -/
def riskyTypes : List String := ["function", "http request", "exec", "file", "tcp"]

/-- The route of the node contains the text `t`. -/
def routeContains (n : Node) (t : String) : Prop := ∃ u ∈ n.url, contains u t

/-- An `http in` node that takes a method other than `get` on a route that
contains none of `auth`, `login`, `token`. -/
def unsecured (n : Node) : Prop :=
  n.type = "http in" ∧ n.method ≠ some "get" ∧
    ¬ routeContains n "auth" ∧ ¬ routeContains n "login" ∧ ¬ routeContains n "token"

instance (n : Node) (t : String) : Decidable (routeContains n t) :=
  inferInstanceAs (Decidable (∃ u ∈ n.url, contains u t))

instance (n : Node) : Decidable (unsecured n) :=
  inferInstanceAs (Decidable (n.type = "http in" ∧ n.method ≠ some "get" ∧
    ¬ routeContains n "auth" ∧ ¬ routeContains n "login" ∧ ¬ routeContains n "token"))

/-- The code holds a `for` loop whose header compares with `<` against the
literal `10000`: the text `for`, white space, `(`, an initialiser without `)`,
`;`, a condition without `<` up to a `<` that is followed, after white space, by
`10000`. -/
def heavyForLoop (code : String) : Prop :=
  ∃ pre ws1 init cond ws2 post : List Char,
    code.data = pre ++ ("for".data ++ (ws1 ++ ('(' :: (init ++ (';' :: (cond ++
      ('<' :: (ws2 ++ ("10000".data ++ post))))))))) ∧
    (∀ c ∈ ws1, isJsSpace c = true) ∧ ')' ∉ init ∧ '<' ∉ cond ∧
    (∀ c ∈ ws2, isJsSpace c = true)

/-- The wire graph of a node list: `a` has a wire to `b`. -/
def wire (ns : List Node) (a b : String) : Prop :=
  ∃ n ∈ ns, n.id = a ∧ ∃ w ∈ n.wires.getD [], b ∈ w

instance (ns : List Node) (a b : String) : Decidable (wire ns a b) :=
  inferInstanceAs (Decidable (∃ n ∈ ns, n.id = a ∧ ∃ w ∈ n.wires.getD [], b ∈ w))

/-- The number of wires of the longest path that starts at `a`, follows wires
to nodes of the list and repeats no node, the nodes of `seen` being used up;
`fuel` bounds the length and `ns.length` is enough. -/
def longestSimplePath (ns : List Node) : Nat → List String → String → Nat
  | 0, _, _ => 0
  | fuel + 1, seen, a =>
    (((ns.filter (fun n => n.id == a)).map (fun n => (n.wires.getD []).flatten)).flatten).foldl
      (fun best t =>
        if (a :: seen).contains t || !ns.any (fun n => n.id == t) then best
        else max best (1 + longestSimplePath ns fuel (a :: seen) t)) 0

/-- The depth of a flow in the words of the specification: the greatest length
of a simple path that starts at a source node. -/
def flowDepth (ns : List Node) : Nat :=
  ((ns.filter (fun n => ["inject", "http in", "mqtt in", "websocket in"].contains n.type)).map
    (fun n => longestSimplePath ns ns.length [] n.id)).foldl max 0

/-- The elements of a sequence in the order of their first occurrence, each
once; `seen` holds what occurred before. -/
def firstDistinct : List String → List String → List String
  | _, [] => []
  | seen, x :: xs =>
    if x ∈ seen then firstDistinct seen xs else x :: firstDistinct (x :: seen) xs

/-- The sequence of recommendations of a workspace analysis: the actions of the
workspace-level findings (an absent or empty action gives none), then the
recommendations of every pattern of every flow analysis, in order. -/
def recommendationSequence (ga : GlobalAnalysis) : List String :=
  ga.globalIssues.filterMap (fun issue => issue.action.filter (fun a => !a.isEmpty)) ++
    (ga.flowAnalyses.map (fun fa => (fa.patterns.map (·.recommendations)).flatten)).flatten

end Spec

/-! ## Measures used in the proofs -/

/-- The number of distinct node ids that a walk has not visited yet. -/
def unvisited (nodes : List Node) (visited : List String) : Nat :=
  ((nodes.map (·.id)).toFinset \ visited.toFinset).card

/-! ## Example flows -/

/-- A node with the given id, type and output ports, and nothing else. -/
def mkNode (id type : String) (wires : Option (List (List String))) : Node :=
  { id := id, type := type, wires := wires, func := none, url := none, method := none,
    props := [] }

/-- A flow over the given nodes. -/
def mkFlow (nodes : List Node) : Flow :=
  { id := "flow", label := none, type := some "tab", nodes := some nodes }

/-- An `inject` without wires next to a `debug`. -/
def flowInjectDebug : Flow :=
  mkFlow [mkNode "n1" "inject" (some [[]]), mkNode "n2" "debug" none]

/-- An HTTP API whose function node runs a loop of 10000 iterations written
with `<`. -/
def flowHttpHeavy : Flow :=
  mkFlow [
    { mkNode "in" "http in" (some [["fn"]]) with url := some "/items", method := some "post" },
    { mkNode "fn" "function" (some [["out"]]) with
      func := some "for (let i = 0; i < 10000; i++) \x7b msg.payload += i; \x7d\nreturn msg;" },
    mkNode "out" "http response" (some [])]

/-- An HTTP API whose function node runs a loop of 10000 iterations written
with `<=`. -/
def flowHttpLoopLe : Flow :=
  mkFlow [
    { mkNode "in" "http in" (some [["fn"]]) with url := some "/items", method := some "post" },
    { mkNode "fn" "function" (some [["out"]]) with
      func := some "for (let i = 1; i <= 10000; i++) \x7b msg.payload += i; \x7d\nreturn msg;" },
    mkNode "out" "http response" (some [])]

/-- A diamond: `s` feeds `a` and `b`, `b` feeds `a`, `a` feeds `c`. -/
def flowDiamond : Flow :=
  mkFlow [mkNode "s" "inject" (some [["a", "b"]]), mkNode "a" "function" (some [["c"]]),
    mkNode "b" "function" (some [["a"]]), mkNode "c" "debug" (some [])]

/-- A registry whose stored configuration names a model that is not in the
catalogue, as `loadConfig` restores it. -/
def registryStale : ModelsConfig :=
  ModelsConfig.new.loadConfig
    (some { currentModel := some "my-model", apiKeys := none, customEndpoints := none })

/-- A registry whose selection is the name `constructor`, as
`setCurrentModel('constructor')` leaves it. -/
def registryInherited : ModelsConfig := (ModelsConfig.new.setCurrentModel "constructor").1

/-- A registry whose selection is the local daemon `ollama-llama2`. -/
def registryOllama : ModelsConfig := (ModelsConfig.new.setCurrentModel "ollama-llama2").1

/-- Surroundings in which the daemon answers the probe and every request to a
backend times out. -/
def envTimeout : Env :=
  { toLowerCase := String.toLower, toUpperCase := String.toUpper,
    processEnv := fun _ => none, probe := fun _ => .ok true,
    fetch := fun _ _ _ _ => .abort,
    startTime := 0, endTime := 30000, isoTime := "2024-01-01T00:00:00.000Z" }

/-- A flow object without node list. -/
def flowNoNodes : Flow := { id := "flow", label := none, type := some "tab", nodes := none }

/-- The wire targets that `dfs` iterates at the node with the given id, in
order: those of the first node with that id, none if there is no such node. -/
def targetsOf (nodes : List Node) (id : String) : List String :=
  match (nodes.find? (fun n => n.id == id)).bind (fun node => node.wires) with
  | some wires => wires.flatten
  | none => []

/-- The edges that `dfs` follows. -/
def follows (nodes : List Node) (a b : String) : Prop := b ∈ targetsOf nodes a

/-- A finished node of a `detectCycles` state: visited and off the recursion stack. -/
def finished (s : CopilotPanel.CycleState) (x : String) : Prop :=
  x ∈ s.visited ∧ x ∉ s.recursionStack

/-- The finished nodes are closed under the edges followed and none of them lies
on a cycle. -/
def finishedClosed (nodes : List Node) (s : CopilotPanel.CycleState) : Prop :=
  (∀ b, finished s b → ∀ t, follows nodes b t → finished s t) ∧
  (∀ b, finished s b → ¬ Relation.TransGen (follows nodes) b b)

/-- The state after `dfs` has marked `nodeId` visited and pushed it on the stack. -/
def enter (s : CopilotPanel.CycleState) (nodeId : String) : CopilotPanel.CycleState :=
  { s with visited := nodeId :: s.visited, recursionStack := nodeId :: s.recursionStack }

/-- The state after `dfs` has deleted `nodeId` from the stack. -/
def leave (s : CopilotPanel.CycleState) (nodeId : String) : CopilotPanel.CycleState :=
  { s with recursionStack := s.recursionStack.filter (fun x => x != nodeId) }

/-- A self-loop: the node `a` is wired to itself. -/
def flowSelfLoop : Flow := mkFlow [mkNode "a" "function" (some [["a"]])]

/-- Surroundings of a panel pass: the editor returns a workspace, the fresh
analysis is `v`, and no time passes. -/
def panelEnvStill : CopilotPanel.PanelEnv String String :=
  { getFlows := some "[]", stringify := utf16, analyzeFlows := fun _ => .ok "v",
    nowCheck := 1000, nowStore := 1000 }

/-- A custom model configuration with the three required fields only. -/
def customConfigMinimal : CustomConfig :=
  { id := some "my-model", name := some "My model", provider := some "ollama",
    endpoint := none, model := none, maxTokens := none, temperature := none,
    requiresApiKey := false, icon := none, description := none, features := none }

/-- A registry whose selection is the remote model `openai-gpt-4`, with no
credential stored. -/
def registryOpenAI : ModelsConfig := (ModelsConfig.new.setCurrentModel "openai-gpt-4").1

/-- Surroundings in which the probe of the local daemon is refused. -/
def envDown : Env :=
  { toLowerCase := String.toLower, toUpperCase := String.toUpper,
    processEnv := fun _ => none, probe := fun _ => .error "ECONNREFUSED",
    fetch := fun _ _ _ _ => .abort,
    startTime := 0, endTime := 30000, isoTime := "2024-01-01T00:00:00.000Z" }

/-- A reply of 201 code units without braces: 200 times the letter a, then b. -/
def replyLong : List Nat := List.replicate 200 97 ++ [98]

/-- A parser that rejects every text. -/
def jsonParseNone : List Nat → Option Unit := fun _ => none

/-! ## The specification's words: back-edges, fan-out, secret fields -/

namespace Spec

/-- The state of a depth-first traversal: the nodes reached so far and the
number of back-edges met. -/
structure Walk where
  visited : List String
  backEdges : Nat
  deriving DecidableEq, Repr

/-- The wires of one node, examined in order; the walk stops at the first call
that answers `true`. -/
def walkTargets (walk : String → Walk → Option (Bool × Walk)) :
    List String → Walk → Option (Bool × Walk)
  | [], s => some (false, s)
  | targetId :: rest, s =>
    match walk targetId s with
    | none => none
    | some (true, s1) => some (true, s1)
    | some (false, s1) => walkTargets walk rest s1

/-- A depth-first traversal that counts back-edges. `path` is the active
recursion path: the ancestors of the node whose wire is examined and that node
itself. A wire whose target is on the path is a back-edge; with `abort` the
traversal of the current root ends at the first back-edge, as the early return
of the code does, and without it every wire is examined. -/
def backEdgeWalk (nodes : List Node) (abort : Bool) :
    Nat → List String → String → Walk → Option (Bool × Walk)
  | 0, _, _, _ => none
  | fuel + 1, path, nodeId, s =>
    if path.contains nodeId then some (abort, { s with backEdges := s.backEdges + 1 })
    else if s.visited.contains nodeId then some (false, s)
    else
      walkTargets (backEdgeWalk nodes abort fuel (nodeId :: path)) (targetsOf nodes nodeId)
        { s with visited := nodeId :: s.visited }

/-- The roots of the traversal: every node not reached yet, in flow order, each
with an empty path. -/
def backEdgeRoots (nodes : List Node) (abort : Bool) (fuel : Nat) :
    List Node → Walk → Option Walk
  | [], s => some s
  | node :: rest, s =>
    if s.visited.contains node.id then backEdgeRoots nodes abort fuel rest s
    else
      match backEdgeWalk nodes abort fuel [] node.id s with
      | none => none
      | some (_, s1) => backEdgeRoots nodes abort fuel rest s1

/-- The number of back-edges of the depth-first traversal of a node list. -/
def backEdges (nodes : List Node) (abort : Bool) : Option Nat :=
  (backEdgeRoots nodes abort (nodes.length + 1) nodes { visited := [], backEdges := 0 }).map
    (·.backEdges)

/-- The total number of wire targets of a node over all its output ports. -/
def targetCount (n : Node) : Nat := ((n.wires.getD []).map List.length).sum

/-- The key contains, case-insensitively, one of the listed words. -/
def secretKey (toLowerCase : String → String) (key : String) : Prop :=
  ∃ field ∈ ["password", "token", "apikey", "secret", "key", "credentials", "auth", "cert",
    "private"], contains (toLowerCase key) field

/-- Two nodes that differ only in the values of fields with a secret key: the
typed fields (id, type, wires, func, url, method, none of which is a secret key)
are equal, and the other fields have the same keys in the same order and equal
values wherever the key is not secret. -/
def sameButSecrets (toLowerCase : String → String) (n1 n2 : Node) : Prop :=
  n1.id = n2.id ∧ n1.type = n2.type ∧ n1.wires = n2.wires ∧ n1.func = n2.func ∧
    n1.url = n2.url ∧ n1.method = n2.method ∧
    List.Forall₂ (fun (kv1 kv2 : String × Val) =>
      kv1.1 = kv2.1 ∧ (¬ secretKey toLowerCase kv1.1 → kv1.2 = kv2.2)) n1.props n2.props

/-- Two flows that differ only in the values of node fields with a secret key. -/
def flowsSameButSecrets (toLowerCase : String → String) (f1 f2 : Flow) : Prop :=
  f1.id = f2.id ∧ f1.label = f2.label ∧ f1.type = f2.type ∧
    match f1.nodes, f2.nodes with
    | some ns1, some ns2 => List.Forall₂ (sameButSecrets toLowerCase) ns1 ns2
    | none, none => True
    | _, _ => False

end Spec

/-! ## Sequences of registry calls -/

/-- A call of one of the three methods that change the catalogue or the
selection. -/
inductive RegistryCall where
  | setCurrentModel (modelId : String)
  | addCustomModel (config : CustomConfig)
  | removeCustomModel (modelId : String)
  deriving DecidableEq, Repr

/-- The registry after one call, whether the call succeeded, failed or threw. -/
def ModelsConfig.call (cfg : ModelsConfig) : RegistryCall → ModelsConfig
  | .setCurrentModel modelId => (cfg.setCurrentModel modelId).1
  | .addCustomModel config => (cfg.addCustomModel config).1
  | .removeCustomModel modelId => (cfg.removeCustomModel modelId).1

/-! ## Example inputs of the later sections -/

/-- A cycle between `a` and `b`, and a node `c` wired into it. -/
def nodesCycleTail : List Node :=
  [mkNode "a" "function" (some [["b"]]), mkNode "b" "function" (some [["a"]]),
   mkNode "c" "function" (some [["b"]])]

/-- A flow with one node whose type is the string `a,b`. -/
def flowCommaType : Flow :=
  { id := "f1", label := none, type := some "tab", nodes := some [mkNode "n1" "a,b" none] }

/-- A flow with a node of type `a` and a node of type `b`. -/
def flowTwoTypes : Flow :=
  { id := "f2", label := none, type := some "tab",
    nodes := some [mkNode "n1" "a" none, mkNode "n2" "b" none] }

/-- A flow whose only node has the type `toString`. -/
def flowInheritedType : Flow :=
  { id := "f11", label := none, type := some "tab",
    nodes := some [mkNode "n1" "toString" none] }

/-- A workspace of 11 flows: ten copies of the inject and debug flow, then the
flow whose only node has the type `toString`. -/
def workspaceInheritedType : List Flow :=
  List.replicate 10 flowInjectDebug ++ [flowInheritedType]

/-- A custom model configuration whose id is `__proto__`, with a description. -/
def customConfigProto : CustomConfig :=
  { id := some "__proto__", name := some "Prototype", provider := some "ollama",
    endpoint := none, model := none, maxTokens := none, temperature := none,
    requiresApiKey := false, icon := none, description := some "local", features := none }

/-- One call: the selection of the name `constructor`. -/
def callsInherited : List RegistryCall := [.setCurrentModel "constructor"]

/-- Three calls: a model is added under the id `__proto__`, its field
`description` is selected, and a model without description is added under the
same id. -/
def callsPrototype : List RegistryCall :=
  [.addCustomModel customConfigProto, .setCurrentModel "description",
   .addCustomModel { customConfigProto with description := none }]

/-- A node with three targets on one port. -/
def nodeFanOut : Node := mkNode "n" "switch" (some [["a", "b", "c"]])

/-- Detector methods of which the second throws. -/
def checksFaulty : CopilotPanel.Checks :=
  { CopilotPanel.Checks.own with checkErrorHandling := fun _ => .error "TypeError" }

/-- A case mapping that lowers the letters A to Z, as `toLowerCase` does on
ASCII text. -/
def lowerAscii (s : String) : String := String.mk (s.data.map Char.toLower)

/-- A flow whose broker node holds the given password. -/
def flowWithPassword (password : String) : Flow :=
  mkFlow [{ mkNode "b" "mqtt-broker" none with
    props := [("name", Val.str "broker"), ("password", Val.str password)] }]

/-! ## Theorems -/

section Primitives

theorem includesChars_iff (t s : List Char) : includesChars t s = true ↔ t <:+: s := by
  induction s with
  | nil =>
    simp [includesChars, List.isEmpty_iff]
  | cons c cs ih =>
    simp only [includesChars, Bool.or_eq_true, ih, List.isPrefixOf_iff_prefix]
    constructor
    · rintro (h | h)
      · exact h.isInfix
      · exact h.trans (List.infix_cons (List.infix_refl _))
    · intro h
      rcases List.infix_cons_iff.mp h with h | h
      · exact Or.inl h
      · exact Or.inr h

theorem strIncludes_iff (s t : String) : strIncludes s t = true ↔ Spec.contains s t :=
  includesChars_iff _ _

theorem contains_iff_mem (l : List String) (a : String) : l.contains a = true ↔ a ∈ l := by
  simp

theorem nodesOrThrow_some {flow : Flow} {ns : List Node} (h : flow.nodes = some ns) :
    flow.nodesOrThrow = .ok ns := by
  simp [Flow.nodesOrThrow, h]

end Primitives

section Disconnected

theorem hasOutput_iff (n : Node) : CopilotAnalyzer.hasOutput n = true ↔ Spec.hasOutput n := by
  unfold CopilotAnalyzer.hasOutput Spec.hasOutput
  cases hw : n.wires with
  | none => simp
  | some ws =>
    simp only [Option.getD_some, Bool.and_eq_true, decide_eq_true_eq, List.any_eq_true]
    constructor
    · rintro ⟨_, w, hw, hlen⟩
      exact ⟨w, hw, by intro h; simp [h] at hlen⟩
    · rintro ⟨w, hw, hne⟩
      refine ⟨List.length_pos_of_mem hw, w, hw, ?_⟩
      exact List.length_pos.mpr hne

theorem hasInput_iff (ns : List Node) (n : Node) :
    CopilotAnalyzer.hasInput ns n = true ↔ Spec.hasInput ns n := by
  unfold CopilotAnalyzer.hasInput Spec.hasInput
  simp only [List.any_eq_true]
  constructor
  · rintro ⟨m, hm, h⟩
    refine ⟨m, hm, ?_⟩
    cases hw : m.wires with
    | none => simp [hw] at h
    | some ws =>
      simp only [hw, List.any_eq_true] at h
      simpa using h
  · rintro ⟨m, hm, w, hw, hin⟩
    refine ⟨m, hm, ?_⟩
    cases hws : m.wires with
    | none => simp [hws] at hw
    | some ws =>
      simp only [hws, Option.getD_some] at hw
      simp only [List.any_eq_true]
      exact ⟨w, hw, by simpa using hin⟩

theorem isDisconnected_iff (ns : List Node) (n : Node) :
    CopilotAnalyzer.isDisconnected ns n = true ↔ Spec.disconnected ns n := by
  have ho := hasOutput_iff n
  have hi := hasInput_iff ns n
  unfold CopilotAnalyzer.isDisconnected Spec.disconnected
  by_cases h1 : n.type = "comment"
  · simp [h1]
  by_cases h2 : n.type = "tab"
  · simp [h2]
  by_cases h3 : n.type = "group"
  · simp [h3]
  by_cases h4 : n.type = "inject"
  · simp [h4, ← ho]
  by_cases h5 : n.type = "debug"
  · simp [h5, ← hi]
  by_cases h6 : n.type = "http response"
  · simp [h6, ← hi]
  simp [h1, h2, h3, h4, h5, h6, ← ho, ← hi]

/-- C3: for a flow with node list `ns`, `findDisconnectedNodes` returns exactly
the nodes of `ns`, in flow order, that the disconnected-node rule flags: not a
comment, tab or group, and without output for `inject`, without input for
`debug` and `http response`, without both for every other type. In particular a
flow made of an `inject` and a `debug`, neither with any wire, returns both. -/
theorem findDisconnectedNodes_spec (flow : Flow) (ns : List Node) (h : flow.nodes = some ns) :
    CopilotAnalyzer.findDisconnectedNodes flow
        = .ok (ns.filter (fun n => decide (Spec.disconnected ns n))) ∧
    (∀ i d : Node, ns = [i, d] → i.type = "inject" → d.type = "debug" →
      ¬ Spec.hasOutput i → ¬ Spec.hasOutput d →
      CopilotAnalyzer.findDisconnectedNodes flow = .ok [i, d]) := by
  have key : CopilotAnalyzer.findDisconnectedNodes flow
      = .ok (ns.filter (fun n => decide (Spec.disconnected ns n))) := by
    unfold CopilotAnalyzer.findDisconnectedNodes
    rw [nodesOrThrow_some h]
    show Except.ok _ = Except.ok _
    congr 1
    apply List.filter_congr
    intro n _
    rw [Bool.eq_iff_iff, isDisconnected_iff]
    simp
  refine ⟨key, ?_⟩
  intro i d hns hi hd hoi hod
  rw [key, hns]
  have hin : ∀ n : Node, ¬ Spec.hasInput [i, d] n := by
    rintro n ⟨m, hm, w, hw, hmem⟩
    simp only [List.mem_cons, List.mem_singleton, List.not_mem_nil, or_false] at hm
    rcases hm with rfl | rfl
    · exact hoi ⟨w, hw, List.ne_nil_of_mem hmem⟩
    · exact hod ⟨w, hw, List.ne_nil_of_mem hmem⟩
  have h1 : Spec.disconnected [i, d] i := by
    unfold Spec.disconnected
    simp [hi, hoi]
  have h2 : Spec.disconnected [i, d] d := by
    unfold Spec.disconnected
    simp [hd, hin d]
  simp [List.filter, h1, h2]

theorem findDisconnectedNodes_spec_witness :
    CopilotAnalyzer.findDisconnectedNodes flowInjectDebug
        = .ok ((flowInjectDebug.nodes.getD []).filter
            (fun n => decide (Spec.disconnected (flowInjectDebug.nodes.getD []) n))) ∧
    CopilotAnalyzer.findDisconnectedNodes flowInjectDebug
        = .ok [mkNode "n1" "inject" (some [[]]), mkNode "n2" "debug" none] := by
  have h := findDisconnectedNodes_spec flowInjectDebug _ rfl
  refine ⟨h.1, h.2 _ _ rfl rfl rfl ?_ ?_⟩
  · simp [Spec.hasOutput, mkNode]
  · simp [Spec.hasOutput, mkNode]

end Disconnected

section Patterns

theorem patternTable_spec (b1 b2 b3 b4 : Bool) :
    ((((if b1 = true then [CopilotAnalyzer.patternHttpApi] else []) ++
        (if b2 = true then [CopilotAnalyzer.patternIotSensor] else [])) ++
        (if b3 = true then [CopilotAnalyzer.patternDashboard] else [])) ++
        (if b4 = true then [CopilotAnalyzer.patternAutomation] else [])).Sublist
      [CopilotAnalyzer.patternHttpApi, CopilotAnalyzer.patternIotSensor,
        CopilotAnalyzer.patternDashboard, CopilotAnalyzer.patternAutomation] ∧
    (CopilotAnalyzer.patternHttpApi ∈
      ((((if b1 = true then [CopilotAnalyzer.patternHttpApi] else []) ++
        (if b2 = true then [CopilotAnalyzer.patternIotSensor] else [])) ++
        (if b3 = true then [CopilotAnalyzer.patternDashboard] else [])) ++
        (if b4 = true then [CopilotAnalyzer.patternAutomation] else [])) ↔ b1 = true) ∧
    (CopilotAnalyzer.patternIotSensor ∈
      ((((if b1 = true then [CopilotAnalyzer.patternHttpApi] else []) ++
        (if b2 = true then [CopilotAnalyzer.patternIotSensor] else [])) ++
        (if b3 = true then [CopilotAnalyzer.patternDashboard] else [])) ++
        (if b4 = true then [CopilotAnalyzer.patternAutomation] else [])) ↔ b2 = true) ∧
    (CopilotAnalyzer.patternDashboard ∈
      ((((if b1 = true then [CopilotAnalyzer.patternHttpApi] else []) ++
        (if b2 = true then [CopilotAnalyzer.patternIotSensor] else [])) ++
        (if b3 = true then [CopilotAnalyzer.patternDashboard] else [])) ++
        (if b4 = true then [CopilotAnalyzer.patternAutomation] else [])) ↔ b3 = true) ∧
    (CopilotAnalyzer.patternAutomation ∈
      ((((if b1 = true then [CopilotAnalyzer.patternHttpApi] else []) ++
        (if b2 = true then [CopilotAnalyzer.patternIotSensor] else [])) ++
        (if b3 = true then [CopilotAnalyzer.patternDashboard] else [])) ++
        (if b4 = true then [CopilotAnalyzer.patternAutomation] else [])) ↔ b4 = true) ∧
    (CopilotAnalyzer.patternHttpApi.name = "HTTP API" ∧
      CopilotAnalyzer.patternHttpApi.confidence = 90) ∧
    (CopilotAnalyzer.patternIotSensor.name = "IoT Sensor" ∧
      CopilotAnalyzer.patternIotSensor.confidence = 85) ∧
    (CopilotAnalyzer.patternDashboard.name = "Dashboard" ∧
      CopilotAnalyzer.patternDashboard.confidence = 95) ∧
    (CopilotAnalyzer.patternAutomation.name = "Automation" ∧
      CopilotAnalyzer.patternAutomation.confidence = 80) := by
  cases b1 <;> cases b2 <;> cases b3 <;> cases b4 <;> decide

/-- C7: for a flow with node list `ns`, `detectFlowPatterns` returns a sublist
of the fixed table HTTP API, IoT Sensor, Dashboard, Automation (so in that
order, each at most once) that holds a pattern exactly when its predicate on the
node types is true; the four patterns carry the confidences 90, 85, 95, 80. -/
theorem detectFlowPatterns_spec (flow : Flow) (ns : List Node) (h : flow.nodes = some ns) :
    ∃ ps, CopilotAnalyzer.detectFlowPatterns flow = .ok ps ∧
      ps.Sublist [CopilotAnalyzer.patternHttpApi, CopilotAnalyzer.patternIotSensor,
        CopilotAnalyzer.patternDashboard, CopilotAnalyzer.patternAutomation] ∧
      (CopilotAnalyzer.patternHttpApi ∈ ps ↔
        "http in" ∈ ns.map (·.type) ∧ "http response" ∈ ns.map (·.type)) ∧
      (CopilotAnalyzer.patternIotSensor ∈ ps ↔
        "mqtt in" ∈ ns.map (·.type) ∧
          ("function" ∈ ns.map (·.type) ∨ "switch" ∈ ns.map (·.type))) ∧
      (CopilotAnalyzer.patternDashboard ∈ ps ↔
        ∃ t ∈ ns.map (·.type), "ui_".data <+: t.data) ∧
      (CopilotAnalyzer.patternAutomation ∈ ps ↔
        "inject" ∈ ns.map (·.type) ∧ "switch" ∈ ns.map (·.type) ∧
          ("change" ∈ ns.map (·.type) ∨ "function" ∈ ns.map (·.type))) ∧
      (CopilotAnalyzer.patternHttpApi.name = "HTTP API" ∧
        CopilotAnalyzer.patternHttpApi.confidence = 90) ∧
      (CopilotAnalyzer.patternIotSensor.name = "IoT Sensor" ∧
        CopilotAnalyzer.patternIotSensor.confidence = 85) ∧
      (CopilotAnalyzer.patternDashboard.name = "Dashboard" ∧
        CopilotAnalyzer.patternDashboard.confidence = 95) ∧
      (CopilotAnalyzer.patternAutomation.name = "Automation" ∧
        CopilotAnalyzer.patternAutomation.confidence = 80) := by
  have hui : (List.map (fun x => x.type) ns).any (fun type => startsWith type "ui_") = true ↔
      ∃ t ∈ ns.map (·.type), "ui_".data <+: t.data := by
    simp only [List.any_eq_true, startsWith, List.isPrefixOf_iff_prefix]
  unfold CopilotAnalyzer.detectFlowPatterns
  rw [nodesOrThrow_some h]
  obtain ⟨t0, t1, t2, t3, t4, rest⟩ := patternTable_spec
    ((ns.map (·.type)).contains "http in" && (ns.map (·.type)).contains "http response")
    ((ns.map (·.type)).contains "mqtt in" &&
      ((ns.map (·.type)).contains "function" || (ns.map (·.type)).contains "switch"))
    ((ns.map (·.type)).any (fun type => startsWith type "ui_"))
    ((ns.map (·.type)).contains "inject" && (ns.map (·.type)).contains "switch" &&
      ((ns.map (·.type)).contains "change" || (ns.map (·.type)).contains "function"))
  refine ⟨_, rfl, t0, t1.trans ?_, t2.trans ?_, t3.trans hui, t4.trans ?_, rest⟩
  · simp only [Bool.and_eq_true, contains_iff_mem]
  · simp only [Bool.and_eq_true, Bool.or_eq_true, contains_iff_mem]
  · simp only [Bool.and_eq_true, Bool.or_eq_true, contains_iff_mem, and_assoc]

theorem detectFlowPatterns_spec_witness :
    ∃ ps, CopilotAnalyzer.detectFlowPatterns flowHttpHeavy = .ok ps ∧
      CopilotAnalyzer.patternHttpApi ∈ ps ∧ CopilotAnalyzer.patternIotSensor ∉ ps ∧
      CopilotAnalyzer.patternDashboard ∉ ps ∧ CopilotAnalyzer.patternAutomation ∉ ps := by
  obtain ⟨ps, h, _, h1, h2, h3, h4, _⟩ := detectFlowPatterns_spec flowHttpHeavy _ rfl
  refine ⟨ps, h, h1.mpr (by decide), fun hm => ?_, fun hm => ?_, fun hm => ?_⟩
  · exact absurd (h2.mp hm) (by decide)
  · exact absurd (h3.mp hm) (by decide)
  · exact absurd (h4.mp hm) (by decide)

end Patterns

section Issues

theorem findDisconnectedNodes_ok (flow : Flow) (ns : List Node) (h : flow.nodes = some ns) :
    ∃ l, CopilotAnalyzer.findDisconnectedNodes flow = .ok l := by
  unfold CopilotAnalyzer.findDisconnectedNodes
  rw [nodesOrThrow_some h]
  exact ⟨_, rfl⟩

theorem checkErrorHandling_eq (flow : Flow) (ns : List Node) (h : flow.nodes = some ns) :
    CopilotAnalyzer.checkErrorHandling flow = .ok
      (if (ns.filter (fun n => ["function", "http request", "exec", "file", "tcp"].contains n.type)) ≠ []
          ∧ ns.filter (fun n => n.type == "catch") = []
       then (ns.filter (fun n => ["function", "http request", "exec", "file", "tcp"].contains n.type)).map (·.id)
       else []) := by
  unfold CopilotAnalyzer.checkErrorHandling
  rw [nodesOrThrow_some h]
  simp only [bind, Except.bind, pure, Except.pure]
  generalize ns.filter (fun n => ["function", "http request", "exec", "file", "tcp"].contains n.type) = L
  generalize ns.filter (fun n => n.type == "catch") = C
  cases L <;> cases C <;> simp

theorem findPerformanceIssues_types (flow : Flow) (ns : List Node) (h : flow.nodes = some ns) :
    ∃ perf, CopilotAnalyzer.findPerformanceIssues flow = .ok perf ∧
      ∀ f ∈ perf, f.type = "too-many-http" ∨ f.type = "heavy-function" := by
  unfold CopilotAnalyzer.findPerformanceIssues
  rw [nodesOrThrow_some h]
  refine ⟨_, rfl, ?_⟩
  intro f hf
  simp only [List.mem_append] at hf
  rcases hf with hf | hf <;> split at hf <;> simp_all

theorem findSecurityIssues_types (flow : Flow) (ns : List Node) (h : flow.nodes = some ns) :
    ∃ sec, CopilotAnalyzer.findSecurityIssues flow = .ok sec ∧ ∀ f ∈ sec, f.type = "unsecure-http" := by
  unfold CopilotAnalyzer.findSecurityIssues
  rw [nodesOrThrow_some h]
  simp only [bind, Except.bind, pure, Except.pure]
  split
  · exact ⟨_, rfl, by simp⟩
  · exact ⟨_, rfl, by simp⟩

/-- C8: for a flow with node list `ns`, `findFlowIssues` holds a finding of type
`no-error-handling` exactly when some node has a risky type (function, http
request, exec, file, tcp) and no node has type catch; there is at most one such
finding, and it has severity high and names the ids of all risky nodes in flow
order. -/
theorem findFlowIssues_errorHandling (flow : Flow) (ns : List Node)
    (h : flow.nodes = some ns) :
    ∃ issues, CopilotAnalyzer.findFlowIssues flow = .ok issues ∧
      ((∃ f ∈ issues, f.type = "no-error-handling") ↔
        ((∃ n ∈ ns, n.type ∈ Spec.riskyTypes) ∧ ∀ n ∈ ns, n.type ≠ "catch")) ∧
      (issues.filter (fun f => f.type == "no-error-handling")).length ≤ 1 ∧
      (∀ f ∈ issues, f.type = "no-error-handling" →
        f.severity = "high" ∧
        f.nodeIds = some ((ns.filter (fun n => decide (n.type ∈ Spec.riskyTypes))).map (·.id))) := by
  obtain ⟨perf, hperf, tperf⟩ := findPerformanceIssues_types flow ns h
  obtain ⟨sec, hsec, tsec⟩ := findSecurityIssues_types flow ns h
  obtain ⟨D, hd⟩ := findDisconnectedNodes_ok flow ns h
  have he := checkErrorHandling_eq flow ns h
  have hfilter : (ns.filter (fun n => ["function", "http request", "exec", "file", "tcp"].contains n.type))
      = ns.filter (fun n => decide (n.type ∈ Spec.riskyTypes)) := by
    apply List.filter_congr
    intro n _
    simp [Spec.riskyTypes]
  unfold CopilotAnalyzer.findFlowIssues
  rw [hd, he, hperf, hsec]
  simp only [bind, Except.bind, pure, Except.pure]
  refine ⟨_, rfl, ?_⟩
  rw [hfilter]
  have hperf2 : ∀ f ∈ perf, f.type ≠ "no-error-handling" := by
    intro f hf
    rcases tperf f hf with e | e <;> rw [e] <;> decide
  have hsec2 : ∀ f ∈ sec, f.type ≠ "no-error-handling" := by
    intro f hf
    rw [tsec f hf]; decide
  have hpf : perf.filter (fun f => f.type == "no-error-handling") = [] := by
    simp only [List.filter_eq_nil_iff, beq_iff_eq]
    exact hperf2
  have hsf : sec.filter (fun f => f.type == "no-error-handling") = [] := by
    simp only [List.filter_eq_nil_iff, beq_iff_eq]
    exact hsec2
  have hcatch : (ns.filter (fun n => n.type == "catch") = []) ↔ ∀ n ∈ ns, n.type ≠ "catch" := by
    simp [List.filter_eq_nil_iff]
  have hrisky : (ns.filter (fun n => decide (n.type ∈ Spec.riskyTypes)) ≠ []) ↔
      ∃ n ∈ ns, n.type ∈ Spec.riskyTypes := by
    simp [List.filter_eq_nil_iff]
  rw [← hcatch, ← hrisky]
  generalize ns.filter (fun n => decide (n.type ∈ Spec.riskyTypes)) = L
  generalize ns.filter (fun n => n.type == "catch") = C
  refine ⟨?_, ?_, ?_⟩
  · constructor
    · rintro ⟨f, hf, ht⟩
      simp only [List.mem_append] at hf
      rcases hf with ((hf | hf) | hf) | hf
      · split at hf
        · simp only [List.mem_singleton] at hf
          rw [hf] at ht; simp at ht
        · simp at hf
      · by_contra hcon
        rw [if_neg hcon] at hf
        simp at hf
      · exact absurd ht (hperf2 f hf)
      · exact absurd ht (hsec2 f hf)
    · intro hc
      rw [if_pos hc]
      cases L with
      | nil => exact absurd rfl hc.1
      | cons a l =>
        have hl : (List.map (fun x => x.id) (a :: l)).length > 0 := by simp
        rw [if_pos hl]
        exact ⟨_, List.mem_append_left _ (List.mem_append_left _
          (List.mem_append_right _ (List.mem_singleton.mpr rfl))), rfl⟩
  · simp only [List.filter_append, hpf, hsf, List.append_nil, List.length_append]
    have h1 : ((if D.length > 0 then
        [({ type := "disconnected", severity := "warning", title := "Отключенные узлы",
            message := toString D.length ++ " узлов не подключены",
            nodeIds := some (D.map (·.id)),
            action := some "Подключите или удалите неиспользуемые узлы" } : Finding)]
        else []).filter (fun f => f.type == "no-error-handling")) = [] := by
      split <;> simp [List.filter]
    rw [h1]
    split
    · split <;> simp [List.filter]
    · simp
  · intro f hf ht
    simp only [List.mem_append] at hf
    rcases hf with ((hf | hf) | hf) | hf
    · split at hf
      · simp only [List.mem_singleton] at hf
        rw [hf] at ht; simp at ht
      · simp at hf
    · split at hf
      · split at hf
        · simp only [List.mem_singleton] at hf
          rw [hf]; exact ⟨rfl, rfl⟩
        · simp at hf
      · simp at hf
    · exact absurd ht (hperf2 f hf)
    · exact absurd ht (hsec2 f hf)

theorem findFlowIssues_errorHandling_witness :
    ∃ issues, CopilotAnalyzer.findFlowIssues flowHttpHeavy = .ok issues ∧
      ((∃ f ∈ issues, f.type = "no-error-handling") ↔
        ((∃ n ∈ flowHttpHeavy.nodes.getD [], n.type ∈ Spec.riskyTypes) ∧
          ∀ n ∈ flowHttpHeavy.nodes.getD [], n.type ≠ "catch")) ∧
      (issues.filter (fun f => f.type == "no-error-handling")).length ≤ 1 ∧
      (∀ f ∈ issues, f.type = "no-error-handling" →
        f.severity = "high" ∧
        f.nodeIds = some (((flowHttpHeavy.nodes.getD []).filter
          (fun n => decide (n.type ∈ Spec.riskyTypes))).map (·.id))) :=
  findFlowIssues_errorHandling flowHttpHeavy _ rfl

end Issues

section Security

theorem hasAuth_iff (n : Node) :
    CopilotAnalyzer.hasAuth n = true ↔
      (Spec.routeContains n "auth" ∨ Spec.routeContains n "login" ∨ Spec.routeContains n "token") := by
  unfold CopilotAnalyzer.hasAuth Spec.routeContains
  cases hu : n.url with
  | none => simp
  | some u =>
    simp only [Bool.and_eq_true, Bool.or_eq_true, strIncludes_iff, Option.mem_def,
      Option.some.injEq, exists_eq_left', Bool.not_eq_true', or_assoc]
    constructor
    · rintro ⟨_, h⟩; exact h
    · intro h
      refine ⟨?_, h⟩
      by_contra hne
      have hu0 : u.data = [] := by
        cases hb : u.isEmpty with
        | true =>
          have : u = "" := by simpa [String.isEmpty_iff] using hb
          rw [this]
        | false => exact absurd hb hne
      have hno : ∀ t : String, t.data ≠ [] → ¬ Spec.contains u t := by
        intro t ht hc
        unfold Spec.contains at hc
        rw [hu0] at hc
        exact ht (List.eq_nil_of_infix_nil hc)
      rcases h with h | h | h
      · exact hno _ (by decide) h
      · exact hno _ (by decide) h
      · exact hno _ (by decide) h

theorem unsecured_iff (n : Node) :
    (if n.type != "http in" then false
      else !CopilotAnalyzer.hasAuth n && n.method != some "get") = true ↔ Spec.unsecured n := by
  have ha := hasAuth_iff n
  unfold Spec.unsecured
  by_cases ht : n.type = "http in"
  · simp only [ht, bne_self_eq_false, Bool.false_eq_true, ↓reduceIte, Bool.and_eq_true,
      Bool.not_eq_true', bne_iff_ne, ne_eq, true_and]
    constructor
    · rintro ⟨h1, h2⟩
      have : ¬ (CopilotAnalyzer.hasAuth n = true) := by simp [h1]
      rw [ha] at this
      push_neg at this
      exact ⟨h2, this⟩
    · rintro ⟨h2, h3, h4, h5⟩
      refine ⟨?_, h2⟩
      cases hb : CopilotAnalyzer.hasAuth n with
      | false => rfl
      | true =>
        rcases ha.mp hb with h | h | h
        · exact absurd h h3
        · exact absurd h h4
        · exact absurd h h5
  · simp [ht]

/-- C9: for a flow with node list `ns`, `findSecurityIssues` returns no finding
when no `http in` node takes a method other than `get` on a route without
`auth`, `login` and `token`, and otherwise exactly one finding, of type
`unsecure-http` and severity high, that names all such nodes in flow order. -/
theorem findSecurityIssues_spec (flow : Flow) (ns : List Node) (h : flow.nodes = some ns) :
    ∃ issues, CopilotAnalyzer.findSecurityIssues flow = .ok issues ∧
      (ns.filter (fun n => decide (Spec.unsecured n)) = [] → issues = []) ∧
      (ns.filter (fun n => decide (Spec.unsecured n)) ≠ [] →
        ∃ f, issues = [f] ∧ f.type = "unsecure-http" ∧ f.severity = "high" ∧
          f.nodeIds = some ((ns.filter (fun n => decide (Spec.unsecured n))).map (·.id))) := by
  have hfilter : ns.filter (fun node =>
      if node.type != "http in" then false
      else !CopilotAnalyzer.hasAuth node && node.method != some "get")
      = ns.filter (fun n => decide (Spec.unsecured n)) := by
    apply List.filter_congr
    intro n _
    rw [Bool.eq_iff_iff, unsecured_iff]
    simp
  unfold CopilotAnalyzer.findSecurityIssues
  rw [nodesOrThrow_some h]
  simp only [bind, Except.bind, pure, Except.pure]
  rw [hfilter]
  generalize ns.filter (fun n => decide (Spec.unsecured n)) = bad
  cases bad with
  | nil => exact ⟨_, rfl, fun _ => by simp, fun hne => absurd rfl hne⟩
  | cons a l =>
    have hl : (a :: l).length > 0 := by simp
    rw [if_pos hl]
    exact ⟨_, rfl, fun hn => by simp at hn, fun _ => ⟨_, rfl, rfl, rfl, rfl⟩⟩

theorem findSecurityIssues_spec_witness :
    ∃ issues, CopilotAnalyzer.findSecurityIssues flowHttpHeavy = .ok issues ∧
      ∃ f, issues = [f] ∧ f.type = "unsecure-http" ∧ f.severity = "high" ∧
        f.nodeIds = some ["in"] := by
  obtain ⟨issues, h, _, h2⟩ := findSecurityIssues_spec flowHttpHeavy _ rfl
  have hb : (flowHttpHeavy.nodes.getD []).filter (fun n => decide (Spec.unsecured n))
      = [{ mkNode "in" "http in" (some [["fn"]]) with
            url := some "/items", method := some "post" }] := by
    decide
  obtain ⟨f, h3, h4, h5, h6⟩ := h2 (by
    show (flowHttpHeavy.nodes.getD []).filter (fun n => decide (Spec.unsecured n)) ≠ []
    rw [hb]; simp)
  refine ⟨issues, h, f, h3, h4, h5, ?_⟩
  rw [h6]
  show some (((flowHttpHeavy.nodes.getD []).filter (fun n => decide (Spec.unsecured n))).map
    (·.id)) = _
  rw [hb]
  rfl

end Security

section Heavy

theorem rxStar_append (p : Char → Bool) (k : List Char → Bool) (xs rest : List Char)
    (hxs : ∀ c ∈ xs, p c = true) (hk : k rest = true) : rxStar p k (xs ++ rest) = true := by
  induction xs with
  | nil =>
    cases rest with
    | nil => simpa [rxStar] using hk
    | cons c cs => simp [rxStar, hk]
  | cons x xs ih =>
    have hx : p x = true := hxs x (List.mem_cons_self _ _)
    have := ih (fun c hc => hxs c (List.mem_cons_of_mem _ hc))
    simp [rxStar, hx, this]

theorem rxStar_nil_match (p : Char → Bool) (k : List Char → Bool) (rest : List Char)
    (hk : k rest = true) : rxStar p k rest = true := by
  simpa using rxStar_append p k [] rest (by simp) hk

theorem rxMatchHere_char (c : Char) (items : List RxItem) (rest : List Char) :
    rxMatchHere (rxChar c :: items) (c :: rest) = rxMatchHere items rest := by
  simp [rxMatchHere, rxChar, rxRepeat]

theorem rxMatchHere_chars (cs : List Char) (items : List RxItem) (rest : List Char) :
    rxMatchHere (cs.map rxChar ++ items) (cs ++ rest) = rxMatchHere items rest := by
  induction cs with
  | nil => rfl
  | cons c cs ih => simpa [rxMatchHere_char] using ih

theorem rxMatchHere_star (p : Char → Bool) (items : List RxItem) (xs rest : List Char)
    (hxs : ∀ c ∈ xs, p c = true) (hk : rxMatchHere items rest = true) :
    rxMatchHere (.star p :: items) (xs ++ rest) = true := by
  simp only [rxMatchHere]
  exact rxStar_append p _ xs rest hxs hk

theorem rxTest_append (items : List RxItem) (pre rest : List Char)
    (h : rxMatchHere items rest = true) : rxTest items (pre ++ rest) = true := by
  induction pre with
  | nil =>
    cases rest with
    | nil => simpa [rxTest] using h
    | cons c cs => simp [rxTest, h]
  | cons c cs ih => simp [rxTest, ih]

theorem detectFlowPatterns_httpApi (flow : Flow) (ns : List Node) (h : flow.nodes = some ns)
    (hin : "http in" ∈ ns.map (·.type)) (hout : "http response" ∈ ns.map (·.type)) :
    ∃ ps, CopilotAnalyzer.detectFlowPatterns flow = .ok ps ∧
      CopilotAnalyzer.patternHttpApi ∈ ps := by
  unfold CopilotAnalyzer.detectFlowPatterns
  rw [nodesOrThrow_some h]
  refine ⟨_, rfl, ?_⟩
  have hc : ((ns.map (·.type)).contains "http in" &&
      (ns.map (·.type)).contains "http response") = true := by
    rw [Bool.and_eq_true]
    exact ⟨(contains_iff_mem _ _).mpr hin, (contains_iff_mem _ _).mpr hout⟩
  rw [if_pos hc]
  simp

theorem hasHeavyOperations_of_heavyForLoop (code : String) (h : Spec.heavyForLoop code) :
    CopilotAnalyzer.hasHeavyOperations code = true := by
  obtain ⟨pre, ws1, init, cond, ws2, post, hcode, h1, h2, h3, h4⟩ := h
  have hfor : rxTest rxHeavyFor code.data = true := by
    rw [hcode]
    apply rxTest_append
    unfold rxHeavyFor rxLit
    rw [rxMatchHere_chars]
    apply rxMatchHere_star _ _ _ _ h1
    rw [rxMatchHere_char]
    apply rxMatchHere_star
    · intro c hc
      simp only [bne_iff_ne, ne_eq]
      rintro rfl
      exact h2 hc
    rw [rxMatchHere_char]
    apply rxMatchHere_star _ _ [] _ (by simp)
    apply rxMatchHere_star
    · intro c hc
      simp only [bne_iff_ne, ne_eq]
      rintro rfl
      exact h3 hc
    rw [rxMatchHere_char]
    apply rxMatchHere_star _ _ _ _ h4
    simp only [rxMatchHere, rxRepeat]
    have hrest : rxStar isJsDigit (fun _ => true) ('0' :: '0' :: post) = true :=
      rxStar_nil_match _ _ _ rfl
    have h0 : isJsDigit '0' = true := by decide
    have h1 : isJsDigit '1' = true := by decide
    simp [hrest, h0, h1]
  simp [CopilotAnalyzer.hasHeavyOperations, hfor]

theorem flowHttpHeavy_heavyForLoop :
    Spec.heavyForLoop "for (let i = 0; i < 10000; i++) \x7b msg.payload += i; \x7d\nreturn msg;" :=
  ⟨[], " ".data, "let i = 0".data, " i ".data, " ".data,
    "; i++) \x7b msg.payload += i; \x7d\nreturn msg;".data, by decide, by decide, by decide,
    by decide, by decide⟩

/-- C10 (as amended): a flow whose node list holds an `http in` node, an
`http response` node and a `function` node whose code has a `for` header that
compares with `<` against the literal `10000` gets the pattern HTTP API, of
confidence 90, and a `heavy-function` warning whose node ids contain that
function node. -/
theorem heavyHttpApi_detected (flow : Flow) (ns : List Node) (fn : Node) (code : String)
    (h : flow.nodes = some ns) (hin : "http in" ∈ ns.map (·.type))
    (hout : "http response" ∈ ns.map (·.type)) (hfn : fn ∈ ns)
    (htype : fn.type = "function") (hfunc : fn.func = some code)
    (hloop : Spec.heavyForLoop code) :
    (∃ ps, CopilotAnalyzer.detectFlowPatterns flow = .ok ps ∧
      ∃ pat ∈ ps, pat.name = "HTTP API" ∧ pat.confidence = 90) ∧
    (∃ issues, CopilotAnalyzer.findPerformanceIssues flow = .ok issues ∧
      ∃ f ∈ issues, f.type = "heavy-function" ∧ f.severity = "warning" ∧
        ∃ ids, f.nodeIds = some ids ∧ fn.id ∈ ids) := by
  constructor
  · obtain ⟨ps, hps, hmem⟩ := detectFlowPatterns_httpApi flow ns h hin hout
    exact ⟨ps, hps, _, hmem, rfl, rfl⟩
  · have hheavy := hasHeavyOperations_of_heavyForLoop code hloop
    have hne : code.isEmpty = false := by
      obtain ⟨pre, ws1, init, cond, ws2, post, hcode, _⟩ := hloop
      cases hb : code.isEmpty with
      | false => rfl
      | true =>
        have : code = "" := by simpa [String.isEmpty_iff] using hb
        rw [this] at hcode
        simp at hcode
    have hmem : fn ∈ ns.filter (fun node =>
        if node.type != "function" || !truthyStr node.func then false
        else CopilotAnalyzer.hasHeavyOperations (node.func.getD "")) := by
      rw [List.mem_filter]
      refine ⟨hfn, ?_⟩
      simp [htype, hfunc, truthyStr, hne, hheavy]
    unfold CopilotAnalyzer.findPerformanceIssues
    rw [nodesOrThrow_some h]
    refine ⟨_, rfl, ?_⟩
    have hl : (ns.filter (fun node =>
        if node.type != "function" || !truthyStr node.func then false
        else CopilotAnalyzer.hasHeavyOperations (node.func.getD ""))).length > 0 :=
      List.length_pos_of_mem hmem
    rw [if_pos hl]
    exact ⟨_, List.mem_append_right _ (List.mem_singleton.mpr rfl), rfl, rfl, _, rfl,
      List.mem_map_of_mem _ hmem⟩

theorem heavyHttpApi_detected_witness :
    (∃ ps, CopilotAnalyzer.detectFlowPatterns flowHttpHeavy = .ok ps ∧
      ∃ pat ∈ ps, pat.name = "HTTP API" ∧ pat.confidence = 90) ∧
    (∃ issues, CopilotAnalyzer.findPerformanceIssues flowHttpHeavy = .ok issues ∧
      ∃ f ∈ issues, f.type = "heavy-function" ∧ f.severity = "warning" ∧
        ∃ ids, f.nodeIds = some ids ∧ "fn" ∈ ids) :=
  heavyHttpApi_detected flowHttpHeavy _
    { mkNode "fn" "function" (some [["out"]]) with
      func := some "for (let i = 0; i < 10000; i++) \x7b msg.payload += i; \x7d\nreturn msg;" }
    _ rfl (by decide) (by decide) (by decide) rfl rfl flowHttpHeavy_heavyForLoop

/-- C10, counterexample: a flow with an `http in` node, an `http response` node
and a `function` node running `for (let i = 1; i <= 10000; i++)`, a loop of
10000 iterations bounded by the literal, gets no performance finding. -/
theorem heavyHttpApi_missed :
    (∃ n ∈ flowHttpLoopLe.nodes.getD [], n.type = "http in") ∧
    (∃ n ∈ flowHttpLoopLe.nodes.getD [], n.type = "http response") ∧
    (∃ n ∈ flowHttpLoopLe.nodes.getD [], n.type = "function" ∧
      n.func = some "for (let i = 1; i <= 10000; i++) \x7b msg.payload += i; \x7d\nreturn msg;") ∧
    CopilotAnalyzer.findPerformanceIssues flowHttpLoopLe = .ok [] := by
  refine ⟨by decide, by decide, by decide, ?_⟩
  rfl

end Heavy

section Sanitize

theorem isSensitiveKey_iff (toLowerCase : String → String) (key : String) :
    ModelManager.isSensitiveKey toLowerCase key = true ↔
      ∃ field ∈ ["password", "token", "apikey", "secret", "key", "credentials", "auth", "cert",
        "private"], Spec.contains (toLowerCase key) field := by
  unfold ModelManager.isSensitiveKey ModelManager.sensitiveFields
  simp only [List.any_eq_true, strIncludes_iff]

theorem deleteFields_eq (fields : List String) (entries : List (String × Val)) :
    fields.foldl (fun c field => c.filter (fun kv => kv.1 != field)) entries
      = entries.filter (fun kv => !fields.contains kv.1) := by
  induction fields generalizing entries with
  | nil => simp
  | cons f fs ih =>
    rw [List.foldl_cons, ih, List.filter_filter]
    apply List.filter_congr
    intro kv _
    by_cases h : kv.1 = f
    · simp [h]
    · have h2 : (kv.1 == f) = false := by simpa using h
      simp [h, List.contains, List.elem, h2]

theorem lookup_redact (sys sens : String → Bool) (mark : Val) (entries : List (String × Val))
    (k : String) :
    ((entries.filter (fun kv => !sys kv.1)).map
        (fun kv => if sens kv.1 = true then (kv.1, mark) else kv)).lookup k
      = if sys k = true then none
        else if sens k = true then (entries.lookup k).map (fun _ => mark)
        else entries.lookup k := by
  induction entries with
  | nil => simp
  | cons kv rest ih =>
    obtain ⟨k', v⟩ := kv
    by_cases hk : k = k'
    · subst hk
      by_cases hsys : sys k = true
      · rw [List.filter_cons_of_neg (by simp [hsys]), ih]
        simp only [if_pos hsys]
      · rw [List.filter_cons_of_pos (by simp [hsys]), List.map_cons, if_neg hsys]
        by_cases hs : sens k = true
        · rw [if_pos hs, if_pos hs]
          simp [List.lookup]
        · rw [if_neg hs, if_neg hs]
          simp [List.lookup]
    · have hb : (k == k') = false := by simpa using hk
      have hl : List.lookup k ((k', v) :: rest) = List.lookup k rest := by
        simp [List.lookup, hb]
      rw [hl, ← ih]
      by_cases hsys : sys k' = true
      · rw [List.filter_cons_of_neg (by simp [hsys])]
      · rw [List.filter_cons_of_pos (by simp [hsys]), List.map_cons]
        by_cases hs : sens k' = true
        · rw [if_pos hs]
          simp [List.lookup, hb]
        · rw [if_neg hs]
          simp [List.lookup, hb]

/-- C2: `sanitizeNodeConfig` returns a mapping whose keys are the keys of the
node without `id`, `type`, `wires`, `x`, `y` and `z`; a key whose lower-cased
name contains one of password, token, apikey, secret, key, credentials, auth,
cert, private is mapped to the marker `[СКРЫТО]`, and every other key keeps the
value it has in the node. -/
theorem sanitizeNodeConfig_spec (toLowerCase : String → String) (node : Node) :
    (ModelManager.sanitizeNodeConfig toLowerCase node).map Prod.fst
      = (node.entries.map Prod.fst).filter
          (fun k => decide (k ∉ ["id", "type", "wires", "x", "y", "z"])) ∧
    ∀ k : String,
      (ModelManager.sanitizeNodeConfig toLowerCase node).lookup k
        = if k ∈ ["id", "type", "wires", "x", "y", "z"] then none
          else if ∃ field ∈ ["password", "token", "apikey", "secret", "key", "credentials",
              "auth", "cert", "private"], Spec.contains (toLowerCase k) field
            then (node.entries.lookup k).map (fun _ => Val.str "[СКРЫТО]")
          else node.entries.lookup k := by
  have hsysb : ∀ k : String, (ModelManager.systemFields.contains k = true) ↔
      k ∈ ["id", "type", "wires", "x", "y", "z"] := fun k => contains_iff_mem _ k
  unfold ModelManager.sanitizeNodeConfig
  simp only [deleteFields_eq]
  constructor
  · rw [List.map_map, List.filter_map]
    congr 1
    · funext kv
      simp only [Function.comp]
      split <;> rfl
    · apply List.filter_congr
      intro kv _
      simp only [Function.comp]
      rw [Bool.eq_iff_iff]
      simp only [Bool.not_eq_true', decide_eq_true_eq, ← hsysb]
      simp
  · intro k
    rw [lookup_redact (fun k => ModelManager.systemFields.contains k)]
    by_cases hsys : k ∈ ["id", "type", "wires", "x", "y", "z"]
    · rw [if_pos ((hsysb k).mpr hsys), if_pos hsys]
    · rw [if_neg (fun h => hsys ((hsysb k).mp h)), if_neg hsys]
      by_cases hs : ModelManager.isSensitiveKey toLowerCase k = true
      · rw [if_pos hs, if_pos ((isSensitiveKey_iff _ _).mp hs)]
        rfl
      · rw [if_neg hs, if_neg (fun h => hs ((isSensitiveKey_iff _ _).mpr h))]

end Sanitize

section Fuel

theorem unvisited_mono (nodes : List Node) {v w : List String} (h : v ⊆ w) :
    unvisited nodes w ≤ unvisited nodes v := by
  unfold unvisited
  apply Finset.card_le_card
  apply Finset.sdiff_subset_sdiff (Finset.Subset.refl _)
  intro x hx
  simp only [List.mem_toFinset] at hx ⊢
  exact h hx

theorem unvisited_cons_lt (nodes : List Node) {v : List String} {id : String}
    (hid : id ∈ nodes.map (·.id)) (hv : id ∉ v) :
    unvisited nodes (id :: v) < unvisited nodes v := by
  unfold unvisited
  apply Finset.card_lt_card
  rw [Finset.ssubset_iff_of_subset]
  · refine ⟨id, ?_, ?_⟩
    · simp only [Finset.mem_sdiff, List.mem_toFinset]
      exact ⟨hid, hv⟩
    · simp
  · apply Finset.sdiff_subset_sdiff (Finset.Subset.refl _)
    intro x hx
    simp only [List.mem_toFinset] at hx ⊢
    exact List.mem_cons_of_mem _ hx

theorem unvisited_nil_le (nodes : List Node) : unvisited nodes [] ≤ nodes.length := by
  unfold unvisited
  simp only [List.toFinset_nil, Finset.sdiff_empty]
  calc (nodes.map (·.id)).toFinset.card ≤ (nodes.map (·.id)).length := List.toFinset_card_le _
    _ = nodes.length := List.length_map _ _

theorem find_id_mem {nodes : List Node} {id : String} {node : Node}
    (h : nodes.find? (fun n => n.id == id) = some node) : id ∈ nodes.map (·.id) := by
  have h1 := List.find?_some h
  have h2 := List.mem_of_find?_eq_some h
  simp only [beq_iff_eq] at h1
  exact List.mem_map.mpr ⟨node, h2, h1⟩

end Fuel

section Depth

theorem findDepthTargets_total (walk : String → Nat → List String → Option (Nat × List String))
    (P : List String → Prop) (hP : ∀ v w, v ⊆ w → P v → P w)
    (hwalk : ∀ t d v, P v → ∃ r w, walk t d v = some (r, w) ∧ v ⊆ w) (depth : Nat) :
    ∀ (ts : List String) (m : Nat) (v : List String), P v →
      ∃ m' w, CopilotAnalyzer.findDepthTargets walk depth ts (m, v) = some (m', w) ∧ v ⊆ w := by
  intro ts
  induction ts with
  | nil => intro m v _; exact ⟨m, v, rfl, List.Subset.refl _⟩
  | cons t rest ih =>
    intro m v hv
    obtain ⟨r, w, hw, hsub⟩ := hwalk t (depth + 1) v hv
    obtain ⟨m', w', hrest, hsub'⟩ := ih (max m r) w (hP v w hsub hv)
    refine ⟨m', w', ?_, hsub.trans hsub'⟩
    simp only [CopilotAnalyzer.findDepthTargets, hw]
    exact hrest

theorem findDepthWires_total (walk : String → Nat → List String → Option (Nat × List String))
    (P : List String → Prop) (hP : ∀ v w, v ⊆ w → P v → P w)
    (hwalk : ∀ t d v, P v → ∃ r w, walk t d v = some (r, w) ∧ v ⊆ w) (depth : Nat) :
    ∀ (ws : List (List String)) (m : Nat) (v : List String), P v →
      ∃ m' w, CopilotAnalyzer.findDepthWires walk depth ws (m, v) = some (m', w) ∧ v ⊆ w := by
  intro ws
  induction ws with
  | nil => intro m v _; exact ⟨m, v, rfl, List.Subset.refl _⟩
  | cons ts rest ih =>
    intro m v hv
    obtain ⟨m1, w1, h1, hsub1⟩ := findDepthTargets_total walk P hP hwalk depth ts m v hv
    obtain ⟨m', w', hrest, hsub'⟩ := ih m1 w1 (hP v w1 hsub1 hv)
    refine ⟨m', w', ?_, hsub1.trans hsub'⟩
    simp only [CopilotAnalyzer.findDepthWires, h1]
    exact hrest

theorem findDepth_total (nodes : List Node) :
    ∀ (fuel : Nat) (nodeId : String) (depth : Nat) (visited : List String),
      unvisited nodes visited < fuel →
      ∃ r w, CopilotAnalyzer.findDepth nodes fuel nodeId depth visited = some (r, w) ∧
        visited ⊆ w := by
  intro fuel
  induction fuel with
  | zero => intro _ _ _ h; exact absurd h (Nat.not_lt_zero _)
  | succ fuel ih =>
    intro nodeId depth visited hfuel
    unfold CopilotAnalyzer.findDepth
    by_cases hv : visited.contains nodeId = true
    · rw [if_pos hv]
      exact ⟨_, _, rfl, List.Subset.refl _⟩
    · rw [if_neg hv]
      have hsub : visited ⊆ nodeId :: visited := List.subset_cons_self _ _
      cases hfind : nodes.find? (fun n => n.id == nodeId) with
      | none => exact ⟨_, _, rfl, hsub⟩
      | some node =>
        cases hwires : node.wires with
        | none =>
          simp only [hwires]
          exact ⟨_, _, rfl, hsub⟩
        | some wires =>
          simp only [hwires]
          have hnot : nodeId ∉ visited := by
            intro hmem
            exact hv ((contains_iff_mem _ _).mpr hmem)
          have hlt : unvisited nodes (nodeId :: visited) < fuel := by
            have := unvisited_cons_lt nodes (find_id_mem hfind) hnot
            omega
          obtain ⟨m', w, hw, hsub'⟩ := findDepthWires_total
            (fun t d v => CopilotAnalyzer.findDepth nodes fuel t d v)
            (fun v => unvisited nodes v < fuel)
            (fun v w hvw hlt => lt_of_le_of_lt (unvisited_mono nodes hvw) hlt)
            (fun t d v hlt => ih t d v hlt) depth wires depth (nodeId :: visited) hlt
          exact ⟨m', w, hw, hsub.trans hsub'⟩

theorem flowDepthLoop_total (nodes : List Node) (fuel : Nat) (hfuel : nodes.length < fuel) :
    ∀ (starts : List Node) (m : Nat),
      ∃ d, CopilotAnalyzer.flowDepthLoop nodes fuel starts m = some d := by
  intro starts
  induction starts with
  | nil => intro m; exact ⟨m, rfl⟩
  | cons s rest ih =>
    intro m
    obtain ⟨r, w, hw, _⟩ := findDepth_total nodes fuel s.id 0 []
      (lt_of_le_of_lt (unvisited_nil_le nodes) hfuel)
    obtain ⟨d, hd⟩ := ih (max m r)
    refine ⟨d, ?_⟩
    simp only [CopilotAnalyzer.flowDepthLoop, hw]
    exact hd

theorem calculateFlowDepth_ok (flow : Flow) (ns : List Node) (h : flow.nodes = some ns) :
    ∃ d, CopilotAnalyzer.calculateFlowDepth flow = .ok d := by
  unfold CopilotAnalyzer.calculateFlowDepth
  rw [nodesOrThrow_some h]
  simp only [bind, Except.bind]
  obtain ⟨d, hd⟩ := flowDepthLoop_total ns (ns.length + 1) (Nat.lt_succ_self _)
    (ns.filter (fun node =>
      ["inject", "http in", "mqtt in", "websocket in"].contains node.type)) 0
  rw [hd]
  exact ⟨d, rfl⟩

theorem countConnections_ok (flow : Flow) (ns : List Node) (h : flow.nodes = some ns) :
    ∃ c, CopilotAnalyzer.countConnections flow = .ok c := by
  unfold CopilotAnalyzer.countConnections
  rw [nodesOrThrow_some h]
  exact ⟨_, rfl⟩

theorem countBranches_ok (flow : Flow) (ns : List Node) (h : flow.nodes = some ns) :
    ∃ b, CopilotAnalyzer.countBranches flow = .ok b := by
  unfold CopilotAnalyzer.countBranches
  rw [nodesOrThrow_some h]
  exact ⟨_, rfl⟩

/-- C6: for a flow with node list `ns`, the three metrics return values
`connections`, `depth` and `branches`, and `calculateComplexity` returns the
level `complex` if `S > 50`, `medium` if `20 < S ≤ 50` and `simple` otherwise,
where `S = nodeCount + 0.5 × connections + 2 × depth + 1.5 × branches` is taken
exactly. -/
theorem calculateComplexity_level (flow : Flow) (ns : List Node) (h : flow.nodes = some ns) :
    ∃ connections depth branches : Nat,
      CopilotAnalyzer.countConnections flow = .ok connections ∧
      CopilotAnalyzer.calculateFlowDepth flow = .ok depth ∧
      CopilotAnalyzer.countBranches flow = .ok branches ∧
      ∃ c, CopilotAnalyzer.calculateComplexity flow = .ok c ∧
        (((ns.length : ℚ) + (1 / 2) * connections + 2 * depth + (3 / 2) * branches > 50 →
            c.level = "complex") ∧
         (20 < (ns.length : ℚ) + (1 / 2) * connections + 2 * depth + (3 / 2) * branches ∧
            (ns.length : ℚ) + (1 / 2) * connections + 2 * depth + (3 / 2) * branches ≤ 50 →
            c.level = "medium") ∧
         ((ns.length : ℚ) + (1 / 2) * connections + 2 * depth + (3 / 2) * branches ≤ 20 →
            c.level = "simple")) := by
  obtain ⟨connections, hc⟩ := countConnections_ok flow ns h
  obtain ⟨depth, hd⟩ := calculateFlowDepth_ok flow ns h
  obtain ⟨branches, hb⟩ := countBranches_ok flow ns h
  refine ⟨connections, depth, branches, hc, hd, hb, ?_⟩
  unfold CopilotAnalyzer.calculateComplexity
  simp only [h, hc, hd, hb, bind, Except.bind, pure, Except.pure]
  refine ⟨_, rfl, ?_, ?_, ?_⟩
  · intro hS
    have hS' : (ns.length : ℚ) + (connections : ℚ) * (1 / 2) + (depth : ℚ) * 2 +
        (branches : ℚ) * (3 / 2) > 50 := by linarith
    simp only [if_pos hS']
  · rintro ⟨h1, h2⟩
    have h1' : ¬ ((ns.length : ℚ) + (connections : ℚ) * (1 / 2) + (depth : ℚ) * 2 +
        (branches : ℚ) * (3 / 2) > 50) := by
      intro hcon; linarith
    have h2' : (ns.length : ℚ) + (connections : ℚ) * (1 / 2) + (depth : ℚ) * 2 +
        (branches : ℚ) * (3 / 2) > 20 := by linarith
    simp only [if_neg h1', if_pos h2']
  · intro hS
    have h1' : ¬ ((ns.length : ℚ) + (connections : ℚ) * (1 / 2) + (depth : ℚ) * 2 +
        (branches : ℚ) * (3 / 2) > 50) := by
      intro hcon; linarith
    have h2' : ¬ ((ns.length : ℚ) + (connections : ℚ) * (1 / 2) + (depth : ℚ) * 2 +
        (branches : ℚ) * (3 / 2) > 20) := by
      intro hcon; linarith
    simp only [if_neg h1', if_neg h2']

theorem calculateComplexity_level_witness :
    ∃ connections depth branches : Nat,
      CopilotAnalyzer.countConnections flowHttpHeavy = .ok connections ∧
      CopilotAnalyzer.calculateFlowDepth flowHttpHeavy = .ok depth ∧
      CopilotAnalyzer.countBranches flowHttpHeavy = .ok branches ∧
      ∃ c, CopilotAnalyzer.calculateComplexity flowHttpHeavy = .ok c ∧
        ((((flowHttpHeavy.nodes.getD []).length : ℚ) + (1 / 2) * connections + 2 * depth +
            (3 / 2) * branches > 50 → c.level = "complex") ∧
         (20 < ((flowHttpHeavy.nodes.getD []).length : ℚ) + (1 / 2) * connections + 2 * depth +
            (3 / 2) * branches ∧
          ((flowHttpHeavy.nodes.getD []).length : ℚ) + (1 / 2) * connections + 2 * depth +
            (3 / 2) * branches ≤ 50 → c.level = "medium") ∧
         (((flowHttpHeavy.nodes.getD []).length : ℚ) + (1 / 2) * connections + 2 * depth +
            (3 / 2) * branches ≤ 20 → c.level = "simple")) :=
  calculateComplexity_level flowHttpHeavy _ rfl

/-- C5, the failing input: on the flow `s → [a, b]`, `a → [c]`, `b → [a]` with
`s` an `inject` node, `calculateFlowDepth` returns 2, although the longest
simple path from a source node has 3 wires: `s, b, a, c` is a path along wires
that starts at `s` and repeats no node. -/
theorem calculateFlowDepth_diamond :
    CopilotAnalyzer.calculateFlowDepth flowDiamond = .ok 2 ∧
    Spec.flowDepth (flowDiamond.nodes.getD []) = 3 ∧
    (∃ n ∈ flowDiamond.nodes.getD [], n.id = "s" ∧ n.type = "inject") ∧
    List.Chain' (Spec.wire (flowDiamond.nodes.getD [])) ["s", "b", "a", "c"] ∧
    ["s", "b", "a", "c"].Nodup ∧ ["s", "b", "a", "c"].length = 3 + 1 := by
  refine ⟨rfl, by decide, by decide, ?_, by decide, rfl⟩
  simp only [List.chain'_cons, List.chain'_singleton, and_true]
  exact ⟨by decide, by decide, by decide⟩

end Depth

section Dispatcher

theorem managerFindDisconnectedNodes_ok (flow : Flow) (ns : List Node)
    (h : flow.nodes = some ns) : ∃ l, ModelManager.findDisconnectedNodes flow = .ok l := by
  unfold ModelManager.findDisconnectedNodes
  rw [nodesOrThrow_some h]
  exact ⟨_, rfl⟩

theorem performBuiltinAnalysis_ok (flow : Flow) (analysisType : String) :
    ∃ r, ModelManager.performBuiltinAnalysis flow analysisType = .ok r ∧
      (∀ ns, flow.nodes = some ns →
        ∃ a, r = .reply (.json a) 0 (some "builtin-analyzer")) := by
  unfold ModelManager.performBuiltinAnalysis
  cases hn : flow.nodes with
  | none => exact ⟨_, rfl, fun ns h => by simp at h⟩
  | some ns =>
    obtain ⟨l, hl⟩ := managerFindDisconnectedNodes_ok flow ns hn
    simp only [hl, bind, Except.bind, pure, Except.pure]
    exact ⟨_, rfl, fun _ _ => ⟨_, rfl⟩⟩

theorem makeRequest_abort : ModelManager.makeRequest .abort
    = .error "Превышено время ожидания запроса" := rfl

theorem callAIModel_timeout (mm : ModelManager) (env : Env) (model : ModelEntry) (flow : Flow)
    (analysisType : String) (htimeout : ∀ e k m p, env.fetch e k m p = FetchOutcome.abort) :
    ∃ message, ModelManager.callAIModel mm env model flow analysisType = .error message := by
  unfold ModelManager.callAIModel
  cases model with
  | other => exact ⟨_, rfl⟩
  | model config =>
    simp only
    split
    · unfold ModelManager.callOpenAI
      split
      · exact ⟨_, rfl⟩
      · simp only [htimeout, makeRequest_abort, bind, Except.bind]
        exact ⟨_, rfl⟩
    · split
      · unfold ModelManager.callClaude
        split
        · exact ⟨_, rfl⟩
        · simp only [htimeout, makeRequest_abort, bind, Except.bind]
          exact ⟨_, rfl⟩
      · split
        · unfold ModelManager.callOllama
          simp only [htimeout, makeRequest_abort, bind, Except.bind]
          exact ⟨_, rfl⟩
        · split
          · unfold ModelManager.callLMStudio
            simp only [htimeout, makeRequest_abort, bind, Except.bind]
            exact ⟨_, rfl⟩
          · exact ⟨_, rfl⟩

theorem getModel_eq_none_iff (cfg : ModelsConfig) (modelId : String) :
    cfg.getModel modelId = none ↔
      cfg.models.lookup modelId = none ∧ modelId ∉ objectPrototypeNames ∧
        ∀ object, cfg.modelsProto = some object →
          ModelsConfig.fieldTruthy object modelId = false := by
  unfold ModelsConfig.getModel
  by_cases hp : modelId = "__proto__"
  · subst hp
    have hmem : "__proto__" ∈ objectPrototypeNames := by decide
    constructor
    · intro h
      simp only [beq_self_eq_true, if_true] at h
      cases hproto : cfg.modelsProto <;> rw [hproto] at h <;> cases h
    · intro h
      exact absurd hmem h.2.1
  · have hb : (modelId == "__proto__") = false := by simpa using hp
    simp only [hb, Bool.false_eq_true, if_false]
    cases hl : cfg.models.lookup modelId with
    | some model => simp
    | none =>
      simp only [true_and]
      have hc : objectPrototypeNames.contains modelId = true ↔
          modelId ∈ objectPrototypeNames := contains_iff_mem _ _
      cases hproto : cfg.modelsProto with
      | none =>
        simp only [Option.map_none', Option.getD_none, Bool.false_eq_true, if_false]
        by_cases hm : modelId ∈ objectPrototypeNames
        · simp [hc.2 hm, hm]
        · have : objectPrototypeNames.contains modelId = false := by
            rw [← Bool.not_eq_true, hc]; exact hm
          simp [this, hm]
      | some object =>
        simp only [Option.map_some', Option.getD_some]
        by_cases hf : ModelsConfig.fieldTruthy object modelId = true
        · rw [if_pos hf]
          refine ⟨fun h => Option.noConfusion h, fun h => ?_⟩
          have hfalse := h.2 object rfl
          rw [hf] at hfalse
          exact Bool.noConfusion hfalse
        · rw [if_neg hf]
          have hf0 : ModelsConfig.fieldTruthy object modelId = false := by simpa using hf
          by_cases hm : modelId ∈ objectPrototypeNames
          · rw [if_pos (hc.2 hm)]
            exact ⟨fun h => Option.noConfusion h, fun h => absurd hm h.1⟩
          · rw [if_neg (fun h => hm (hc.1 h))]
            refine ⟨fun _ => ⟨hm, fun o ho => ?_⟩, fun _ => rfl⟩
            cases ho
            exact hf0

/-- C1 (as amended): `analyzeWithAI` throws exactly when `getCurrentModel()` is
null, which is the case when the current id is no key of the catalogue and
names nothing that the catalogue object inherits; the error is then 'Модель не
выбрана'. In every other state it returns, whatever the flow and the behaviour
of the backend; and when the value selected is not the built-in model and every
request to the backend times out, the value returned is the result of the local
analyzer, which for a flow with a node list is tagged `model =
builtin-analyzer`, `tokensUsed = 0`. -/
theorem analyzeWithAI_never_throws (mm : ModelManager) (env : Env) (flow : Flow)
    (analysisType : String) :
    (mm.config.getCurrentModel = none ↔
      mm.config.models.lookup mm.config.currentModel = none ∧
        mm.config.currentModel ∉ objectPrototypeNames ∧
        ∀ object, mm.config.modelsProto = some object →
          ModelsConfig.fieldTruthy object mm.config.currentModel = false) ∧
    (mm.config.getCurrentModel = none →
      ModelManager.analyzeWithAI mm env flow analysisType = .error "Модель не выбрана") ∧
    (∀ currentModel, mm.config.getCurrentModel = some currentModel →
      ∃ r mm', ModelManager.analyzeWithAI mm env flow analysisType = .ok (r, mm') ∧
        (currentModel.provider ≠ some "builtin" →
          (∀ e k m p, env.fetch e k m p = FetchOutcome.abort) →
            ModelManager.performBuiltinAnalysis flow analysisType = .ok r ∧
            (∀ ns, flow.nodes = some ns →
              ∃ a, r = .reply (.json a) 0 (some "builtin-analyzer")))) := by
  refine ⟨getModel_eq_none_iff mm.config mm.config.currentModel, fun hnone => ?_,
    fun currentModel hcur => ?_⟩
  · unfold ModelManager.analyzeWithAI
    simp only [hnone]
  · obtain ⟨r0, hr0, htag⟩ := performBuiltinAnalysis_ok flow analysisType
    unfold ModelManager.analyzeWithAI
    simp only [hcur]
    by_cases hb : (currentModel.provider == some "builtin") = true
    · rw [if_pos hb, hr0]
      refine ⟨r0, mm, rfl, fun hne => ?_⟩
      exact absurd (by simpa using hb) hne
    · rw [if_neg hb]
      by_cases hav :
          (!mm.config.isModelAvailable env (propertyKey currentModel.id)) = true
      · rw [if_pos hav, hr0]
        exact ⟨r0, mm, rfl, fun _ _ => ⟨rfl, htag⟩⟩
      · rw [if_neg hav]
        cases hcall : ModelManager.callAIModel mm env currentModel flow analysisType with
        | error message =>
          simp only [hr0]
          exact ⟨r0, _, rfl, fun _ _ => ⟨rfl, htag⟩⟩
        | ok result =>
          simp only
          refine ⟨result, _, rfl, fun _ htimeout => ?_⟩
          obtain ⟨message, hm⟩ :=
            callAIModel_timeout mm env currentModel flow analysisType htimeout
          rw [hm] at hcall
          exact absurd hcall (by simp)

theorem analyzeWithAI_never_throws_witness :
    (registryStale.getCurrentModel = none ∧
      ModelManager.analyzeWithAI (ModelManager.new registryStale) envTimeout
        flowInjectDebug "codeAnalysis" = .error "Модель не выбрана") ∧
    (registryInherited.getCurrentModel = some ModelEntry.other ∧
      ∃ r mm', ModelManager.analyzeWithAI (ModelManager.new registryInherited) envTimeout
        flowInjectDebug "codeAnalysis" = .ok (r, mm')) ∧
    ∃ r mm', ModelManager.analyzeWithAI (ModelManager.new registryOllama) envTimeout
        flowInjectDebug "codeAnalysis" = .ok (r, mm') ∧
      ModelManager.performBuiltinAnalysis flowInjectDebug "codeAnalysis" = .ok r ∧
      ∃ a, r = .reply (.json a) 0 (some "builtin-analyzer") := by
  have hstale := (analyzeWithAI_never_throws (ModelManager.new registryStale) envTimeout
    flowInjectDebug "codeAnalysis").2.1 rfl
  obtain ⟨r1, mm1, h1, -⟩ := (analyzeWithAI_never_throws (ModelManager.new registryInherited)
    envTimeout flowInjectDebug "codeAnalysis").2.2 ModelEntry.other rfl
  obtain ⟨r, mm', h, h2⟩ := (analyzeWithAI_never_throws (ModelManager.new registryOllama)
    envTimeout flowInjectDebug "codeAnalysis").2.2
    (ModelEntry.model
      { id := "ollama-llama2", name := "Ollama Llama2", provider := "ollama",
        endpoint := some "http://localhost:11434/api/generate",
        model := some "llama2:7b", maxTokens := some 2048, temperature := some (3 / 10),
        requiresApiKey := false, icon := some "🦙",
        description := some "Универсальная локальная модель",
        features := some ["code-analysis", "recommendations"] }) rfl
  obtain ⟨h3, h4⟩ := h2 (by decide) (fun _ _ _ _ => rfl)
  exact ⟨⟨rfl, hstale⟩, ⟨rfl, r1, mm1, h1⟩, r, mm', h, h3, h4 _ rfl⟩

/-- C1, counterexample: with a stored selection that keys no model of the
catalogue, `analyzeWithAI` throws; and with a remote model whose requests all
time out, a flow object without node list gets the bare analysis object, which
has no `model` and no `tokensUsed`. -/
theorem analyzeWithAI_throws :
    registryStale.getCurrentModel = none ∧
    (∃ message, ModelManager.analyzeWithAI (ModelManager.new registryStale) envTimeout
      flowInjectDebug "codeAnalysis" = .error message) ∧
    (∃ a mm', ModelManager.analyzeWithAI (ModelManager.new registryOllama) envTimeout
      flowNoNodes "codeAnalysis" = .ok (.bare a, mm')) :=
  ⟨rfl, ⟨_, rfl⟩, ⟨_, _, rfl⟩⟩

end Dispatcher

section Cycles

open CopilotPanel

theorem dfsTargets_append (walk : String → CycleState → Option (Bool × CycleState))
    (xs ys : List String) (s : CycleState) :
    dfsTargets walk (xs ++ ys) s =
      match dfsTargets walk xs s with
      | none => none
      | some (true, s1) => some (true, s1)
      | some (false, s1) => dfsTargets walk ys s1 := by
  induction xs generalizing s with
  | nil => simp [dfsTargets]
  | cons x xs ih =>
    simp only [List.cons_append, dfsTargets]
    cases hw : walk x s with
    | none => rfl
    | some p =>
      obtain ⟨b, s1⟩ := p
      cases b with
      | true => rfl
      | false => exact ih s1

theorem dfsWires_eq_targets (walk : String → CycleState → Option (Bool × CycleState))
    (ws : List (List String)) (s : CycleState) :
    dfsWires walk ws s = dfsTargets walk ws.flatten s := by
  induction ws generalizing s with
  | nil => rfl
  | cons w ws ih =>
    rw [List.flatten_cons, dfsTargets_append]
    simp only [dfsWires]
    cases hw : dfsTargets walk w s with
    | none => rfl
    | some p =>
      obtain ⟨b, s1⟩ := p
      cases b with
      | true => rfl
      | false => exact ih s1

@[simp] theorem enter_visited (s : CycleState) (nodeId : String) :
    (enter s nodeId).visited = nodeId :: s.visited := rfl

@[simp] theorem enter_recursionStack (s : CycleState) (nodeId : String) :
    (enter s nodeId).recursionStack = nodeId :: s.recursionStack := rfl

@[simp] theorem enter_cycleCount (s : CycleState) (nodeId : String) :
    (enter s nodeId).cycleCount = s.cycleCount := rfl

@[simp] theorem leave_visited (s : CycleState) (nodeId : String) :
    (leave s nodeId).visited = s.visited := rfl

@[simp] theorem leave_recursionStack (s : CycleState) (nodeId : String) :
    (leave s nodeId).recursionStack = s.recursionStack.filter (fun x => x != nodeId) := rfl

@[simp] theorem leave_cycleCount (s : CycleState) (nodeId : String) :
    (leave s nodeId).cycleCount = s.cycleCount := rfl

theorem dfs_succ (nodes : List Node) (fuel : Nat) (nodeId : String) (s : CycleState) :
    dfs nodes (fuel + 1) nodeId s =
      if s.recursionStack.contains nodeId then
        some (true, { s with cycleCount := s.cycleCount + 1 })
      else if s.visited.contains nodeId then some (false, s)
      else
        match dfsTargets (fun t st => dfs nodes fuel t st) (targetsOf nodes nodeId)
          (enter s nodeId) with
        | none => none
        | some (true, s2) => some (true, s2)
        | some (false, s2) => some (false, leave s2 nodeId) := by
  rw [dfs]
  split
  · rfl
  · split
    · rfl
    · unfold targetsOf
      cases hw : (nodes.find? (fun n => n.id == nodeId)).bind (fun node => node.wires) with
      | none => simp [dfsTargets, enter, leave]
      | some wires =>
        simp only [dfsWires_eq_targets]
        rfl

theorem dfsTargets_count (walk : String → CycleState → Option (Bool × CycleState))
    (hw : ∀ t s r s', walk t s = some (r, s') →
      s.cycleCount ≤ s'.cycleCount ∧ (r = true → s.cycleCount < s'.cycleCount)) :
    ∀ (ts : List String) (s : CycleState) (r : Bool) (s' : CycleState),
      dfsTargets walk ts s = some (r, s') →
      s.cycleCount ≤ s'.cycleCount ∧ (r = true → s.cycleCount < s'.cycleCount) := by
  intro ts
  induction ts with
  | nil =>
    intro s r s' h
    simp only [dfsTargets, Option.some.injEq, Prod.mk.injEq] at h
    obtain ⟨rfl, rfl⟩ := h
    exact ⟨le_refl _, fun h => absurd h (by simp)⟩
  | cons t rest ih =>
    intro s r s' h
    simp only [dfsTargets] at h
    cases hwt : walk t s with
    | none => simp [hwt] at h
    | some p =>
      obtain ⟨b, s1⟩ := p
      obtain ⟨h1, h2⟩ := hw t s b s1 hwt
      cases b with
      | true =>
        simp only [hwt, Option.some.injEq, Prod.mk.injEq] at h
        obtain ⟨rfl, rfl⟩ := h
        exact ⟨h1, fun _ => h2 rfl⟩
      | false =>
        simp only [hwt] at h
        obtain ⟨h3, h4⟩ := ih s1 r s' h
        exact ⟨le_trans h1 h3, fun hr => lt_of_le_of_lt h1 (h4 hr)⟩

theorem dfs_count (nodes : List Node) :
    ∀ (fuel : Nat) (nodeId : String) (s : CycleState) (r : Bool) (s' : CycleState),
      dfs nodes fuel nodeId s = some (r, s') →
      s.cycleCount ≤ s'.cycleCount ∧ (r = true → s.cycleCount < s'.cycleCount) := by
  intro fuel
  induction fuel with
  | zero => intro nodeId s r s' h; simp [dfs] at h
  | succ fuel ih =>
    intro nodeId s r s' h
    rw [dfs_succ] at h
    split at h
    · simp only [Option.some.injEq, Prod.mk.injEq] at h
      obtain ⟨rfl, rfl⟩ := h
      exact ⟨Nat.le_succ _, fun _ => Nat.lt_succ_self _⟩
    · split at h
      · simp only [Option.some.injEq, Prod.mk.injEq] at h
        obtain ⟨rfl, rfl⟩ := h
        exact ⟨le_refl _, fun h => absurd h (by simp)⟩
      · cases hloop : dfsTargets (fun t st => dfs nodes fuel t st) (targetsOf nodes nodeId)
            (enter s nodeId) with
        | none => simp [hloop] at h
        | some p =>
          obtain ⟨b, s2⟩ := p
          obtain ⟨h1, h2⟩ := dfsTargets_count _ (fun t st r st' => ih t st r st') _ _ _ _ hloop
          cases b with
          | true =>
            simp only [hloop, Option.some.injEq, Prod.mk.injEq] at h
            obtain ⟨rfl, rfl⟩ := h
            exact ⟨h1, fun _ => h2 rfl⟩
          | false =>
            simp only [hloop, Option.some.injEq, Prod.mk.injEq] at h
            obtain ⟨rfl, rfl⟩ := h
            exact ⟨h1, fun h => absurd h (by simp)⟩

theorem dfsTargets_total (nodes : List Node) (n : Nat)
    (walk : String → CycleState → Option (Bool × CycleState))
    (hw : ∀ t s, unvisited nodes s.visited < n →
      ∃ r s', walk t s = some (r, s') ∧ s.visited ⊆ s'.visited) :
    ∀ (ts : List String) (s : CycleState), unvisited nodes s.visited < n →
      ∃ r s', dfsTargets walk ts s = some (r, s') ∧ s.visited ⊆ s'.visited := by
  intro ts
  induction ts with
  | nil => intro s _; exact ⟨false, s, rfl, List.Subset.refl _⟩
  | cons t rest ih =>
    intro s hs
    obtain ⟨b, s1, h1, hsub⟩ := hw t s hs
    cases b with
    | true =>
      refine ⟨true, s1, ?_, hsub⟩
      simp only [dfsTargets, h1]
    | false =>
      obtain ⟨r, s', h2, hsub'⟩ := ih s1 (lt_of_le_of_lt (unvisited_mono nodes hsub) hs)
      refine ⟨r, s', ?_, hsub.trans hsub'⟩
      simp only [dfsTargets, h1]
      exact h2

theorem targetsOf_ne_nil_mem {nodes : List Node} {id : String} (h : targetsOf nodes id ≠ []) :
    id ∈ nodes.map (·.id) := by
  unfold targetsOf at h
  cases hfind : nodes.find? (fun n => n.id == id) with
  | none => simp [hfind] at h
  | some node => exact find_id_mem hfind

theorem dfs_total (nodes : List Node) :
    ∀ (fuel : Nat) (nodeId : String) (s : CycleState), unvisited nodes s.visited < fuel →
      ∃ r s', dfs nodes fuel nodeId s = some (r, s') ∧ s.visited ⊆ s'.visited := by
  intro fuel
  induction fuel with
  | zero => intro _ _ h; exact absurd h (Nat.not_lt_zero _)
  | succ fuel ih =>
    intro nodeId s hfuel
    rw [dfs_succ]
    split
    · exact ⟨_, _, rfl, List.Subset.refl _⟩
    · split
      · exact ⟨_, _, rfl, List.Subset.refl _⟩
      · rename_i _ hv
        have hsub : s.visited ⊆ nodeId :: s.visited := List.subset_cons_self _ _
        by_cases hnil : targetsOf nodes nodeId = []
        · rw [hnil]
          simp only [dfsTargets]
          exact ⟨_, _, rfl, hsub⟩
        · have hnot : nodeId ∉ s.visited := fun hmem => hv ((contains_iff_mem _ _).mpr hmem)
          have hlt : unvisited nodes (nodeId :: s.visited) < fuel := by
            have := unvisited_cons_lt nodes (targetsOf_ne_nil_mem hnil) hnot
            omega
          obtain ⟨b, s2, h2, hsub2⟩ := dfsTargets_total nodes fuel
            (fun t st => dfs nodes fuel t st) (fun t st hst => ih t st hst)
            (targetsOf nodes nodeId)
            (enter s nodeId) hlt
          rw [h2]
          cases b with
          | true => exact ⟨_, _, rfl, hsub.trans hsub2⟩
          | false => exact ⟨_, _, rfl, hsub.trans hsub2⟩

theorem dfsTargets_acyclic (nodes : List Node)
    (walk : String → CycleState → Option (Bool × CycleState))
    (hw : ∀ t s r s', walk t s = some (r, s') →
      (∀ x ∈ s.recursionStack, Relation.TransGen (follows nodes) x t) →
      r = false ∧ s'.cycleCount = s.cycleCount ∧ s'.recursionStack = s.recursionStack) :
    ∀ (ts : List String) (s : CycleState) (r : Bool) (s' : CycleState),
      dfsTargets walk ts s = some (r, s') →
      (∀ t ∈ ts, ∀ x ∈ s.recursionStack, Relation.TransGen (follows nodes) x t) →
      r = false ∧ s'.cycleCount = s.cycleCount ∧ s'.recursionStack = s.recursionStack := by
  intro ts
  induction ts with
  | nil =>
    intro s r s' h _
    simp only [dfsTargets, Option.some.injEq, Prod.mk.injEq] at h
    obtain ⟨rfl, rfl⟩ := h
    exact ⟨rfl, rfl, rfl⟩
  | cons t rest ih =>
    intro s r s' h hpath
    simp only [dfsTargets] at h
    cases hwt : walk t s with
    | none => simp [hwt] at h
    | some p =>
      obtain ⟨b, s1⟩ := p
      obtain ⟨hb, hc, hst⟩ := hw t s b s1 hwt (hpath t (List.mem_cons_self _ _))
      subst hb
      simp only [hwt] at h
      obtain ⟨hr, hc2, hst2⟩ := ih s1 r s' h (by
        intro t' ht' x hx
        rw [hst] at hx
        exact hpath t' (List.mem_cons_of_mem _ ht') x hx)
      exact ⟨hr, hc2.trans hc, hst2.trans hst⟩

theorem filter_ne_cons_self (nodeId : String) (st : List String) (h : nodeId ∉ st) :
    (nodeId :: st).filter (fun x => x != nodeId) = st := by
  rw [List.filter_cons_of_neg (by simp)]
  rw [List.filter_eq_self]
  intro x hx
  simp only [bne_iff_ne, ne_eq]
  rintro rfl
  exact h hx

theorem dfs_acyclic (nodes : List Node)
    (hac : ∀ a, ¬ Relation.TransGen (follows nodes) a a) :
    ∀ (fuel : Nat) (nodeId : String) (s : CycleState) (r : Bool) (s' : CycleState),
      dfs nodes fuel nodeId s = some (r, s') →
      (∀ x ∈ s.recursionStack, Relation.TransGen (follows nodes) x nodeId) →
      r = false ∧ s'.cycleCount = s.cycleCount ∧ s'.recursionStack = s.recursionStack := by
  intro fuel
  induction fuel with
  | zero => intro nodeId s r s' h; simp [dfs] at h
  | succ fuel ih =>
    intro nodeId s r s' h hpath
    rw [dfs_succ] at h
    split at h
    · rename_i hin
      exact absurd (hpath nodeId ((contains_iff_mem _ _).mp hin)) (hac nodeId)
    · rename_i hin
      have hnot : nodeId ∉ s.recursionStack := fun hm => hin ((contains_iff_mem _ _).mpr hm)
      split at h
      · simp only [Option.some.injEq, Prod.mk.injEq] at h
        obtain ⟨rfl, rfl⟩ := h
        exact ⟨rfl, rfl, rfl⟩
      · cases hloop : dfsTargets (fun t st => dfs nodes fuel t st) (targetsOf nodes nodeId)
            (enter s nodeId) with
        | none => simp [hloop] at h
        | some p =>
          obtain ⟨b, s2⟩ := p
          obtain ⟨hb, hc, hst⟩ := dfsTargets_acyclic nodes _
            (fun t st r st' => ih t st r st') _ _ _ _ hloop (by
              intro t ht x hx
              simp only [enter_recursionStack, List.mem_cons] at hx
              rcases hx with rfl | hx
              · exact Relation.TransGen.single ht
              · exact Relation.TransGen.tail (hpath x hx) ht)
          subst hb
          simp only [hloop, Option.some.injEq, Prod.mk.injEq] at h
          obtain ⟨rfl, rfl⟩ := h
          refine ⟨rfl, hc, ?_⟩
          simp only [leave_recursionStack, hst, enter_recursionStack]
          exact filter_ne_cons_self nodeId _ hnot

theorem finished_reach (nodes : List Node) (s : CycleState) (hcl : finishedClosed nodes s)
    {b c : String} (hbc : Relation.ReflTransGen (follows nodes) b c) (hb : finished s b) :
    finished s c := by
  induction hbc with
  | refl => exact hb
  | tail _ hstep ih => exact hcl.1 _ ih _ hstep

theorem dfsTargets_clean (nodes : List Node)
    (walk : String → CycleState → Option (Bool × CycleState))
    (hcount : ∀ t s r s', walk t s = some (r, s') →
      s.cycleCount ≤ s'.cycleCount ∧ (r = true → s.cycleCount < s'.cycleCount))
    (hw : ∀ t s r s', walk t s = some (r, s') → s'.cycleCount = s.cycleCount →
      finishedClosed nodes s →
      r = false ∧ finishedClosed nodes s' ∧ s'.recursionStack = s.recursionStack ∧
        s.visited ⊆ s'.visited ∧ finished s' t) :
    ∀ (ts : List String) (s : CycleState) (r : Bool) (s' : CycleState),
      dfsTargets walk ts s = some (r, s') → s'.cycleCount = s.cycleCount →
      finishedClosed nodes s →
      r = false ∧ finishedClosed nodes s' ∧ s'.recursionStack = s.recursionStack ∧
        s.visited ⊆ s'.visited ∧ ∀ t ∈ ts, finished s' t := by
  intro ts
  induction ts with
  | nil =>
    intro s r s' h _ hcl
    simp only [dfsTargets, Option.some.injEq, Prod.mk.injEq] at h
    obtain ⟨rfl, rfl⟩ := h
    exact ⟨rfl, hcl, rfl, List.Subset.refl _, fun t ht => absurd ht (List.not_mem_nil t)⟩
  | cons t rest ih =>
    intro s r s' h hc hcl
    simp only [dfsTargets] at h
    cases hwt : walk t s with
    | none => simp [hwt] at h
    | some p =>
      obtain ⟨b, s1⟩ := p
      obtain ⟨hm1, hm2⟩ := hcount t s b s1 hwt
      cases b with
      | true =>
        simp only [hwt, Option.some.injEq, Prod.mk.injEq] at h
        obtain ⟨rfl, rfl⟩ := h
        have := hm2 rfl
        omega
      | false =>
        simp only [hwt] at h
        obtain ⟨hm3, _⟩ := dfsTargets_count walk hcount rest s1 r s' h
        have hc1 : s1.cycleCount = s.cycleCount := by omega
        have hc2 : s'.cycleCount = s1.cycleCount := by omega
        obtain ⟨_, hcl1, hst1, hv1, hf1⟩ := hw t s false s1 hwt hc1 hcl
        obtain ⟨hr, hcl2, hst2, hv2, hf2⟩ := ih s1 r s' h hc2 hcl1
        refine ⟨hr, hcl2, hst2.trans hst1, hv1.trans hv2, ?_⟩
        intro t' ht'
        simp only [List.mem_cons] at ht'
        rcases ht' with rfl | ht'
        · exact ⟨hv2 hf1.1, by rw [hst2]; exact hf1.2⟩
        · exact hf2 t' ht'

theorem dfs_clean (nodes : List Node) :
    ∀ (fuel : Nat) (nodeId : String) (s : CycleState) (r : Bool) (s' : CycleState),
      dfs nodes fuel nodeId s = some (r, s') → s'.cycleCount = s.cycleCount →
      finishedClosed nodes s →
      r = false ∧ finishedClosed nodes s' ∧ s'.recursionStack = s.recursionStack ∧
        s.visited ⊆ s'.visited ∧ finished s' nodeId := by
  intro fuel
  induction fuel with
  | zero => intro nodeId s r s' h; simp [dfs] at h
  | succ fuel ih =>
    intro nodeId s r s' h hc hcl
    rw [dfs_succ] at h
    split at h
    · simp only [Option.some.injEq, Prod.mk.injEq] at h
      obtain ⟨rfl, rfl⟩ := h
      simp at hc
    · rename_i hin
      have hnot : nodeId ∉ s.recursionStack := fun hm => hin ((contains_iff_mem _ _).mpr hm)
      split at h
      · rename_i hvis
        simp only [Option.some.injEq, Prod.mk.injEq] at h
        obtain ⟨rfl, rfl⟩ := h
        exact ⟨rfl, hcl, rfl, List.Subset.refl _, (contains_iff_mem _ _).mp hvis, hnot⟩
      · rename_i hvis
        have hnv : nodeId ∉ s.visited := fun hm => hvis ((contains_iff_mem _ _).mpr hm)
        have hfin1 : ∀ x, finished (enter s nodeId) x ↔ finished s x := by
          intro x
          unfold finished
          simp only [enter_visited, enter_recursionStack, List.mem_cons, not_or]
          constructor
          · rintro ⟨hx | hx, hne, hns⟩
            · exact absurd hx hne
            · exact ⟨hx, hns⟩
          · rintro ⟨hx, hns⟩
            refine ⟨Or.inr hx, ?_, hns⟩
            rintro rfl
            exact hnv hx
        have hcl1 : finishedClosed nodes (enter s nodeId) := by
          refine ⟨fun b hb t ht => (hfin1 t).mpr (hcl.1 b ((hfin1 b).mp hb) t ht), ?_⟩
          exact fun b hb => hcl.2 b ((hfin1 b).mp hb)
        cases hloop : dfsTargets (fun t st => dfs nodes fuel t st) (targetsOf nodes nodeId)
            (enter s nodeId) with
        | none => simp [hloop] at h
        | some p =>
          obtain ⟨b, s2⟩ := p
          obtain ⟨hm1, hm2⟩ := dfsTargets_count _ (fun t st r st' => dfs_count nodes fuel t st r st')
            _ _ _ _ hloop
          cases b with
          | true =>
            simp only [hloop, Option.some.injEq, Prod.mk.injEq] at h
            obtain ⟨rfl, rfl⟩ := h
            have := hm2 rfl
            simp only [enter_cycleCount] at this
            omega
          | false =>
            simp only [hloop, Option.some.injEq, Prod.mk.injEq] at h
            obtain ⟨rfl, rfl⟩ := h
            simp only [leave_cycleCount, enter_cycleCount] at hc hm1
            obtain ⟨_, hcl2, hst2, hv2, hf2⟩ := dfsTargets_clean nodes _
              (fun t st r st' => dfs_count nodes fuel t st r st')
              (fun t st r st' => ih t st r st') _ _ _ _ hloop hc hcl1
            simp only [enter_recursionStack, enter_visited] at hst2 hv2
            have hidv : nodeId ∈ s2.visited := hv2 (List.mem_cons_self _ _)
            have hstack : s2.recursionStack.filter (fun x => x != nodeId) = s.recursionStack := by
              rw [hst2]
              exact filter_ne_cons_self nodeId _ hnot
            have hfin2 : ∀ x, finished (leave s2 nodeId) x ↔
                (finished s2 x ∨ x = nodeId) := by
              intro x
              unfold finished
              rw [leave_visited, leave_recursionStack, hstack, hst2]
              simp only [List.mem_cons, not_or]
              constructor
              · rintro ⟨hx, hns⟩
                by_cases hxe : x = nodeId
                · exact Or.inr hxe
                · exact Or.inl ⟨hx, hxe, hns⟩
              · rintro (⟨hx, _, hns⟩ | rfl)
                · exact ⟨hx, hns⟩
                · exact ⟨hidv, hnot⟩
            have hidnf : ¬ finished s2 nodeId := by
              intro hf
              apply hf.2
              rw [hst2]
              exact List.mem_cons_self _ _
            refine ⟨rfl, ⟨?_, ?_⟩, hstack, (List.subset_cons_self _ _).trans hv2,
              (hfin2 nodeId).mpr (Or.inr rfl)⟩
            · intro b hb t ht
              rw [hfin2] at hb ⊢
              rcases hb with hb | rfl
              · exact Or.inl (hcl2.1 b hb t ht)
              · exact Or.inl (hf2 t ht)
            · intro b hb hcyc
              rw [hfin2] at hb
              rcases hb with hb | rfl
              · exact hcl2.2 b hb hcyc
              · obtain ⟨t, ht, hreach⟩ := Relation.TransGen.head'_iff.mp hcyc
                exact hidnf (finished_reach nodes s2 hcl2 hreach (hf2 t ht))

theorem detectCyclesLoop_total (nodes : List Node) (fuel : Nat) (hfuel : nodes.length < fuel) :
    ∀ (l : List Node) (s : CycleState), ∃ s', detectCyclesLoop nodes fuel l s = some s' := by
  intro l
  induction l with
  | nil => intro s; exact ⟨s, rfl⟩
  | cons n rest ih =>
    intro s
    simp only [detectCyclesLoop]
    split
    · have hlt : unvisited nodes s.visited < fuel :=
        lt_of_le_of_lt (le_trans (unvisited_mono nodes (List.nil_subset _))
          (unvisited_nil_le nodes)) hfuel
      obtain ⟨r, s1, h1, _⟩ := dfs_total nodes fuel n.id s hlt
      rw [h1]
      exact ih s1
    · exact ih s

theorem detectCyclesLoop_count (nodes : List Node) (fuel : Nat) :
    ∀ (l : List Node) (s s' : CycleState), detectCyclesLoop nodes fuel l s = some s' →
      s.cycleCount ≤ s'.cycleCount := by
  intro l
  induction l with
  | nil =>
    intro s s' h
    simp only [detectCyclesLoop, Option.some.injEq] at h
    rw [h]
  | cons n rest ih =>
    intro s s' h
    simp only [detectCyclesLoop] at h
    split at h
    · cases hd : dfs nodes fuel n.id s with
      | none => simp [hd] at h
      | some p =>
        obtain ⟨b, s1⟩ := p
        simp only [hd] at h
        exact le_trans (dfs_count nodes fuel n.id s b s1 hd).1 (ih s1 s' h)
    · exact ih s s' h

theorem detectCyclesLoop_acyclic (nodes : List Node) (fuel : Nat)
    (hac : ∀ a, ¬ Relation.TransGen (follows nodes) a a) :
    ∀ (l : List Node) (s s' : CycleState), detectCyclesLoop nodes fuel l s = some s' →
      s.recursionStack = [] → s'.cycleCount = s.cycleCount := by
  intro l
  induction l with
  | nil =>
    intro s s' h _
    simp only [detectCyclesLoop, Option.some.injEq] at h
    rw [h]
  | cons n rest ih =>
    intro s s' h hst
    simp only [detectCyclesLoop] at h
    split at h
    · cases hd : dfs nodes fuel n.id s with
      | none => simp [hd] at h
      | some p =>
        obtain ⟨b, s1⟩ := p
        simp only [hd] at h
        obtain ⟨_, hc1, hst1⟩ := dfs_acyclic nodes hac fuel n.id s b s1 hd (by
          intro x hx
          rw [hst] at hx
          exact absurd hx (List.not_mem_nil x))
        rw [ih s1 s' h (hst1.trans hst), hc1]
    · exact ih s s' h hst

theorem detectCyclesLoop_clean (nodes : List Node) (fuel : Nat) :
    ∀ (l : List Node) (s s' : CycleState), detectCyclesLoop nodes fuel l s = some s' →
      s'.cycleCount = s.cycleCount → finishedClosed nodes s → s.recursionStack = [] →
      finishedClosed nodes s' ∧ s'.recursionStack = [] ∧ s.visited ⊆ s'.visited ∧
        ∀ n ∈ l, finished s' n.id := by
  intro l
  induction l with
  | nil =>
    intro s s' h _ hcl hst
    simp only [detectCyclesLoop, Option.some.injEq] at h
    subst h
    exact ⟨hcl, hst, List.Subset.refl _, fun n hn => absurd hn (List.not_mem_nil n)⟩
  | cons n rest ih =>
    intro s s' h hc hcl hst
    simp only [detectCyclesLoop] at h
    split at h
    · cases hd : dfs nodes fuel n.id s with
      | none => simp [hd] at h
      | some p =>
        obtain ⟨b, s1⟩ := p
        simp only [hd] at h
        have hm1 := (dfs_count nodes fuel n.id s b s1 hd).1
        have hm2 := detectCyclesLoop_count nodes fuel rest s1 s' h
        have hc1 : s1.cycleCount = s.cycleCount := by omega
        have hc2 : s'.cycleCount = s1.cycleCount := by omega
        obtain ⟨_, hcl1, hst1, hv1, hf1⟩ := dfs_clean nodes fuel n.id s b s1 hd hc1 hcl
        obtain ⟨hcl2, hst2, hv2, hf2⟩ := ih s1 s' h hc2 hcl1 (hst1.trans hst)
        refine ⟨hcl2, hst2, hv1.trans hv2, ?_⟩
        intro m hm
        simp only [List.mem_cons] at hm
        rcases hm with rfl | hm
        · exact ⟨hv2 hf1.1, by rw [hst2]; exact List.not_mem_nil _⟩
        · exact hf2 m hm
    · rename_i hvis
      obtain ⟨hcl2, hst2, hv2, hf2⟩ := ih s s' h hc hcl hst
      refine ⟨hcl2, hst2, hv2, ?_⟩
      intro m hm
      simp only [List.mem_cons] at hm
      rcases hm with rfl | hm
      · refine ⟨hv2 ?_, by rw [hst2]; exact List.not_mem_nil _⟩
        have : s.visited.contains m.id = true := by simpa using hvis
        exact (contains_iff_mem _ _).mp this
      · exact hf2 m hm

theorem find_of_nodup {nodes : List Node} (hid : (nodes.map (·.id)).Nodup) {n : Node}
    (hn : n ∈ nodes) : nodes.find? (fun m => m.id == n.id) = some n := by
  induction nodes with
  | nil => exact absurd hn (List.not_mem_nil n)
  | cons m rest ih =>
    simp only [List.map_cons, List.nodup_cons] at hid
    simp only [List.mem_cons] at hn
    rcases hn with rfl | hn
    · simp [List.find?]
    · have hne : m.id ≠ n.id := by
        intro he
        apply hid.1
        rw [he]
        exact List.mem_map_of_mem _ hn
      have hb : (m.id == n.id) = false := by simpa using hne
      simp only [List.find?, hb]
      exact ih hid.2 hn

theorem wire_iff_follows {nodes : List Node} (hid : (nodes.map (·.id)).Nodup) (a b : String) :
    Spec.wire nodes a b ↔ follows nodes a b := by
  unfold Spec.wire follows targetsOf
  constructor
  · rintro ⟨n, hn, rfl, w, hw, hb⟩
    rw [find_of_nodup hid hn]
    cases hws : n.wires with
    | none => simp [hws] at hw
    | some ws =>
      simp only [hws, Option.getD_some] at hw
      simp only [Option.bind, hws, List.mem_flatten]
      exact ⟨w, hw, hb⟩
  · intro h
    cases hfind : nodes.find? (fun n => n.id == a) with
    | none => simp [hfind] at h
    | some n =>
      have h1 := List.find?_some hfind
      have h2 := List.mem_of_find?_eq_some hfind
      simp only [beq_iff_eq] at h1
      cases hws : n.wires with
      | none => simp [hfind, hws] at h
      | some ws =>
        simp only [hfind, Option.bind, hws, List.mem_flatten] at h
        obtain ⟨w, hw, hb⟩ := h
        exact ⟨n, h2, h1, w, by simpa [hws] using hw, hb⟩

theorem transGen_wire_iff {nodes : List Node} (hid : (nodes.map (·.id)).Nodup) (a b : String) :
    Relation.TransGen (Spec.wire nodes) a b ↔ Relation.TransGen (follows nodes) a b := by
  constructor
  · exact Relation.TransGen.mono (fun x y h => (wire_iff_follows hid x y).mp h)
  · exact Relation.TransGen.mono (fun x y h => (wire_iff_follows hid x y).mpr h)

/-- C4: for a node list with unique ids, `detectCycles` returns a count (the
walk never runs out of fuel), which is 0 when the wire graph has no directed
cycle and at least 1 when it has one; in particular it is at least 1 when some
node is wired to itself. -/
theorem detectCycles_spec (nodes : List Node) (hid : (nodes.map (·.id)).Nodup) :
    ∃ c, detectCycles nodes = some c ∧
      ((∀ a, ¬ Relation.TransGen (Spec.wire nodes) a a) → c = 0) ∧
      ((∃ a, Relation.TransGen (Spec.wire nodes) a a) → 1 ≤ c) ∧
      ((∃ n ∈ nodes, Spec.wire nodes n.id n.id) → 1 ≤ c) := by
  obtain ⟨s', hs'⟩ := detectCyclesLoop_total nodes (nodes.length + 1) (Nat.lt_succ_self _)
    nodes { visited := [], recursionStack := [], cycleCount := 0 }
  have hcyc : (∃ a, Relation.TransGen (Spec.wire nodes) a a) → 1 ≤ s'.cycleCount := by
    rintro ⟨a, ha⟩
    by_contra hlt
    have hc0 : s'.cycleCount = 0 := by omega
    have hcl0 : finishedClosed nodes { visited := [], recursionStack := [], cycleCount := 0 } := by
      refine ⟨fun b hb => ?_, fun b hb => ?_⟩
      · exact absurd hb.1 (List.not_mem_nil b)
      · exact absurd hb.1 (List.not_mem_nil b)
    obtain ⟨hcl, _, _, hfin⟩ := detectCyclesLoop_clean nodes _ nodes _ s' hs' hc0 hcl0 rfl
    have ha' := (transGen_wire_iff hid a a).mp ha
    obtain ⟨t, ht, _⟩ := Relation.TransGen.head'_iff.mp ha'
    have hne : targetsOf nodes a ≠ [] := List.ne_nil_of_mem ht
    obtain ⟨n, hn, hna⟩ := List.mem_map.mp (targetsOf_ne_nil_mem hne)
    have hfa : finished s' a := by
      have := hfin n hn
      rwa [hna] at this
    exact hcl.2 a hfa ha'
  refine ⟨s'.cycleCount, ?_, ?_, hcyc, ?_⟩
  · simp only [detectCycles, hs', Option.map_some']
  · intro hac
    have hac' : ∀ a, ¬ Relation.TransGen (follows nodes) a a :=
      fun a h => hac a ((transGen_wire_iff hid a a).mpr h)
    exact detectCyclesLoop_acyclic nodes _ hac' nodes _ s' hs' rfl
  · rintro ⟨n, _, hself⟩
    exact hcyc ⟨n.id, Relation.TransGen.single hself⟩

theorem detectCycles_spec_witness :
    ∃ c, detectCycles (flowSelfLoop.nodes.getD []) = some c ∧ 1 ≤ c := by
  obtain ⟨c, h, _, _, h3⟩ := detectCycles_spec (flowSelfLoop.nodes.getD []) (by decide)
  exact ⟨c, h, h3 ⟨mkNode "a" "function" (some [["a"]]), by decide, by decide⟩⟩

end Cycles

section Workspace

open CopilotAnalyzer

theorem calculateComplexity_ok (flow : Flow) : ∃ c, calculateComplexity flow = .ok c := by
  unfold calculateComplexity
  cases hn : flow.nodes with
  | none => exact ⟨_, rfl⟩
  | some ns =>
    obtain ⟨connections, hc⟩ := countConnections_ok flow ns hn
    obtain ⟨depth, hd⟩ := calculateFlowDepth_ok flow ns hn
    obtain ⟨branches, hb⟩ := countBranches_ok flow ns hn
    simp only [hc, hd, hb, bind, Except.bind, pure, Except.pure]
    exact ⟨_, rfl⟩

theorem findFlowIssues_ok (flow : Flow) (ns : List Node) (h : flow.nodes = some ns) :
    ∃ issues, findFlowIssues flow = .ok issues := by
  obtain ⟨d, hd⟩ := findDisconnectedNodes_ok flow ns h
  obtain ⟨perf, hperf, _⟩ := findPerformanceIssues_types flow ns h
  obtain ⟨sec, hsec, _⟩ := findSecurityIssues_types flow ns h
  unfold findFlowIssues
  rw [hd, checkErrorHandling_eq flow ns h, hperf, hsec]
  exact ⟨_, rfl⟩

theorem detectFlowPatterns_ok (flow : Flow) (ns : List Node) (h : flow.nodes = some ns) :
    ∃ ps, detectFlowPatterns flow = .ok ps := by
  unfold detectFlowPatterns
  rw [nodesOrThrow_some h]
  exact ⟨_, rfl⟩

theorem analyzeFlow_throws (flow : Flow) (ns : List Node) (h : flow.nodes = some ns) :
    analyzeFlow flow = .error "TypeError" := by
  obtain ⟨c, hc⟩ := calculateComplexity_ok flow
  obtain ⟨issues, hi⟩ := findFlowIssues_ok flow ns h
  unfold analyzeFlow
  simp only [hc, h, hi, undefinedMethod, bind, Except.bind, pure, Except.pure]

theorem analyzeEach_result :
    ∀ (flows : List Flow) (st : List FlowAnalysis × Nat),
      analyzeEach flows st = .error "TypeError" ∨ analyzeEach flows st = .ok st := by
  intro flows
  induction flows with
  | nil => intro st; exact Or.inr rfl
  | cons flow rest ih =>
    intro st
    obtain ⟨fas, total⟩ := st
    unfold analyzeEach
    cases hn : flow.nodes with
    | none => exact ih (fas, total)
    | some ns =>
      simp only
      split
      · rw [analyzeFlow_throws flow ns hn]
        exact Or.inl rfl
      · exact ih (fas, total)

theorem groupFlows_result :
    ∀ (flows : List Flow) (patterns : List (String × List String)),
      groupFlows flows patterns = .error "TypeError" ∨
        ∃ groups, groupFlows flows patterns = .ok groups := by
  intro flows
  induction flows with
  | nil => intro patterns; exact Or.inr ⟨patterns, rfl⟩
  | cons flow rest ih =>
    intro patterns
    unfold groupFlows
    cases hn : flow.nodes with
    | none => exact ih patterns
    | some ns =>
      simp only
      split
      · exact Or.inl rfl
      · exact ih _

theorem findGlobalIssues_result (flows : List Flow) :
    findGlobalIssues flows = .error "TypeError" ∨
      ∃ issues, findGlobalIssues flows = .ok issues := by
  unfold findGlobalIssues findDuplicatePatterns
  rcases groupFlows_result flows [] with h | ⟨groups, h⟩
  · rw [h]
    exact Or.inl rfl
  · rw [h]
    exact Or.inr ⟨_, rfl⟩

theorem findGlobalIssues_severity (flows : List Flow) (issues : List Finding)
    (h : findGlobalIssues flows = .ok issues) : ∀ i ∈ issues, i.severity ≠ "high" := by
  intro i hi
  unfold findGlobalIssues at h
  cases hd : findDuplicatePatterns flows with
  | error e =>
    rw [hd] at h
    exact Except.noConfusion h
  | ok duplicatePatterns =>
    rw [hd] at h
    simp only [bind, Except.bind, pure, Except.pure, Except.ok.injEq] at h
    subst h
    simp only [List.mem_append] at hi
    rcases hi with hi | hi <;> split at hi
    · simp only [List.mem_singleton] at hi
      rw [hi]; simp
    · simp at hi
    · simp only [List.mem_singleton] at hi
      rw [hi]; simp
    · simp at hi

theorem foldl_add_length (l : List FlowAnalysis) (n : Nat) :
    l.foldl (fun sum flow => sum + flow.issues.length) n
      = n + (l.map (fun fa => fa.issues.length)).sum := by
  induction l generalizing n with
  | nil => simp
  | cons a l ih =>
    simp only [List.foldl_cons, ih, List.map_cons, List.sum_cons]
    omega

theorem generateSummary_status (ga : GlobalAnalysis) :
    (generateSummary ga).totalIssues
      = ga.globalIssues.length + (ga.flowAnalyses.map (fun fa => fa.issues.length)).sum ∧
    ((generateSummary ga).totalIssues = 0 → (generateSummary ga).status = "excellent") ∧
    (0 < (generateSummary ga).totalIssues →
      (¬ ∃ fa ∈ ga.flowAnalyses, ∃ i ∈ fa.issues, i.severity = "high") →
      (generateSummary ga).status = "good") ∧
    (0 < (generateSummary ga).totalIssues →
      (∃ fa ∈ ga.flowAnalyses, ∃ i ∈ fa.issues, i.severity = "high") →
      (generateSummary ga).status = "needs-attention") := by
  have hhigh : ((((ga.flowAnalyses.map (·.issues)).flatten).filter
      (fun issue => issue.severity == "high")).length = 0) ↔
      ¬ ∃ fa ∈ ga.flowAnalyses, ∃ i ∈ fa.issues, i.severity = "high" := by
    rw [List.length_eq_zero, List.filter_eq_nil_iff]
    simp only [List.mem_flatten, List.mem_map, beq_iff_eq]
    constructor
    · rintro h ⟨fa, hfa, i, hi, hs⟩
      exact h i ⟨fa.issues, ⟨fa, hfa, rfl⟩, hi⟩ hs
    · rintro h i ⟨l, ⟨fa, hfa, rfl⟩, hi⟩ hs
      exact h ⟨fa, hfa, i, hi, hs⟩
  unfold generateSummary
  simp only [foldl_add_length, Nat.zero_add]
  refine ⟨trivial, ?_, ?_, ?_⟩
  · intro h0
    simp [h0]
  · intro hpos hno
    have h1 : ¬ (ga.globalIssues.length +
        (ga.flowAnalyses.map (fun fa => fa.issues.length)).sum = 0) := by omega
    simp only [beq_iff_eq, h1, if_false, hhigh.mpr hno, if_true]
  · intro hpos hyes
    have h1 : ¬ (ga.globalIssues.length +
        (ga.flowAnalyses.map (fun fa => fa.issues.length)).sum = 0) := by omega
    have h2 : ¬ ((((ga.flowAnalyses.map (·.issues)).flatten).filter
      (fun issue => issue.severity == "high")).length = 0) := fun h => hhigh.mp h hyes
    simp only [beq_iff_eq, h1, if_false, h2]

/-- C11, divergence: `analyzeAllFlows` returns no summary. For every workspace,
the empty one included, the call throws a `TypeError`: it calls
`this.generateGlobalSuggestions`, which no class defines, before it builds the
summary, and `analyzeFlow`, run on every flow that has a node, calls the
undefined `this.generateFlowSuggestions`. -/
theorem analyzeAllFlows_throws (az : Analyzer) (timestamp : String) (flows : List Flow) :
    analyzeAllFlows az timestamp flows = .error "TypeError" := by
  unfold analyzeAllFlows
  rcases analyzeEach_result flows ([], 0) with h | h
  · rw [h]
    rfl
  · rw [h]
    rcases findGlobalIssues_result flows with hg | ⟨issues, hg⟩
    · simp only [hg, bind, Except.bind]
    · simp only [hg, undefinedMethod, bind, Except.bind]

end Workspace

section Recommendations

open CopilotAnalyzer

theorem firstDistinct_congr (l : List String) :
    ∀ (s t : List String), (∀ x, x ∈ s ↔ x ∈ t) →
      Spec.firstDistinct s l = Spec.firstDistinct t l := by
  induction l with
  | nil => intro s t _; rfl
  | cons a l ih =>
    intro s t hst
    simp only [Spec.firstDistinct]
    by_cases ha : a ∈ s
    · rw [if_pos ha, if_pos ((hst a).mp ha)]
      exact ih s t hst
    · rw [if_neg ha, if_neg (fun h => ha ((hst a).mpr h))]
      congr 1
      apply ih
      intro x
      simp only [List.mem_cons, hst x]

theorem setOrder_foldl (l : List String) :
    ∀ acc : List String,
      l.foldl (fun set x => if set.contains x then set else set ++ [x]) acc
        = acc ++ Spec.firstDistinct acc l := by
  induction l with
  | nil => intro acc; simp [Spec.firstDistinct]
  | cons a l ih =>
    intro acc
    simp only [List.foldl_cons, Spec.firstDistinct]
    by_cases ha : a ∈ acc
    · have hc : acc.contains a = true := (contains_iff_mem _ _).mpr ha
      rw [if_pos hc, if_pos ha]
      exact ih acc
    · have hc : ¬ (acc.contains a = true) := fun h => ha ((contains_iff_mem _ _).mp h)
      rw [if_neg hc, if_neg ha, ih, List.append_assoc]
      congr 1
      simp only [List.singleton_append]
      congr 1
      apply firstDistinct_congr
      intro x
      simp only [List.mem_append, List.mem_singleton, List.mem_cons]
      tauto

theorem setOrder_eq (l : List String) : setOrder l = Spec.firstDistinct [] l := by
  unfold setOrder
  rw [setOrder_foldl]
  rfl

theorem firstDistinct_props (l : List String) :
    ∀ seen : List String,
      (Spec.firstDistinct seen l).Nodup ∧
      (Spec.firstDistinct seen l).Sublist l ∧
      (∀ x, x ∈ Spec.firstDistinct seen l ↔ x ∈ l ∧ x ∉ seen) := by
  induction l with
  | nil => intro seen; simp [Spec.firstDistinct]
  | cons a l ih =>
    intro seen
    simp only [Spec.firstDistinct]
    by_cases ha : a ∈ seen
    · rw [if_pos ha]
      obtain ⟨h1, h2, h3⟩ := ih seen
      refine ⟨h1, h2.cons a, fun x => ?_⟩
      rw [h3]
      simp only [List.mem_cons]
      constructor
      · rintro ⟨hx, hn⟩; exact ⟨Or.inr hx, hn⟩
      · rintro ⟨rfl | hx, hn⟩
        · exact absurd ha hn
        · exact ⟨hx, hn⟩
    · rw [if_neg ha]
      obtain ⟨h1, h2, h3⟩ := ih (a :: seen)
      refine ⟨?_, h2.cons₂ a, fun x => ?_⟩
      · rw [List.nodup_cons]
        refine ⟨fun hmem => ?_, h1⟩
        exact ((h3 a).mp hmem).2 (List.mem_cons_self _ _)
      · simp only [List.mem_cons, h3, not_or]
        constructor
        · rintro (rfl | ⟨hx, hne, hn⟩)
          · exact ⟨Or.inl rfl, ha⟩
          · exact ⟨Or.inr hx, hn⟩
        · rintro ⟨rfl | hx, hn⟩
          · exact Or.inl rfl
          · by_cases hxa : x = a
            · exact Or.inl hxa
            · exact Or.inr ⟨hx, hxa, hn⟩

theorem foldl_actions (issues : List Finding) :
    ∀ acc : List String,
      issues.foldl (fun all issue =>
        if truthyStr issue.action then all ++ [issue.action.getD ""] else all) acc
        = acc ++ issues.filterMap (fun issue => issue.action.filter (fun a => !a.isEmpty)) := by
  induction issues with
  | nil => intro acc; simp
  | cons i rest ih =>
    intro acc
    simp only [List.foldl_cons, ih]
    cases ha : i.action with
    | none => simp [truthyStr, List.filterMap_cons, ha]
    | some a =>
      cases he : a.isEmpty with
      | true => simp [truthyStr, List.filterMap_cons, ha, he, Option.filter]
      | false => simp [truthyStr, List.filterMap_cons, ha, he, Option.filter]

theorem foldl_patternRecommendations (ps : List Pattern) :
    ∀ acc : List String,
      ps.foldl (fun all pattern => all ++ pattern.recommendations) acc
        = acc ++ (ps.map (·.recommendations)).flatten := by
  induction ps with
  | nil => intro acc; simp
  | cons p rest ih =>
    intro acc
    simp only [List.foldl_cons, ih, List.map_cons, List.flatten_cons, List.append_assoc]

theorem foldl_flowRecommendations (fas : List FlowAnalysis) :
    ∀ acc : List String,
      fas.foldl (fun all flow =>
        flow.patterns.foldl (fun all pattern => all ++ pattern.recommendations) all) acc
        = acc ++ (fas.map (fun fa => (fa.patterns.map (·.recommendations)).flatten)).flatten := by
  induction fas with
  | nil => intro acc; simp
  | cons fa rest ih =>
    intro acc
    rw [List.foldl_cons, ih, foldl_patternRecommendations]
    simp only [List.map_cons, List.flatten_cons, List.append_assoc]

/-- C12: for every workspace analysis, `getTopRecommendations` returns the first
3 (all, if fewer) of the distinct strings, in the order of their first
occurrence, of the sequence made of the actions of the workspace-level findings
followed by the recommendations of every pattern of every flow analysis; the
result has at most 3 elements, no two equal, and is a subsequence of that
sequence. -/
theorem getTopRecommendations_spec (ga : GlobalAnalysis) :
    getTopRecommendations ga
      = (Spec.firstDistinct [] (Spec.recommendationSequence ga)).take 3 ∧
    (getTopRecommendations ga).length ≤ 3 ∧
    (getTopRecommendations ga).Nodup ∧
    (getTopRecommendations ga).Sublist (Spec.recommendationSequence ga) ∧
    ((Spec.firstDistinct [] (Spec.recommendationSequence ga)).Nodup ∧
      ∀ x, x ∈ Spec.firstDistinct [] (Spec.recommendationSequence ga) ↔
        x ∈ Spec.recommendationSequence ga) := by
  have heq : getTopRecommendations ga
      = (Spec.firstDistinct [] (Spec.recommendationSequence ga)).take 3 := by
    unfold getTopRecommendations Spec.recommendationSequence
    simp only [foldl_actions, foldl_flowRecommendations, List.nil_append, setOrder_eq]
  obtain ⟨h1, h2, h3⟩ := firstDistinct_props (Spec.recommendationSequence ga) []
  refine ⟨heq, ?_, ?_, ?_, h1, fun x => ?_⟩
  · rw [heq, List.length_take]
    exact Nat.min_le_left _ _
  · rw [heq]
    exact h1.sublist (List.take_sublist _ _)
  · rw [heq]
    exact (List.take_sublist _ _).trans h2
  · rw [h3]
    simp

end Recommendations

section Cache

open CopilotPanel

/-- C13, the failing input: a first pass on an empty cache computes the analysis
`v`, stores it and hands `v` on; a second pass right after it, on the same
flows and with no time passed, finds the unexpired entry and hands on the entry
itself, the pair of `data` and `timestamp`, which is not `v`. -/
theorem performAnalysis_hit_hands_entry :
    (performAnalysis (Panel.new String) panelEnvStill).2 = some (.analysis "v") ∧
    (performAnalysis (Panel.new String) panelEnvStill).1.cache
      = [(generateCacheKey utf16 "[]", { data := "v", timestamp := 1000 })] ∧
    isCacheExpired (performAnalysis (Panel.new String) panelEnvStill).1
      (generateCacheKey utf16 "[]") 1000 = false ∧
    (performAnalysis (performAnalysis (Panel.new String) panelEnvStill).1 panelEnvStill).2
      = some (.entry { data := "v", timestamp := 1000 }) ∧
    (performAnalysis (performAnalysis (Panel.new String) panelEnvStill).1 panelEnvStill).2
      ≠ some (.analysis "v") := by
  refine ⟨by decide, by decide, by decide, by decide, by decide⟩

/-- C14: `isCacheExpired(k)` is false exactly when the cache holds an entry for
`k` whose age `now − timestamp` is at most `2 × refreshInterval`; so an entry
whose age is exactly `2 × refreshInterval` is a hit, an older one a miss, and a
missing one a miss. -/
theorem isCacheExpired_spec {α : Type} (panel : Panel α) (k : String) (now : Int) :
    (isCacheExpired panel k now = false ↔
      ∃ e, panel.cache.lookup k = some e ∧
        now - e.timestamp ≤ 2 * panel.config.refreshInterval) ∧
    (∀ e, panel.cache.lookup k = some e →
      now - e.timestamp = 2 * panel.config.refreshInterval →
      isCacheExpired panel k now = false) ∧
    (∀ e, panel.cache.lookup k = some e →
      now - e.timestamp > 2 * panel.config.refreshInterval →
      isCacheExpired panel k now = true) ∧
    (panel.cache.lookup k = none → isCacheExpired panel k now = true) := by
  unfold isCacheExpired
  cases h : panel.cache.lookup k with
  | none =>
    refine ⟨?_, ?_, ?_, ?_⟩
    · simp
    · intro e he; exact absurd he (by simp)
    · intro e he; exact absurd he (by simp)
    · intro _; rfl
  | some e =>
    refine ⟨?_, ?_, ?_, ?_⟩
    · simp only [decide_eq_false_iff_not, Option.some.injEq, exists_eq_left']
      constructor <;> intro h1 <;> omega
    · intro e' he h1
      simp only [Option.some.injEq] at he
      subst he
      simp only [decide_eq_false_iff_not]
      omega
    · intro e' he h1
      simp only [Option.some.injEq] at he
      subst he
      simp only [decide_eq_true_eq]
      omega
    · intro hn; exact absurd hn (by simp)

theorem isCacheExpired_spec_witness :
    isCacheExpired
      ({ config := initializeConfig, cache := [("k", { data := "v", timestamp := 1000 })],
         isAnalyzing := false } : Panel String) "k" 61000 = false ∧
    isCacheExpired
      ({ config := initializeConfig, cache := [("k", { data := "v", timestamp := 1000 })],
         isAnalyzing := false } : Panel String) "k" 61001 = true :=
  ⟨(isCacheExpired_spec _ "k" 61000).2.1 { data := "v", timestamp := 1000 } rfl (by decide),
   (isCacheExpired_spec _ "k" 61001).2.2.1 { data := "v", timestamp := 1000 } rfl (by decide)⟩

end Cache

section Hash

open CopilotPanel

theorem toInt32_range (x : Int) : -2147483648 ≤ toInt32 x ∧ toInt32 x < 2147483648 := by
  unfold toInt32
  omega

theorem toInt32_emod (x : Int) : toInt32 x % 4294967296 = x % 4294967296 := by
  unfold toInt32
  omega

theorem toInt32_unique (x z : Int) (h1 : -2147483648 ≤ z) (h2 : z < 2147483648)
    (h3 : z % 4294967296 = x % 4294967296) : z = toInt32 x := by
  unfold toInt32
  omega

theorem hashStep_eq (a : Int) (c : Nat) :
    toInt32 ((toInt32 (toInt32 (toInt32 a) * 32) - toInt32 a) + (c : Int))
      = toInt32 (a * 31 + c) := by
  unfold toInt32
  omega

theorem hashCode_foldl (str : List Nat) :
    ∀ a : Int,
      str.foldl (fun (hash : Int) (char : Nat) =>
        toInt32 ((toInt32 (toInt32 hash * 32) - hash) + (char : Int))) (toInt32 a)
        = toInt32 (str.foldl (fun (p : Int) (c : Nat) => p * 31 + (c : Int)) a) := by
  induction str with
  | nil => intro a; rfl
  | cons c rest ih =>
    intro a
    simp only [List.foldl_cons]
    rw [hashStep_eq, ih]

theorem hashCode_wrapped (str : List Nat) :
    ∀ a : Int,
      str.foldl (fun (h : Int) (c : Nat) => toInt32 (h * 31 + (c : Int))) (toInt32 a)
        = toInt32 (str.foldl (fun (p : Int) (c : Nat) => p * 31 + (c : Int)) a) := by
  induction str with
  | nil => intro a; rfl
  | cons c rest ih =>
    intro a
    simp only [List.foldl_cons]
    have : toInt32 (toInt32 a * 31 + (c : Int)) = toInt32 (a * 31 + c) := by
      unfold toInt32
      omega
    rw [this, ih]

theorem horner_sum (str : List Nat) :
    str.foldl (fun (p : Int) (c : Nat) => p * 31 + (c : Int)) 0
      = ∑ i ∈ Finset.range str.length, (str.getD i 0 : Int) * 31 ^ (str.length - 1 - i) := by
  induction str using List.reverseRecOn with
  | nil => simp
  | append_singleton l c ih =>
    rw [List.foldl_append, List.foldl_cons, List.foldl_nil, ih, List.length_append,
      List.length_singleton, Finset.sum_range_succ, Finset.sum_mul]
    congr 1
    · apply Finset.sum_congr rfl
      intro i hi
      rw [Finset.mem_range] at hi
      rw [List.getD_append _ _ _ _ hi, mul_assoc, ← pow_succ]
      congr 2
      omega
    · simp [List.getD_append_right]

theorem toInt32_zero : toInt32 0 = 0 := by decide

theorem hashCode_eq_horner (str : List Nat) :
    hashCode str = toInt32 (str.foldl (fun (p : Int) (c : Nat) => p * 31 + (c : Int)) 0) := by
  have h := hashCode_foldl str 0
  rw [toInt32_zero] at h
  exact h

/-- C15: for a string with UTF-16 code units `c_0 … c_(n−1)`, `hashCode` equals
the recurrence `h = 0; h := (h·31 + c_i)` wrapped to a signed 32-bit integer
after each step; it lies in `[−2^31, 2^31)`, is congruent modulo `2^32` to
`Σ_i c_i·31^(n−1−i)`, is the only integer of that range with that residue, and
is 0 for the empty string. -/
theorem hashCode_spec (str : List Nat) :
    hashCode str = str.foldl (fun (h : Int) (c : Nat) => toInt32 (h * 31 + (c : Int))) 0 ∧
    (-(2 : Int) ^ 31 ≤ hashCode str ∧ hashCode str < (2 : Int) ^ 31) ∧
    hashCode str ≡
      ∑ i ∈ Finset.range str.length, (str.getD i 0 : Int) * 31 ^ (str.length - 1 - i)
      [ZMOD (2 : Int) ^ 32] ∧
    (∀ z : Int, -(2 : Int) ^ 31 ≤ z → z < (2 : Int) ^ 31 →
      z ≡ ∑ i ∈ Finset.range str.length, (str.getD i 0 : Int) * 31 ^ (str.length - 1 - i)
        [ZMOD (2 : Int) ^ 32] →
      z = hashCode str) ∧
    hashCode [] = 0 ∧
    (∀ x : Int, (-(2 : Int) ^ 31 ≤ toInt32 x ∧ toInt32 x < (2 : Int) ^ 31) ∧
      toInt32 x ≡ x [ZMOD (2 : Int) ^ 32]) := by
  have e31 : (2 : Int) ^ 31 = 2147483648 := by norm_num
  have e32 : (2 : Int) ^ 32 = 4294967296 := by norm_num
  rw [e31, e32]
  have hw := hashCode_wrapped str 0
  rw [toInt32_zero] at hw
  have hh := hashCode_eq_horner str
  have hr := toInt32_range (str.foldl (fun (p : Int) (c : Nat) => p * 31 + (c : Int)) 0)
  have hm := toInt32_emod (str.foldl (fun (p : Int) (c : Nat) => p * 31 + (c : Int)) 0)
  refine ⟨by rw [hh, hw], ?_, ?_, ?_, rfl, ?_⟩
  · rw [hh]
    exact ⟨by omega, hr.2⟩
  · rw [hh, ← horner_sum]
    exact hm
  · intro z hz1 hz2 hz3
    rw [hh]
    rw [← horner_sum] at hz3
    exact toInt32_unique _ z (by omega) hz2 hz3
  · intro x
    exact ⟨⟨by have := (toInt32_range x).1; omega, (toInt32_range x).2⟩, toInt32_emod x⟩

theorem hashCode_spec_witness : (96354 : Int) = hashCode [97, 98, 99] :=
  (hashCode_spec [97, 98, 99]).2.2.2.1 96354 (by norm_num) (by norm_num) (by decide)

end Hash

section Registry

open ModelsConfig

theorem lookup_objectSet_self {β : Type} (key : String) (value : β) (l : List (String × β)) :
    (objectSet key value l).lookup key = some value := by
  induction l with
  | nil => simp [objectSet, List.lookup_cons]
  | cons a l ih =>
    obtain ⟨a1, a2⟩ := a
    by_cases ha : a1 = key
    · subst ha; simp [objectSet, List.lookup_cons]
    · have h1 : (a1 == key) = false := by simpa using ha
      have h2 : (key == a1) = false := by simpa using fun h => ha h.symm
      simp only [objectSet, h1]
      simp only [Bool.false_eq_true, if_false]
      rw [List.lookup_cons, h2]
      exact ih

theorem lookup_objectSet_ne {β : Type} (k key : String) (value : β) (l : List (String × β))
    (h : k ≠ key) : (objectSet key value l).lookup k = l.lookup k := by
  induction l with
  | nil =>
    have hne : (k == key) = false := by simpa using h
    simp [objectSet, List.lookup_cons, hne]
  | cons a l ih =>
    obtain ⟨a1, a2⟩ := a
    by_cases ha : a1 = key
    · subst ha
      have hne : (k == a1) = false := by simpa using h
      simp [objectSet, List.lookup_cons, hne]
    · have h1 : (a1 == key) = false := by simpa using ha
      simp only [objectSet, h1]
      simp only [Bool.false_eq_true, if_false]
      rw [List.lookup_cons, List.lookup_cons, ih]

theorem validateModelConfig_iff (config : CustomConfig) :
    validateModelConfig config = true ↔
      (∃ id, config.id = some id ∧ id ≠ "") ∧ (∃ name, config.name = some name ∧ name ≠ "") ∧
        (∃ provider, config.provider = some provider ∧ provider ≠ "") := by
  have key : ∀ o : Option String, truthyStr o = true ↔ ∃ s, o = some s ∧ s ≠ "" := by
    intro o
    cases o with
    | none => simp [truthyStr]
    | some s =>
      have : s.isEmpty = true ↔ s = "" := String.isEmpty_iff s
      cases hs : s.isEmpty
      · have hne : s ≠ "" := fun h => by rw [this.2 h] at hs; cases hs
        simp [truthyStr, hs, hne]
      · simp [truthyStr, hs, this.1 hs]
        rfl
  simp only [validateModelConfig, List.all_cons, List.all_nil, Bool.and_true, Bool.and_eq_true,
    key]

theorem getModel_objectSet_ne (cfg : ModelsConfig) (key : String) (value : ModelConfig)
    (k : String) (h : k ≠ key) :
    ({ cfg with models := objectSet key value cfg.models } : ModelsConfig).getModel k
      = cfg.getModel k := by
  unfold getModel
  simp only [lookup_objectSet_ne k key value cfg.models h]

/-- C16, divergence: 'constructor' is no key of the catalogue of a new registry
and the id of none of its models, yet `setCurrentModel('constructor')` returns
true and makes 'constructor' the current id, because the test
`this.models[modelId]` finds the member that the catalogue object inherits from
`Object.prototype`. `getCurrentModel()`, which returned the built-in analyzer
before the call, returns that member after it. -/
theorem setCurrentModel_inherited :
    "constructor" ∉ ModelsConfig.new.models.map Prod.fst ∧
    (∀ kv ∈ ModelsConfig.new.models, kv.2.id ≠ "constructor") ∧
    (ModelsConfig.new.setCurrentModel "constructor").2 = true ∧
    (ModelsConfig.new.setCurrentModel "constructor").1.currentModel = "constructor" ∧
    ModelsConfig.new.getCurrentModel.bind ModelEntry.id = some "builtin-analyzer" ∧
    (ModelsConfig.new.setCurrentModel "constructor").1.getCurrentModel
      = some ModelEntry.other :=
  ⟨by decide, by decide, rfl, rfl, rfl, rfl⟩

/-- C17, divergence: 'constructor' is no key of the catalogue of a new registry
(and none of the eight built-in ids), yet `removeCustomModel('constructor')`
returns true: the test `this.models[modelId]` finds the member that the
catalogue object inherits from `Object.prototype`. The `delete` that follows
removes nothing, so the registry stays as it was. -/
theorem removeCustomModel_inherited :
    "constructor" ∉ ModelsConfig.new.models.map Prod.fst ∧
    "constructor" ∉ builtinModels ∧
    (ModelsConfig.new.removeCustomModel "constructor").2 = true ∧
    (ModelsConfig.new.removeCustomModel "constructor").1 = ModelsConfig.new :=
  ⟨by decide, by decide, rfl, rfl⟩

/-- C18: for every registry state and every model config, if id, name or
provider is missing or empty then `addCustomModel` throws and the registry
(catalogue and selection) is unchanged; if all three are present and not empty
it returns true, and afterwards `getModel(config.id)` is the config with its
icon replaced by '🔧' when absent (or empty) and its features by
['code-analysis'] when absent. The selection is as before; the other ids read
as before when the id is not `__proto__`, and with the id `__proto__` the own
properties of the catalogue are as before. -/
theorem addCustomModel_spec (cfg : ModelsConfig) (config : CustomConfig) :
    ((config.id = none ∨ config.id = some "" ∨ config.name = none ∨ config.name = some "" ∨
          config.provider = none ∨ config.provider = some "") →
        ∃ msg, cfg.addCustomModel config = (cfg, .error msg)) ∧
      (∀ id name provider, config.id = some id → id ≠ "" → config.name = some name →
        name ≠ "" → config.provider = some provider → provider ≠ "" →
          (cfg.addCustomModel config).2 = .ok true ∧
          (∃ m, (cfg.addCustomModel config).1.getModel id = some (ModelEntry.model m) ∧
            m.id = id ∧ m.name = name ∧ m.provider = provider ∧
            m.endpoint = config.endpoint ∧ m.model = config.model ∧
            m.maxTokens = config.maxTokens ∧ m.temperature = config.temperature ∧
            m.requiresApiKey = config.requiresApiKey ∧ m.description = config.description ∧
            (∀ icon, config.icon = some icon → icon ≠ "" → m.icon = some icon) ∧
            (config.icon = none ∨ config.icon = some "" → m.icon = some "🔧") ∧
            (∀ features, config.features = some features → m.features = some features) ∧
            (config.features = none → m.features = some ["code-analysis"])) ∧
          (id ≠ "__proto__" →
            ∀ k, k ≠ id → (cfg.addCustomModel config).1.getModel k = cfg.getModel k) ∧
          (id = "__proto__" → (cfg.addCustomModel config).1.models = cfg.models) ∧
          (cfg.addCustomModel config).1.currentModel = cfg.currentModel) := by
  have hv := validateModelConfig_iff config
  constructor
  · intro h
    have hnv : validateModelConfig config = false := by
      rw [← Bool.not_eq_true, hv]
      rintro ⟨⟨i, hi, hi'⟩, ⟨n, hn, hn'⟩, ⟨p, hp, hp'⟩⟩
      rw [hi, hn, hp] at h
      simp [hi', hn', hp'] at h
    refine ⟨"Неверная конфигурация модели", ?_⟩
    simp [addCustomModel, hnv]
  · intro id name provider hi hi' hn hn' hp hp'
    have hvt : validateModelConfig config = true :=
      hv.2 ⟨⟨id, hi, hi'⟩, ⟨name, hn, hn'⟩, ⟨provider, hp, hp'⟩⟩
    have hfields : (customModel config).id = id ∧ (customModel config).name = name ∧
        (customModel config).provider = provider ∧
        (customModel config).endpoint = config.endpoint ∧
        (customModel config).model = config.model ∧
        (customModel config).maxTokens = config.maxTokens ∧
        (customModel config).temperature = config.temperature ∧
        (customModel config).requiresApiKey = config.requiresApiKey ∧
        (customModel config).description = config.description ∧
        (∀ icon, config.icon = some icon → icon ≠ "" →
          (customModel config).icon = some icon) ∧
        (config.icon = none ∨ config.icon = some "" → (customModel config).icon = some "🔧") ∧
        (∀ features, config.features = some features →
          (customModel config).features = some features) ∧
        (config.features = none → (customModel config).features = some ["code-analysis"]) := by
      refine ⟨by simp [customModel, hi], by simp [customModel, hn], by simp [customModel, hp],
        rfl, rfl, rfl, rfl, rfl, rfl, ?_, ?_, ?_, ?_⟩
      · intro icon hic hne
        have : icon.isEmpty = false := by
          rw [← Bool.not_eq_true, String.isEmpty_iff]; exact hne
        simp [customModel, hic, truthyStr, this]
      · rintro (hic | hic)
        · simp [customModel, hic, truthyStr]
        · have : ("" : String).isEmpty = true := rfl
          simp [customModel, hic, truthyStr, this]
      · intro features hf
        simp [customModel, hf]
      · intro hf
        simp [customModel, hf]
    by_cases hproto : id = "__proto__"
    · have hr : cfg.addCustomModel config =
          ({ cfg with modelsProto := some (customModel config) }, .ok true) := by
        simp [addCustomModel, hvt, hi, hproto]
      rw [hr]
      refine ⟨rfl, ⟨customModel config, ?_, hfields⟩, fun hne => absurd hproto hne,
        fun _ => rfl, rfl⟩
      rw [hproto]
      rfl
    · have hb : (id == "__proto__") = false := by simpa using hproto
      have hr : cfg.addCustomModel config =
          ({ cfg with models := objectSet id (customModel config) cfg.models }, .ok true) := by
        simp [addCustomModel, hvt, hi, hproto]
      rw [hr]
      refine ⟨rfl, ⟨customModel config, ?_, hfields⟩,
        fun _ k hk => getModel_objectSet_ne cfg id (customModel config) k hk,
        fun h => absurd h hproto, rfl⟩
      unfold getModel
      simp only [hb, Bool.false_eq_true, if_false, lookup_objectSet_self]

theorem addCustomModel_spec_witness :
    (∃ msg, ModelsConfig.new.addCustomModel { customConfigMinimal with name := some "" }
        = (ModelsConfig.new, .error msg)) ∧
      (ModelsConfig.new.addCustomModel customConfigMinimal).2 = .ok true ∧
      (∃ m, (ModelsConfig.new.addCustomModel customConfigMinimal).1.getModel "my-model"
          = some (ModelEntry.model m) ∧
        m.icon = some "🔧" ∧ m.features = some ["code-analysis"]) :=
  have h := (addCustomModel_spec ModelsConfig.new customConfigMinimal).2 "my-model" "My model"
    "ollama" rfl (by decide) rfl (by decide) rfl (by decide)
  ⟨(addCustomModel_spec ModelsConfig.new { customConfigMinimal with name := some "" }).1
      (Or.inr (Or.inr (Or.inr (Or.inl rfl)))),
    h.1,
    h.2.1.elim fun m hm => ⟨m, hm.1, hm.2.2.2.2.2.2.2.2.2.2.2.1 (Or.inl rfl),
      hm.2.2.2.2.2.2.2.2.2.2.2.2.2 rfl⟩⟩

end Registry

section History

open ModelManager

theorem addToHistory_requestHistory (mm : ModelManager) (entry : UsageRecord)
    (hmax : 0 < mm.maxHistorySize) :
    (mm.addToHistory entry).requestHistory =
      entry :: mm.requestHistory.take (mm.maxHistorySize - 1) := by
  unfold ModelManager.addToHistory
  obtain ⟨n, hn⟩ : ∃ n, mm.maxHistorySize = n + 1 := ⟨mm.maxHistorySize - 1, by omega⟩
  by_cases h : (entry :: mm.requestHistory).length > mm.maxHistorySize
  · rw [if_pos h]
    simp only [hn, List.take_succ_cons, Nat.add_sub_cancel]
  · rw [if_neg h]
    simp only [hn, Nat.add_sub_cancel]
    rw [List.take_of_length_le]
    simp only [List.length_cons, hn] at h
    omega

theorem analyzeWithAI_unavailable (mm : ModelManager) (env : Env) (flow : Flow)
    (analysisType : String) (model : ModelEntry)
    (hcur : mm.config.getCurrentModel = some model)
    (hremote : model.provider ≠ some "builtin")
    (hav : mm.config.isModelAvailable env (propertyKey model.id) = false) :
    ModelManager.analyzeWithAI mm env flow analysisType =
      (ModelManager.performBuiltinAnalysis flow analysisType).map (fun r => (r, mm)) := by
  have hb : (model.provider == some "builtin") = false := by simpa using hremote
  unfold ModelManager.analyzeWithAI
  simp only [hcur, hb, hav, Bool.false_eq_true, if_false, Bool.not_false, if_true]

theorem analyzeWithAI_available (mm : ModelManager) (env : Env) (flow : Flow)
    (analysisType : String) (model : ModelEntry)
    (hcur : mm.config.getCurrentModel = some model)
    (hremote : model.provider ≠ some "builtin")
    (hav : mm.config.isModelAvailable env (propertyKey model.id) = true) :
    ModelManager.analyzeWithAI mm env flow analysisType =
      match ModelManager.callAIModel mm env model flow analysisType with
      | .ok result =>
        .ok (result, mm.addToHistory
          { timestamp := env.isoTime, modelId := model.id, analysisType := analysisType,
            success := true, responseTime := some (env.endTime - env.startTime),
            tokensUsed := some (match result with
              | .reply _ t _ => t
              | .bare _ => 0),
            error := none })
      | .error message =>
        (ModelManager.performBuiltinAnalysis flow analysisType).map (fun r => (r, mm.addToHistory
          { timestamp := env.isoTime, modelId := model.id, analysisType := analysisType,
            success := false, responseTime := none, tokensUsed := none,
            error := some message })) := by
  have hb : (model.provider == some "builtin") = false := by simpa using hremote
  unfold ModelManager.analyzeWithAI
  simp only [hcur, hb, hav, Bool.false_eq_true, if_false, Bool.not_true]

/-- C19 (as amended): when the selected model is not the built-in one,
`analyzeWithAI` returns a result, and the request history changes as follows.
If the model is reported unavailable (missing credential, unreachable
endpoint), no record is added: the manager is unchanged and the local
analyzer's result is returned. If it is available, exactly one record is put
in front of the history (which is then cut to `maxHistorySize`): with success =
true, the response time and the token count when the backend call returns a
result, which is the value returned; with success = false and the error message
when the call fails, the local analyzer's result being returned. -/
theorem analyzeWithAI_history (mm : ModelManager) (env : Env) (flow : Flow)
    (analysisType : String) (model : ModelEntry)
    (hcur : mm.config.getCurrentModel = some model)
    (hremote : model.provider ≠ some "builtin") :
    ∃ r mm', ModelManager.analyzeWithAI mm env flow analysisType = .ok (r, mm') ∧
      (mm.config.isModelAvailable env (propertyKey model.id) = false →
        mm' = mm ∧ ModelManager.performBuiltinAnalysis flow analysisType = .ok r) ∧
      (mm.config.isModelAvailable env (propertyKey model.id) = true →
        ∀ result, ModelManager.callAIModel mm env model flow analysisType = .ok result →
          r = result ∧
          ∃ record, mm' = mm.addToHistory record ∧ record.success = true ∧
            record.modelId = model.id ∧ record.analysisType = analysisType ∧
            record.responseTime = some (env.endTime - env.startTime) ∧
            record.error = none ∧
            (0 < mm.maxHistorySize → mm'.requestHistory =
              record :: mm.requestHistory.take (mm.maxHistorySize - 1)) ∧
            record.tokensUsed = some (match result with
              | .reply _ t _ => t
              | .bare _ => 0)) ∧
      (mm.config.isModelAvailable env (propertyKey model.id) = true →
        ∀ message, ModelManager.callAIModel mm env model flow analysisType = .error message →
          ModelManager.performBuiltinAnalysis flow analysisType = .ok r ∧
          ∃ record, mm' = mm.addToHistory record ∧ record.success = false ∧
            record.modelId = model.id ∧ record.analysisType = analysisType ∧
            record.error = some message ∧
            (0 < mm.maxHistorySize → mm'.requestHistory =
              record :: mm.requestHistory.take (mm.maxHistorySize - 1)) ∧
            record.responseTime = none ∧ record.tokensUsed = none) := by
  obtain ⟨r0, hr0, -⟩ := performBuiltinAnalysis_ok flow analysisType
  cases hav : mm.config.isModelAvailable env (propertyKey model.id) with
  | false =>
    rw [analyzeWithAI_unavailable mm env flow analysisType model hcur hremote hav, hr0]
    exact ⟨r0, mm, rfl, fun _ => ⟨rfl, rfl⟩, fun h => Bool.noConfusion h,
      fun h => Bool.noConfusion h⟩
  | true =>
    rw [analyzeWithAI_available mm env flow analysisType model hcur hremote hav]
    cases hcall : ModelManager.callAIModel mm env model flow analysisType with
    | ok result =>
      refine ⟨result, _, rfl, fun h => Bool.noConfusion h, fun _ result' h => ?_,
        fun _ message h => Except.noConfusion h⟩
      cases h
      exact ⟨rfl, _, rfl, rfl, rfl, rfl, rfl, rfl,
        fun hmax => addToHistory_requestHistory mm _ hmax, rfl⟩
    | error message =>
      simp only [hr0]
      refine ⟨r0, _, rfl, fun h => Bool.noConfusion h, fun _ result h => Except.noConfusion h,
        fun _ message' h => ?_⟩
      cases h
      exact ⟨rfl, _, rfl, rfl, rfl, rfl, rfl,
        fun hmax => addToHistory_requestHistory mm _ hmax, rfl, rfl⟩

theorem analyzeWithAI_history_witness :
    registryOllama.isModelAvailable envTimeout "ollama-llama2" = true ∧
      ∃ r mm', ModelManager.analyzeWithAI (ModelManager.new registryOllama) envTimeout
          flowInjectDebug "codeAnalysis" = .ok (r, mm') ∧
        ∃ record, mm'.requestHistory = [record] ∧ record.success = false := by
  obtain ⟨r, mm', h, -, -, herr⟩ := analyzeWithAI_history (ModelManager.new registryOllama)
    envTimeout flowInjectDebug "codeAnalysis"
    (ModelEntry.model
      { id := "ollama-llama2", name := "Ollama Llama2", provider := "ollama",
        endpoint := some "http://localhost:11434/api/generate",
        model := some "llama2:7b", maxTokens := some 2048, temperature := some (3 / 10),
        requiresApiKey := false, icon := some "🦙",
        description := some "Универсальная локальная модель",
        features := some ["code-analysis", "recommendations"] }) rfl (by decide)
  obtain ⟨message, hm⟩ := callAIModel_timeout (ModelManager.new registryOllama) envTimeout
    (ModelEntry.model
      { id := "ollama-llama2", name := "Ollama Llama2", provider := "ollama",
        endpoint := some "http://localhost:11434/api/generate",
        model := some "llama2:7b", maxTokens := some 2048, temperature := some (3 / 10),
        requiresApiKey := false, icon := some "🦙",
        description := some "Универсальная локальная модель",
        features := some ["code-analysis", "recommendations"] }) flowInjectDebug "codeAnalysis"
    (fun _ _ _ _ => rfl)
  obtain ⟨-, record, -, hs, -, -, -, hh, -⟩ := herr rfl message hm
  exact ⟨rfl, r, mm', h, record, hh (by decide), hs⟩

/-- C19, counterexample: a remote model without credential (`openai-gpt-4`, no
key stored, none in the environment) and a local daemon whose probe is refused
are both reported unavailable; `analyzeWithAI` then returns the local
analyzer's result and the request history stays empty. -/
theorem analyzeWithAI_unavailable_unrecorded :
    (registryOpenAI.getCurrentModel.bind ModelEntry.provider = some "openai" ∧
      registryOpenAI.isModelAvailable envTimeout "openai-gpt-4" = false ∧
      ∃ r, ModelManager.analyzeWithAI (ModelManager.new registryOpenAI) envTimeout
          flowInjectDebug "codeAnalysis" = .ok (r, ModelManager.new registryOpenAI) ∧
        (ModelManager.new registryOpenAI).requestHistory = []) ∧
    (registryOllama.getCurrentModel.bind ModelEntry.provider = some "ollama" ∧
      registryOllama.isModelAvailable envDown "ollama-llama2" = false ∧
      ∃ r, ModelManager.analyzeWithAI (ModelManager.new registryOllama) envDown
          flowInjectDebug "codeAnalysis" = .ok (r, ModelManager.new registryOllama) ∧
        (ModelManager.new registryOllama).requestHistory = []) :=
  ⟨⟨rfl, rfl, _, rfl, rfl⟩, ⟨rfl, rfl, _, rfl, rfl⟩⟩

end History

section Reply

open ModelManager

theorem dropWhile_append_cons {α : Type} (p : α → Bool) (a : List α) (x : α) (l : List α)
    (hx : p x = false) : ∃ a', (a ++ x :: l).dropWhile p = a' ++ x :: l := by
  induction a with
  | nil => exact ⟨[], by simp [List.dropWhile_cons, hx]⟩
  | cons y a ih =>
    cases hy : p y with
    | true =>
      obtain ⟨a', h⟩ := ih
      exact ⟨a', by simp [List.dropWhile_cons, hy, h]⟩
    | false => exact ⟨y :: a, by simp [List.dropWhile_cons, hy]⟩

theorem jsonMatch_some (content text : List Nat) (h : ModelManager.jsonMatch content = some text) :
    ∃ pre body post, content = pre ++ text ++ post ∧ text = 123 :: (body ++ [125]) ∧
      123 ∉ pre ∧ 125 ∉ post := by
  unfold ModelManager.jsonMatch at h
  have hsplit := List.takeWhile_append_dropWhile (fun c => c != 123) content
  have hpre : 123 ∉ content.takeWhile (fun c => c != 123) := by
    intro hm
    have := List.mem_takeWhile_imp hm
    simp at this
  cases hrest : content.dropWhile (fun c => c != 123) with
  | nil => rw [hrest] at h; simp at h
  | cons brace tail =>
    rw [hrest] at h
    simp only at h
    have hbrace : brace = 123 := by
      have := List.head?_dropWhile_not (fun c => c != 123) content
      rw [hrest] at this
      simpa using this
    subst hbrace
    have htail := List.takeWhile_append_dropWhile (fun c => c != 125) tail.reverse
    have hpost : 125 ∉ (tail.reverse.takeWhile (fun c => c != 125)).reverse := by
      intro hm
      have := List.mem_takeWhile_imp (List.mem_reverse.1 hm)
      simp at this
    cases hbody : tail.reverse.dropWhile (fun c => c != 125) with
    | nil => rw [hbody] at h; simp at h
    | cons last init =>
      have hlast : last = 125 := by
        have := List.head?_dropWhile_not (fun c => c != 125) tail.reverse
        rw [hbody] at this
        simpa using this
      subst hlast
      rw [hbody] at h htail
      simp only [List.reverse_cons, List.isEmpty_eq_true, List.append_eq_nil, List.cons_ne_self,
        and_false, if_false, Option.some.injEq] at h
      have ht : tail = init.reverse ++ [125] ++
          (tail.reverse.takeWhile (fun c => c != 125)).reverse := by
        have := congrArg List.reverse htail
        simpa using this.symm
      rw [hrest] at hsplit
      generalize content.takeWhile (fun c => c != 123) = pre at hsplit hpre
      generalize (tail.reverse.takeWhile (fun c => c != 125)).reverse = post at ht hpost
      refine ⟨pre, init.reverse, post, ?_, h.symm, hpre, hpost⟩
      rw [← h, ← hsplit, ht]
      simp

theorem jsonMatch_none_of_not_mem (content : List Nat) (h : 123 ∉ content) :
    ModelManager.jsonMatch content = none := by
  have : content.dropWhile (fun c => c != 123) = [] := by
    rw [List.dropWhile_eq_nil_iff]
    intro x hx
    have : x ≠ 123 := fun hx' => h (hx' ▸ hx)
    simpa using this
  unfold ModelManager.jsonMatch
  rw [this]

theorem jsonMatch_none_iff (content : List Nat) :
    ModelManager.jsonMatch content = none ↔
      ¬ ∃ a b c, content = a ++ [123] ++ b ++ [125] ++ c := by
  constructor
  · intro h ⟨a, b, c, hc⟩
    have hc' : content = a ++ 123 :: (b ++ 125 :: c) := by simp [hc]
    obtain ⟨a', ha'⟩ := dropWhile_append_cons (fun c => c != 123) a 123 (b ++ 125 :: c)
      (by simp)
    unfold ModelManager.jsonMatch at h
    rw [hc', ha'] at h
    have hmem : ∀ (brace : Nat) (tail : List Nat), a' ++ 123 :: (b ++ 125 :: c) = brace :: tail →
        125 ∈ tail := by
      intro brace tail heq
      cases a' with
      | nil =>
        simp only [List.nil_append, List.cons.injEq] at heq
        rw [← heq.2]; simp
      | cons y a' =>
        simp only [List.cons_append, List.cons.injEq] at heq
        rw [← heq.2]; simp
    cases hrest : a' ++ 123 :: (b ++ 125 :: c) with
    | nil => cases a' <;> simp at hrest
    | cons brace tail =>
      rw [hrest] at h
      have h125 := hmem brace tail hrest
      have hne : tail.reverse.dropWhile (fun c => c != 125) ≠ [] := by
        intro hnil
        rw [List.dropWhile_eq_nil_iff] at hnil
        have := hnil 125 (List.mem_reverse.2 h125)
        simp at this
      simp [hne] at h
  · intro h
    cases hm : ModelManager.jsonMatch content with
    | none => rfl
    | some text =>
      exfalso
      obtain ⟨pre, body, post, hc, ht, -, -⟩ := jsonMatch_some content text hm
      exact h ⟨pre, body, post, by rw [hc, ht]; simp⟩

/-- C20 (as amended): for every string content (given by its code units) and
whatever `JSON.parse` does, `parseAIResponse` returns a value. When content has
no opening brace followed later by a closing brace, it returns the minimal
result whose single recommendation is the first 200 code units of content
followed by three dots. Otherwise it hands the text from the first opening
brace to the last closing brace to `JSON.parse`: if that throws, it returns
the minimal result whose single recommendation is the fixed message 'Получен
некорректный ответ от AI модели'; if not, it returns the parsed value. -/
theorem parseAIResponse_spec {J : Type} (jsonParse : List Nat → Option J) (content : List Nat) :
    ((¬ ∃ a b c, content = a ++ [123] ++ b ++ [125] ++ c) →
      ModelManager.parseAIResponse jsonParse content =
        .minimal { issues := [], patterns := [],
                   recommendations := [content.take 200 ++ utf16 "..."] }) ∧
    ((∃ a b c, content = a ++ [123] ++ b ++ [125] ++ c) →
      ∃ pre body post, content = pre ++ (123 :: (body ++ [125])) ++ post ∧
        123 ∉ pre ∧ 125 ∉ post ∧
        (jsonParse (123 :: (body ++ [125])) = none →
          ModelManager.parseAIResponse jsonParse content =
            .minimal { issues := [], patterns := [],
                       recommendations := [utf16 "Получен некорректный ответ от AI модели"] }) ∧
        (∀ value, jsonParse (123 :: (body ++ [125])) = some value →
          ModelManager.parseAIResponse jsonParse content = .parsed value)) := by
  constructor
  · intro h
    have hn := (jsonMatch_none_iff content).2 h
    simp only [ModelManager.parseAIResponse, hn]
  · intro h
    cases hm : ModelManager.jsonMatch content with
    | none => exact absurd h ((jsonMatch_none_iff content).1 hm)
    | some text =>
      obtain ⟨pre, body, post, hc, ht, hpre, hpost⟩ := jsonMatch_some content text hm
      subst ht
      refine ⟨pre, body, post, hc, hpre, hpost, fun hp => ?_, fun value hp => ?_⟩
      · simp only [ModelManager.parseAIResponse, hm, hp]
      · simp only [ModelManager.parseAIResponse, hm, hp]

theorem parseAIResponse_spec_witness :
    ModelManager.parseAIResponse jsonParseNone (utf16 "no json here") =
        .minimal { issues := [], patterns := [],
                   recommendations := [utf16 "no json here..."] } :=
  (parseAIResponse_spec jsonParseNone (utf16 "no json here")).1 (by
    rw [← jsonMatch_none_iff]; decide)

/-- C20, counterexample: for a reply of 201 code units without braces the
single recommendation is its first 200 units followed by three dots, which
lacks the last unit of the reply; and for the reply a\x7boops\x7d, whose braced
part a parser rejects, the single recommendation is the fixed message, which
has none of the reply's text. -/
theorem parseAIResponse_drops_text :
    (ModelManager.parseAIResponse jsonParseNone replyLong =
        .minimal { issues := [], patterns := [],
                   recommendations := [List.replicate 200 97 ++ [46, 46, 46]] } ∧
      98 ∈ replyLong ∧ 98 ∉ List.replicate 200 97 ++ [46, 46, 46]) ∧
    (ModelManager.jsonMatch (utf16 "a\x7boops\x7d") = some (utf16 "\x7boops\x7d") ∧
      ModelManager.parseAIResponse jsonParseNone (utf16 "a\x7boops\x7d") =
        .minimal { issues := [], patterns := [],
                   recommendations := [utf16 "Получен некорректный ответ от AI модели"] } ∧
      utf16 "Получен некорректный ответ от AI модели" ≠ utf16 "a\x7boops\x7d") := by
  refine ⟨⟨?_, ?_, ?_⟩, ?_, ?_, ?_⟩
  · have hn : ModelManager.jsonMatch replyLong = none :=
      jsonMatch_none_of_not_mem replyLong (by
        unfold replyLong
        rw [List.mem_append, List.mem_replicate]
        decide)
    have ht : replyLong.take 200 = List.replicate 200 97 := by
      unfold replyLong
      rw [List.take_left' (List.length_replicate 200 97)]
    have hd : utf16 "..." = [46, 46, 46] := by decide
    simp only [ModelManager.parseAIResponse, hn, ht, hd]
  · unfold replyLong
    rw [List.mem_append]
    exact Or.inr (List.mem_singleton.2 rfl)
  · rw [List.mem_append, List.mem_replicate]
    decide
  · decide
  · decide
  · decide

end Reply

section Metrics

open CopilotAnalyzer

theorem foldl_wireLengths (wires : List (List String)) (n : Nat) :
    wires.foldl (fun sum wireArray => sum + wireArray.length) n
      = n + (wires.map List.length).sum := by
  induction wires generalizing n with
  | nil => simp
  | cons w ws ih =>
    rw [List.foldl_cons, ih, List.map_cons, List.sum_cons]
    omega

theorem branchStep_eq (branches : Nat) (node : Node) :
    (match node.wires with
      | some wires =>
        if wires.length > 0 then
          let totalOutputs := wires.foldl (fun sum wireArray => sum + wireArray.length) 0
          if totalOutputs > 1 then branches + (totalOutputs - 1) else branches
        else branches
      | none => branches) = branches + (Spec.targetCount node - 1) := by
  unfold Spec.targetCount
  cases hw : node.wires with
  | none => simp
  | some wires =>
    simp only [Option.getD_some, foldl_wireLengths, Nat.zero_add]
    cases wires with
    | nil => simp
    | cons w ws =>
      simp only [List.length_cons, gt_iff_lt, Nat.zero_lt_succ, if_true]
      split <;> omega

theorem foldl_branches (ns : List Node) (b : Nat) :
    ns.foldl (fun branches node =>
      match node.wires with
      | some wires =>
        if wires.length > 0 then
          let totalOutputs := wires.foldl (fun sum wireArray => sum + wireArray.length) 0
          if totalOutputs > 1 then branches + (totalOutputs - 1) else branches
        else branches
      | none => branches) b
      = b + (ns.map (fun n => Spec.targetCount n - 1)).sum := by
  induction ns generalizing b with
  | nil => simp
  | cons n ns ih =>
    rw [List.foldl_cons, branchStep_eq, ih, List.map_cons, List.sum_cons]
    omega

/-- C22: for a flow with node list `ns`, `countBranches` returns the sum over
the nodes of `t − 1` cut at 0, where `t` is the node's number of wire targets
over all its output ports; so a node with 0 or 1 targets adds 0, and a node
whose outputs are `[[a, b, c]]` adds exactly 2. -/
theorem countBranches_spec (flow : Flow) (ns : List Node) (h : flow.nodes = some ns) :
    CopilotAnalyzer.countBranches flow
        = .ok ((ns.map (fun n => max 0 (Spec.targetCount n - 1))).sum) ∧
      (∀ n, Spec.targetCount n ≤ 1 → max 0 (Spec.targetCount n - 1) = 0) ∧
      (∀ n a b c, n.wires = some [[a, b, c]] → max 0 (Spec.targetCount n - 1) = 2) ∧
      (∀ n, CopilotAnalyzer.countBranches { flow with nodes := some (ns ++ [n]) }
        = (CopilotAnalyzer.countBranches flow).map
            (fun total => total + max 0 (Spec.targetCount n - 1))) := by
  have hval : ∀ (f : Flow) (l : List Node), f.nodes = some l →
      CopilotAnalyzer.countBranches f
        = .ok ((l.map (fun n => max 0 (Spec.targetCount n - 1))).sum) := by
    intro f l hf
    unfold CopilotAnalyzer.countBranches
    rw [nodesOrThrow_some hf]
    simp only [bind, Except.bind, pure, Except.pure, foldl_branches, Nat.zero_add,
      Nat.zero_max]
  refine ⟨hval flow ns h, ?_, ?_, ?_⟩
  · intro n hn
    omega
  · intro n a b c hw
    simp [Spec.targetCount, hw]
  · intro n
    rw [hval flow ns h, hval { flow with nodes := some (ns ++ [n]) } (ns ++ [n]) rfl]
    simp [Except.map]

theorem countBranches_spec_witness :
    CopilotAnalyzer.countBranches (mkFlow [nodeFanOut, mkNode "a" "debug" (some [])])
        = .ok 2 ∧
      max 0 (Spec.targetCount nodeFanOut - 1) = 2 :=
  have h := countBranches_spec (mkFlow [nodeFanOut, mkNode "a" "debug" (some [])])
    [nodeFanOut, mkNode "a" "debug" (some [])] rfl
  ⟨h.1, h.2.2.1 nodeFanOut "a" "b" "c" rfl⟩

/-- C23: for a flow with node list `ns` none of whose nodes has the type
inject, http in, mqtt in or websocket in, `calculateFlowDepth` returns 0,
whatever the wires are. -/
theorem calculateFlowDepth_no_source (flow : Flow) (ns : List Node) (h : flow.nodes = some ns)
    (hsrc : ∀ n ∈ ns, n.type ∉ ["inject", "http in", "mqtt in", "websocket in"]) :
    CopilotAnalyzer.calculateFlowDepth flow = .ok 0 := by
  have hfilter : ns.filter (fun node =>
      ["inject", "http in", "mqtt in", "websocket in"].contains node.type) = [] := by
    rw [List.filter_eq_nil_iff]
    intro n hn hc
    exact hsrc n hn ((contains_iff_mem _ _).1 hc)
  unfold CopilotAnalyzer.calculateFlowDepth
  rw [nodesOrThrow_some h]
  simp only [bind, Except.bind, hfilter, flowDepthLoop]
  rfl

theorem calculateFlowDepth_no_source_witness :
    CopilotAnalyzer.calculateFlowDepth flowSelfLoop = .ok 0 :=
  calculateFlowDepth_no_source flowSelfLoop [mkNode "a" "function" (some [["a"]])] rfl
    (by decide)

end Metrics

section Global

open CopilotAnalyzer

theorem findGlobalIssues_ok_tooManyFlows (flows : List Flow) (issues : List Finding)
    (h : findGlobalIssues flows = .ok issues) :
    ((∃ i ∈ issues, i.type = "too-many-flows") ↔ 10 < flows.length) ∧
      (∀ i ∈ issues, i.type = "too-many-flows" → i.severity = "warning") ∧
      (issues.filter (fun i => i.type == "too-many-flows")).length ≤ 1 := by
  unfold findGlobalIssues at h
  cases hd : findDuplicatePatterns flows with
  | error e =>
    rw [hd] at h
    exact Except.noConfusion h
  | ok duplicatePatterns =>
    rw [hd] at h
    simp only [bind, Except.bind, pure, Except.pure, Except.ok.injEq] at h
    subst h
    refine ⟨⟨?_, fun hlen => ?_⟩, ?_, ?_⟩
    · rintro ⟨i, hi, ht⟩
      simp only [List.mem_append] at hi
      rcases hi with hi | hi <;> split at hi
      · rename_i hlen
        exact hlen
      · simp at hi
      · simp only [List.mem_singleton] at hi
        rw [hi] at ht
        simp at ht
      · simp at hi
    · simp only [gt_iff_lt, hlen, if_true]
      exact ⟨_, List.mem_append_left _ (List.mem_singleton.2 rfl), rfl⟩
    · intro i hi ht
      simp only [List.mem_append] at hi
      rcases hi with hi | hi <;> split at hi
      · simp only [List.mem_singleton] at hi
        rw [hi]
      · simp at hi
      · simp only [List.mem_singleton] at hi
        rw [hi] at ht
        simp at ht
      · simp at hi
    · simp only [List.filter_append]
      split <;> split <;> simp [List.filter]

/-- C24, divergence: on a workspace of 11 flows of which the last has a single
node of type `toString`, `findGlobalIssues` yields no finding: it throws a
`TypeError`. The signature of that flow is `toString`, the test
`!patterns[signature]` of `findDuplicatePatterns` finds the function that the
object `patterns` inherits from `Object.prototype`, and `push` is called on
that function. -/
theorem findGlobalIssues_inherited_signature :
    workspaceInheritedType.length = 11 ∧
    signature [mkNode "n1" "toString" none] = "toString" ∧
    findDuplicatePatterns workspaceInheritedType = .error "TypeError" ∧
    findGlobalIssues workspaceInheritedType = .error "TypeError" :=
  ⟨rfl, by decide, rfl, rfl⟩

end Global

section Rings

theorem take_append_take {α : Type} (cap : Nat) (xs ys : List α) :
    (xs ++ ys.take cap).take cap = (xs ++ ys).take cap := by
  rw [List.take_append_eq_append_take, List.take_append_eq_append_take, List.take_take]
  congr 2
  omega

theorem analyzerHistory_step (az : Analyzer) (analysis : GlobalAnalysis) :
    (CopilotAnalyzer.addToHistory az analysis).analysisHistory
        = (analysis :: az.analysisHistory).take az.maxHistorySize ∧
      (CopilotAnalyzer.addToHistory az analysis).maxHistorySize = az.maxHistorySize := by
  unfold CopilotAnalyzer.addToHistory
  by_cases h : (analysis :: az.analysisHistory).length > az.maxHistorySize
  · rw [if_pos h]
    exact ⟨rfl, rfl⟩
  · rw [if_neg h]
    exact ⟨(List.take_of_length_le (Nat.le_of_not_gt h)).symm, rfl⟩

theorem managerHistory_step (mm : ModelManager) (entry : UsageRecord) :
    (mm.addToHistory entry).requestHistory
        = (entry :: mm.requestHistory).take mm.maxHistorySize ∧
      (mm.addToHistory entry).maxHistorySize = mm.maxHistorySize := by
  unfold ModelManager.addToHistory
  by_cases h : (entry :: mm.requestHistory).length > mm.maxHistorySize
  · rw [if_pos h]
    exact ⟨rfl, rfl⟩
  · rw [if_neg h]
    exact ⟨(List.take_of_length_le (Nat.le_of_not_gt h)).symm, rfl⟩

theorem analyzerHistory_foldl (analyses : List GlobalAnalysis) (az : Analyzer)
    (hlen : az.analysisHistory.length ≤ az.maxHistorySize) :
    (analyses.foldl CopilotAnalyzer.addToHistory az).analysisHistory
        = (analyses.reverse ++ az.analysisHistory).take az.maxHistorySize ∧
      (analyses.foldl CopilotAnalyzer.addToHistory az).maxHistorySize
        = az.maxHistorySize := by
  induction analyses generalizing az with
  | nil => exact ⟨(List.take_of_length_le hlen).symm, rfl⟩
  | cons a l ih =>
    obtain ⟨h1, h2⟩ := analyzerHistory_step az a
    obtain ⟨h3, h4⟩ := ih (CopilotAnalyzer.addToHistory az a) (by
      rw [h1, h2, List.length_take]
      exact Nat.min_le_left _ _)
    rw [List.foldl_cons]
    refine ⟨?_, h4.trans h2⟩
    rw [h3, h1, h2, take_append_take]
    simp

theorem managerHistory_foldl (records : List UsageRecord) (mm : ModelManager)
    (hlen : mm.requestHistory.length ≤ mm.maxHistorySize) :
    (records.foldl ModelManager.addToHistory mm).requestHistory
        = (records.reverse ++ mm.requestHistory).take mm.maxHistorySize ∧
      (records.foldl ModelManager.addToHistory mm).maxHistorySize = mm.maxHistorySize := by
  induction records generalizing mm with
  | nil => exact ⟨(List.take_of_length_le hlen).symm, rfl⟩
  | cons a l ih =>
    obtain ⟨h1, h2⟩ := managerHistory_step mm a
    obtain ⟨h3, h4⟩ := ih (mm.addToHistory a) (by
      rw [h1, h2, List.length_take]
      exact Nat.min_le_left _ _)
    rw [List.foldl_cons]
    refine ⟨?_, h4.trans h2⟩
    rw [h3, h1, h2, take_append_take]
    simp

/-- C26: after the calls `addToHistory(e_1)`, ..., `addToHistory(e_n)` on a new
object, the history is the list `e_n, ..., e_1` cut to its first `capacity`
elements, that is the `min(n, capacity)` entries added last, newest first; the
capacity is 50 for the analysis history of `CopilotAnalyzer` and 100 for the
request history of `ModelManager`, and the length never exceeds it. -/
theorem addToHistory_ring (analyses : List GlobalAnalysis) (config : ModelsConfig)
    (records : List UsageRecord) :
    ((analyses.foldl CopilotAnalyzer.addToHistory CopilotAnalyzer.new).analysisHistory
        = analyses.reverse.take 50 ∧
      (analyses.foldl CopilotAnalyzer.addToHistory CopilotAnalyzer.new).analysisHistory.length
        = min analyses.length 50 ∧
      (analyses.foldl CopilotAnalyzer.addToHistory CopilotAnalyzer.new).analysisHistory.length
        ≤ 50) ∧
    ((records.foldl ModelManager.addToHistory (ModelManager.new config)).requestHistory
        = records.reverse.take 100 ∧
      (records.foldl ModelManager.addToHistory (ModelManager.new config)).requestHistory.length
        = min records.length 100 ∧
      (records.foldl ModelManager.addToHistory (ModelManager.new config)).requestHistory.length
        ≤ 100) := by
  have ha := (analyzerHistory_foldl analyses CopilotAnalyzer.new (Nat.zero_le _)).1
  have hm := (managerHistory_foldl records (ModelManager.new config) (Nat.zero_le _)).1
  have ha' : (analyses.foldl CopilotAnalyzer.addToHistory CopilotAnalyzer.new).analysisHistory
      = analyses.reverse.take 50 := by
    rw [ha]
    simp [CopilotAnalyzer.new]
  have hm' : (records.foldl ModelManager.addToHistory (ModelManager.new config)).requestHistory
      = records.reverse.take 100 := by
    rw [hm]
    simp [ModelManager.new]
  rw [ha', hm']
  simp only [List.length_take, List.length_reverse]
  refine ⟨⟨trivial, ?_, ?_⟩, trivial, ?_, ?_⟩ <;> omega

end Rings

section Isolation

open CopilotPanel

/-- C27: whatever the three detector checks do on a node list, return
findings or throw, `findFlowIssues` returns, and its result is the
concatenation, in the order disconnected nodes, error handling, performance,
of the findings of the checks that did not throw. With the checks of the class
itself the result is that of `checkDisconnectedNodes`. -/
theorem findFlowIssues_isolates (checks : Checks) (nodes : List Node) :
    findFlowIssues checks nodes
        = ([checks.checkDisconnectedNodes nodes, checks.checkErrorHandling nodes,
            checks.checkPerformanceIssues nodes].filterMap Except.toOption).flatten ∧
      (∀ found, checks.checkDisconnectedNodes nodes = .ok found →
        found <+: findFlowIssues checks nodes) ∧
      findFlowIssues Checks.own nodes = checkDisconnectedNodes nodes := by
  have hstep : ∀ (issues found : List Finding),
      (if found.length > 0 then issues ++ found else issues) = issues ++ found := by
    intro issues found
    cases found with
    | nil => simp
    | cons f fs => simp
  have hstep0 : ∀ (found : List Finding),
      (if found.length > 0 then found else []) = found := by
    intro found
    cases found with
    | nil => simp
    | cons f fs => simp
  have hstep2 : ∀ (xs ys found : List Finding),
      (if found.length > 0 then xs ++ (ys ++ found) else xs ++ ys) = xs ++ (ys ++ found) := by
    intro xs ys found
    cases found with
    | nil => simp
    | cons f fs => simp
  have hmain : findFlowIssues checks nodes
      = ([checks.checkDisconnectedNodes nodes, checks.checkErrorHandling nodes,
          checks.checkPerformanceIssues nodes].filterMap Except.toOption).flatten := by
    unfold findFlowIssues
    simp only [List.foldl_cons, List.foldl_nil]
    cases checks.checkDisconnectedNodes nodes <;> cases checks.checkErrorHandling nodes <;>
      cases checks.checkPerformanceIssues nodes <;>
      simp only [hstep, hstep0, hstep2, Except.toOption, List.filterMap_cons,
        List.filterMap_nil, List.flatten_cons, List.flatten_nil, List.nil_append,
        List.append_nil, List.append_assoc]
  refine ⟨hmain, ?_, ?_⟩
  · intro found hf
    rw [hmain, hf]
    simp only [List.filterMap_cons, Except.toOption, List.flatten_cons]
    exact List.prefix_append _ _
  · unfold findFlowIssues Checks.own
    simp only [List.foldl_cons, List.foldl_nil, hstep, hstep0, checkErrorHandling,
      checkPerformanceIssues, List.nil_append, List.append_nil, List.length_nil,
      gt_iff_lt, Nat.lt_irrefl, if_false]

theorem findFlowIssues_isolates_witness :
    checksFaulty.checkErrorHandling (flowInjectDebug.nodes.getD []) = .error "TypeError" ∧
      CopilotPanel.checkDisconnectedNodes (flowInjectDebug.nodes.getD [])
        <+: findFlowIssues checksFaulty (flowInjectDebug.nodes.getD []) ∧
      (findFlowIssues checksFaulty (flowInjectDebug.nodes.getD [])).map (fun i => i.type)
        = ["disconnected"] :=
  ⟨rfl,
   (findFlowIssues_isolates checksFaulty (flowInjectDebug.nodes.getD [])).2.1 _ rfl,
   by decide⟩

end Isolation

section BackEdges

/-- C21, the failing input: on the nodes a, b, c with wires a to b, b to a and
c to b, `detectCycles` returns 2, while the depth-first traversal has one
back-edge only, the wire from b to a, whether the traversal of a root stops at
its first back-edge or examines every wire: when the wire from c to b is
examined the recursion path is c alone, and b is still in `recursionStack`
because the early return of the first walk never removed it. -/
theorem detectCycles_counts_stale :
    CopilotPanel.detectCycles nodesCycleTail = some 2 ∧
      Spec.backEdges nodesCycleTail true = some 1 ∧
      Spec.backEdges nodesCycleTail false = some 1 ∧
      (CopilotPanel.detectCyclesLoop nodesCycleTail 4 (nodesCycleTail.take 2)
          { visited := [], recursionStack := [], cycleCount := 0 }).map
        (fun s => (s.recursionStack, s.cycleCount)) = some (["b", "a"], 1) := by
  refine ⟨by decide, by decide, by decide, by decide⟩

end BackEdges

section Duplicates

open CopilotAnalyzer

/-- C25, the failing input: a flow whose only node has the type `a,b` and a
flow with a node of type `a` and a node of type `b` have different multisets of
node types and the same signature, so `findDuplicatePatterns` puts them in one
group and `findGlobalIssues` reports duplicated logic. -/
theorem findDuplicatePatterns_comma :
    ¬ List.Perm ["a,b"] ["a", "b"] ∧
      signature [mkNode "n1" "a,b" none] = signature [mkNode "n1" "a" none, mkNode "n2" "b" none] ∧
      findDuplicatePatterns [flowCommaType, flowTwoTypes] = .ok [["f1", "f2"]] ∧
      (findGlobalIssues [flowCommaType, flowTwoTypes]).map
          (fun issues => issues.map (fun i => (i.type, i.severity)))
        = .ok [("duplicate-logic", "info")] := by
  refine ⟨fun h => ?_, by decide, rfl, rfl⟩
  have := h.length_eq
  simp at this

end Duplicates

section Stubs

/-- C30, the failing input: on the diamond flow the analyzer counts 4
connections, depth 2, 1 branch and the score 12, while the panel answers 0
connections, depth 1, 0 branches and the score 4; and on the empty node list
the analyzer's depth is 0 and the panel's is 1. -/
theorem panel_complexity_differs :
    flowDiamond.nodes = some
        [mkNode "s" "inject" (some [["a", "b"]]), mkNode "a" "function" (some [["c"]]),
          mkNode "b" "function" (some [["a"]]), mkNode "c" "debug" (some [])] ∧
      CopilotAnalyzer.calculateComplexity flowDiamond
        = .ok { level := "simple", score := 12, nodeCount := some 4, connections := some 4,
                depth := some 2, branches := some 1 } ∧
      CopilotPanel.calculateComplexity
          [mkNode "s" "inject" (some [["a", "b"]]), mkNode "a" "function" (some [["c"]]),
            mkNode "b" "function" (some [["a"]]), mkNode "c" "debug" (some [])]
        = { level := "simple", score := 4, nodeCount := some 4, connections := some 0,
            depth := some 1, branches := some 0 } ∧
      (CopilotAnalyzer.countConnections flowDiamond = .ok 4 ∧
        CopilotPanel.countConnections (flowDiamond.nodes.getD []) = 0) ∧
      (CopilotAnalyzer.countBranches flowDiamond = .ok 1 ∧
        CopilotPanel.countBranches (flowDiamond.nodes.getD []) = 0) ∧
      (CopilotAnalyzer.calculateFlowDepth (mkFlow []) = .ok 0 ∧
        CopilotPanel.calculateDepth [] = 1) := by
  have h1 : CopilotAnalyzer.countConnections flowDiamond = .ok 4 := rfl
  have h2 : CopilotAnalyzer.calculateFlowDepth flowDiamond = .ok 2 := rfl
  have h3 : CopilotAnalyzer.countBranches flowDiamond = .ok 1 := rfl
  refine ⟨rfl, ?_, rfl, ⟨h1, rfl⟩, ⟨h3, rfl⟩, rfl, rfl⟩
  have hn : flowDiamond.nodes = some
      [mkNode "s" "inject" (some [["a", "b"]]), mkNode "a" "function" (some [["c"]]),
        mkNode "b" "function" (some [["a"]]), mkNode "c" "debug" (some [])] := rfl
  unfold CopilotAnalyzer.calculateComplexity
  simp only [hn, h1, h2, h3, bind, Except.bind, pure, Except.pure, List.length_cons,
    List.length_nil]
  have hs : ((0 + 1 + 1 + 1 + 1 : Nat) : ℚ) + ((4 : Nat) : ℚ) * (1 / 2) + ((2 : Nat) : ℚ) * 2
      + ((1 : Nat) : ℚ) * (3 / 2) = 23 / 2 := by norm_num
  have hr : CopilotAnalyzer.mathRound (23 / 2) = 12 := by
    unfold CopilotAnalyzer.mathRound
    rw [Int.floor_eq_iff]
    norm_num
  simp only [hs, hr]
  norm_num

end Stubs

section Invariant

open ModelsConfig

/-- C29, divergence: two sequences of calls on a new registry after which the
current model id is the id of no model of the catalogue. After
`setCurrentModel('constructor')` the current id is 'constructor', which the
test `this.models[modelId]` accepts because the catalogue object inherits a
member of that name, and `getCurrentModel()` returns that member, no model.
After `addCustomModel` with the id `__proto__` and a description,
`setCurrentModel('description')` and `addCustomModel` with the id `__proto__`
and no description, the current id is 'description' and `getCurrentModel()`
returns null. -/
theorem currentModel_leaves_catalogue :
    ((callsInherited.foldl ModelsConfig.call ModelsConfig.new).currentModel = "constructor" ∧
      "constructor" ∉ (callsInherited.foldl ModelsConfig.call ModelsConfig.new).models.map
        Prod.fst ∧
      (∀ kv ∈ (callsInherited.foldl ModelsConfig.call ModelsConfig.new).models,
        kv.2.id ≠ "constructor") ∧
      (callsInherited.foldl ModelsConfig.call ModelsConfig.new).getCurrentModel
        = some ModelEntry.other) ∧
    ((callsPrototype.foldl ModelsConfig.call ModelsConfig.new).currentModel = "description" ∧
      "description" ∉ (callsPrototype.foldl ModelsConfig.call ModelsConfig.new).models.map
        Prod.fst ∧
      (callsPrototype.foldl ModelsConfig.call ModelsConfig.new).getCurrentModel = none) :=
  ⟨⟨rfl, by decide, by decide, rfl⟩, ⟨rfl, by decide, rfl⟩⟩

end Invariant

section Noninterference

open ModelManager

theorem secretKey_iff (toLowerCase : String → String) (key : String) :
    ModelManager.isSensitiveKey toLowerCase key = true ↔ Spec.secretKey toLowerCase key :=
  isSensitiveKey_iff toLowerCase key

theorem lookup_sameButSecrets (toLowerCase : String → String) (k : String)
    (hk : ¬ Spec.secretKey toLowerCase k) (p1 p2 : List (String × Val))
    (h : List.Forall₂ (fun (kv1 kv2 : String × Val) =>
      kv1.1 = kv2.1 ∧ (¬ Spec.secretKey toLowerCase kv1.1 → kv1.2 = kv2.2)) p1 p2) :
    p1.lookup k = p2.lookup k := by
  induction p1 generalizing p2 with
  | nil =>
    rw [List.forall₂_nil_left_iff.1 h]
  | cons kv1 l1 ih =>
    obtain ⟨kv2, l2, hkv, hrest, rfl⟩ := List.forall₂_cons_left_iff.1 h
    obtain ⟨k1, v1⟩ := kv1
    obtain ⟨k2, v2⟩ := kv2
    obtain ⟨hkey, hval⟩ := hkv
    simp only at hkey hval
    subst hkey
    rw [List.lookup_cons, List.lookup_cons, ih l2 hrest]
    cases hb : k == k1 with
    | false => rfl
    | true =>
      have hkk : k = k1 := by simpa using hb
      subst hkk
      rw [hval hk]

theorem redact_sameButSecrets (toLowerCase : String → String) (p1 p2 : List (String × Val))
    (h : List.Forall₂ (fun (kv1 kv2 : String × Val) =>
      kv1.1 = kv2.1 ∧ (¬ Spec.secretKey toLowerCase kv1.1 → kv1.2 = kv2.2)) p1 p2) :
    ((p1.filter (fun kv => !ModelManager.systemFields.contains kv.1)).map
        (fun kv => if ModelManager.isSensitiveKey toLowerCase kv.1 then
          (kv.1, ModelManager.redacted) else kv))
      = ((p2.filter (fun kv => !ModelManager.systemFields.contains kv.1)).map
        (fun kv => if ModelManager.isSensitiveKey toLowerCase kv.1 then
          (kv.1, ModelManager.redacted) else kv)) := by
  induction p1 generalizing p2 with
  | nil =>
    rw [List.forall₂_nil_left_iff.1 h]
  | cons kv1 l1 ih =>
    obtain ⟨kv2, l2, hkv, hrest, rfl⟩ := List.forall₂_cons_left_iff.1 h
    obtain ⟨k1, v1⟩ := kv1
    obtain ⟨k2, v2⟩ := kv2
    obtain ⟨hkey, hval⟩ := hkv
    simp only at hkey hval
    subst hkey
    cases hsys : !ModelManager.systemFields.contains k1 with
    | false =>
      rw [List.filter_cons_of_neg (by simp only [hsys]; exact Bool.false_ne_true),
        List.filter_cons_of_neg (by simp only [hsys]; exact Bool.false_ne_true)]
      exact ih l2 hrest
    | true =>
      rw [List.filter_cons_of_pos (by simp only [hsys]),
        List.filter_cons_of_pos (by simp only [hsys]),
        List.map_cons, List.map_cons, ih l2 hrest]
      congr 1
      by_cases hs : ModelManager.isSensitiveKey toLowerCase k1 = true
      · simp only [hs, if_true]
      · simp only [hs, Bool.false_eq_true, if_false]
        rw [hval (fun hsec => hs ((secretKey_iff _ _).2 hsec))]

theorem sanitize_sameButSecrets (toLowerCase : String → String) (n1 n2 : Node)
    (h : Spec.sameButSecrets toLowerCase n1 n2) :
    ModelManager.sanitizeNodeConfig toLowerCase n1
      = ModelManager.sanitizeNodeConfig toLowerCase n2 := by
  obtain ⟨hid, htype, hwires, hfunc, hurl, hmethod, hprops⟩ := h
  unfold ModelManager.sanitizeNodeConfig Node.entries
  simp only [deleteFields_eq, hid, htype, hwires, hfunc, hurl, hmethod, List.filter_append,
    List.map_append]
  rw [redact_sameButSecrets toLowerCase n1.props n2.props hprops]

/-- C28: for every case mapping that leaves the word name as it is, if two
flows differ only in the values of node fields whose key contains,
case-insensitively, one of password, token, apikey, secret, key, credentials,
auth, cert, private, then `prepareFlowData` returns the same snapshot for
both, and `buildPrompt` the same prompt for every analysis type. -/
theorem prepareFlowData_noninterference (toLowerCase : String → String) (f1 f2 : Flow)
    (hname : toLowerCase "name" = "name")
    (h : Spec.flowsSameButSecrets toLowerCase f1 f2) :
    ModelManager.prepareFlowData toLowerCase f1 = ModelManager.prepareFlowData toLowerCase f2 ∧
      ∀ analysisType, ModelManager.buildPrompt toLowerCase f1 analysisType
        = ModelManager.buildPrompt toLowerCase f2 analysisType := by
  have hn : ¬ Spec.secretKey toLowerCase "name" := by
    unfold Spec.secretKey
    rw [hname]
    decide
  have hprep : ModelManager.prepareFlowData toLowerCase f1
      = ModelManager.prepareFlowData toLowerCase f2 := by
    obtain ⟨hid, hlabel, htype, hnodes⟩ := h
    unfold ModelManager.prepareFlowData
    rw [hid, hlabel, htype]
    cases h1 : f1.nodes with
    | none =>
      cases h2 : f2.nodes with
      | none => rfl
      | some ns2 => rw [h1, h2] at hnodes; exact absurd hnodes id
    | some ns1 =>
      cases h2 : f2.nodes with
      | none => rw [h1, h2] at hnodes; exact absurd hnodes id
      | some ns2 =>
        rw [h1, h2] at hnodes
        simp only at hnodes
        have hlen : ns1.length = ns2.length := hnodes.length_eq
        have hmap : ns1.map (fun node =>
            ({ id := node.id, type := node.type,
               name := match node.props.lookup "name" with
                 | some v => if v.truthy then v else Val.str ""
                 | none => Val.str "",
               config := ModelManager.sanitizeNodeConfig toLowerCase node,
               wires := node.wires.getD [] } : NodeInfo))
            = ns2.map (fun node =>
            ({ id := node.id, type := node.type,
               name := match node.props.lookup "name" with
                 | some v => if v.truthy then v else Val.str ""
                 | none => Val.str "",
               config := ModelManager.sanitizeNodeConfig toLowerCase node,
               wires := node.wires.getD [] } : NodeInfo)) := by
          clear hlen h1 h2
          induction ns1 generalizing ns2 with
          | nil => rw [List.forall₂_nil_left_iff.1 hnodes]
          | cons a l1 ih =>
            obtain ⟨b, l2, hab, hrest, rfl⟩ := List.forall₂_cons_left_iff.1 hnodes
            rw [List.map_cons, List.map_cons, ih l2 hrest]
            congr 1
            rw [sanitize_sameButSecrets toLowerCase a b hab,
              lookup_sameButSecrets toLowerCase "name" hn a.props b.props hab.2.2.2.2.2.2,
              hab.1, hab.2.1, hab.2.2.1]
        simp only [hlen, hmap]
  refine ⟨hprep, fun analysisType => ?_⟩
  unfold ModelManager.buildPrompt
  rw [hprep]

theorem prepareFlowData_noninterference_witness :
    lowerAscii "name" = "name" ∧
      Spec.secretKey lowerAscii "password" ∧
      flowWithPassword "hunter2" ≠ flowWithPassword "swordfish" ∧
      ModelManager.prepareFlowData lowerAscii (flowWithPassword "hunter2")
        = ModelManager.prepareFlowData lowerAscii (flowWithPassword "swordfish") ∧
      ModelManager.buildPrompt lowerAscii (flowWithPassword "hunter2") "securityCheck"
        = ModelManager.buildPrompt lowerAscii (flowWithPassword "swordfish")
            "securityCheck" :=
  have hsec : Spec.secretKey lowerAscii "password" := by
    unfold Spec.secretKey
    decide
  have h := prepareFlowData_noninterference lowerAscii (flowWithPassword "hunter2")
    (flowWithPassword "swordfish") (by decide)
    ⟨rfl, rfl, rfl, List.Forall₂.cons
      ⟨rfl, rfl, rfl, rfl, rfl, rfl,
        List.Forall₂.cons ⟨rfl, fun _ => rfl⟩
          (List.Forall₂.cons ⟨rfl, fun hns => absurd hsec hns⟩ List.Forall₂.nil)⟩
      List.Forall₂.nil⟩
  ⟨by decide, hsec, by decide, h.1, h.2 "securityCheck"⟩

end Noninterference

end CopilotSidebar
